import Mathlib

/-!
Drinking Game: a shallow embedding of `4.Drinking Game/DrinkingGame/main.cpp`

The C++ program lets drinker threads compete for bottles and openers.  The
embedding keeps the data model of the source (`Resource`, `ResourcePool`,
`Drinker`, `DrinkerPool`) and turns every function of the drinker loop into a
state transformer on `World`.

Modelling conventions

* `int` fields are `Int`.  Counters are unbounded: signed overflow is undefined
  in C++ and is not reachable in the runs considered here.
* A `Resource*` is an index into `ResourcePool.resources`; `nullptr` is `none`.
* A `std::mutex` is `Option Nat`: `none` when free, `some t` when thread `t`
  holds it.  A drinker thread is named by its index in `DrinkerPool.drinkers`.
* The values returned by the successive `myRand()` calls are arguments; the
  generator is initialised with `Init(0, INT_MAX)`, so they are naturals.
* Every call that touches a mutex, sleeps, waits or notifies appends an
  observation to `World.trace`, with the number of resource mutexes the acting
  thread holds at that moment.
* A function yields `Res.done` when it returns, `Res.blocked` when the thread
  is parked on a mutex that another thread holds (the state at that point is
  kept), and `Res.undefined` when the C++ behaviour is undefined (null or
  out-of-range access, division by zero, relocking or unlocking a mutex the
  thread does not own).
* `try_lock` is taken to succeed exactly when the mutex is free.
* The sum `bottleCount + openerCount` that `main` computes in an `int` is
  taken modulo `2 ^ 32` (`wrapInt`), so that the checks of `main` are defined
  for all `int` arguments.
* The drinker threads running together are a `Machine`: the shared `World`
  and one position (`Pc`) per thread.  A step of a thread is one call on a
  mutex, a sleep or a notification, followed by the thread's own statements up
  to its next such call; a schedule names the thread that takes each step.
  This granularity fits the program because a counter or pointer is only
  written by the thread that holds the mutex of that resource or owns that
  drinker, and the resource types and `totalResources` are never written
  after `main` has built the pool.
* `Machine` steps through `TryToDrink` only and takes the rest of
  `StartDrinker` as the position `outside`.  `LoopMachine` steps through the
  whole loop of `StartDrinker`, with `poolCondition.wait` as two positions
  (waiting for a notification, notified) and with the two things `main` does
  at stop as actions of their own.  A wait ends by a notification only:
  spurious wake-ups are allowed in C++ but never promised.
* `main` writes `stopDrinkingFlag` while it holds `startingGunMutex`.  Where one
  drinker is followed on its own (`StartDrinkerRun`), each pass says whether
  the write comes before the pass or during its `TryToDrink`.
-/

namespace DrinkingGame

/-- The various types of resources that can be found in the pool. -/
inductive ResourceType
  | Unknown
  | Bottle
  | Opener
  deriving DecidableEq, Repr

/-- Contains all resource-specific data; `resourceMutex` is the owner of the
resource mutex, if any. -/
structure Resource where
  id : Int
  useCount : Int
  lockCount : Int
  type : ResourceType
  resourceMutex : Option Nat
  deriving DecidableEq, Repr

/-- Holds all of the resources, with the mutex of the pool condition. -/
structure ResourcePool where
  totalResources : Int
  poolMutex : Option Nat
  resources : List Resource
  deriving DecidableEq, Repr

/-- Contains all drinker specific information; `bottle` and `opener` point
into the resource pool. -/
structure Drinker where
  id : Int
  drinkCount : Int
  resourceTryCount : Int
  bottle : Option Nat
  opener : Option Nat
  deriving DecidableEq, Repr

/-- Contains the data shared by the drinkers that the drinking loop uses. -/
structure DrinkerPool where
  stopDrinkingFlag : Bool
  startingGunMutex : Option Nat
  drinkers : List Drinker
  deriving DecidableEq, Repr

/-- What a thread does to a mutex, a condition variable or the clock. -/
inductive Event
  | lock (res : Nat)
  | tryLock (res : Nat) (acquired : Bool)
  | unlock (res : Nat)
  | sleep (ms : Int)
  | gunLock
  | gunUnlock
  | readStop (flag : Bool)
  | poolLock
  | poolWait
  | poolUnlock
  | notifyAll
  deriving DecidableEq, Repr

/-- The calls at which a thread can be suspended: `lock()` on a mutex, a sleep
and a wait on a condition variable. -/
def Event.blocking : Event → Bool
  | .lock _ => true
  | .sleep _ => true
  | .gunLock => true
  | .poolLock => true
  | .poolWait => true
  | _ => false

/-- One observed call: the acting thread, the call, and the number of resource
mutexes the thread holds when it makes the call. -/
structure Obs where
  thread : Nat
  event : Event
  held : Nat
  deriving DecidableEq, Repr

/-- The whole shared state of the program, with the log of observed calls. -/
structure World where
  resourcePool : ResourcePool
  drinkerPool : DrinkerPool
  trace : List Obs
  deriving DecidableEq, Repr

/-- Outcome of running a piece of the program from a state. -/
inductive Res (α : Type)
  | done (a : α) (s : World)
  | blocked (s : World)
  | undefined
  deriving DecidableEq, Repr

/-- Sequencing: the rest of the code runs only when the first part returned. -/
def Res.bind {α β : Type} (x : Res α) (f : α → World → Res β) : Res β :=
  match x with
  | .done a s => f a s
  | .blocked s => .blocked s
  | .undefined => .undefined

/-- The state in which the run stopped, when it is defined. -/
def Res.state? {α : Type} : Res α → Option World
  | .done _ s => some s
  | .blocked s => some s
  | .undefined => none

/-- Number of resource mutexes held by thread `d`. -/
def heldBy (s : World) (d : Nat) : Nat :=
  s.resourcePool.resources.countP (fun r => decide (r.resourceMutex = some d))

/-- Append an observation of thread `d` to the log. -/
def emit (d : Nat) (e : Event) (s : World) : World :=
  { s with trace := s.trace ++ [⟨d, e, heldBy s d⟩] }

/-- Overwrite resource `i` of the pool. -/
def setResource (i : Nat) (r : Resource) (s : World) : World :=
  { s with resourcePool :=
      { s.resourcePool with resources := s.resourcePool.resources.set i r } }

/-- Overwrite drinker `d`. -/
def setDrinker (d : Nat) (c : Drinker) (s : World) : World :=
  { s with drinkerPool :=
      { s.drinkerPool with drinkers := s.drinkerPool.drinkers.set d c } }

/-- Source: `resources[i].resourceMutex.lock()` by thread `d`. -/
def lockResource (d i : Nat) (s : World) : Res Unit :=
  match s.resourcePool.resources[i]? with
  | none => .undefined
  | some r =>
    match r.resourceMutex with
    | none => .done () (setResource i { r with resourceMutex := some d } (emit d (.lock i) s))
    | some o => if o = d then .undefined else .blocked (emit d (.lock i) s)

/-- Source: `resources[i].resourceMutex.unlock()` by thread `d`. -/
def unlockResource (d i : Nat) (s : World) : Res Unit :=
  match s.resourcePool.resources[i]? with
  | none => .undefined
  | some r =>
    if r.resourceMutex = some d then
      .done () (setResource i { r with resourceMutex := none } (emit d (.unlock i) s))
    else .undefined

/-- Source: `resources[i].resourceMutex.try_lock()` by thread `d`; the result
tells whether the mutex was acquired. -/
def tryLockResource (d i : Nat) (s : World) : Res Bool :=
  match s.resourcePool.resources[i]? with
  | none => .undefined
  | some r =>
    match r.resourceMutex with
    | none =>
      .done true (setResource i { r with resourceMutex := some d } (emit d (.tryLock i true) s))
    | some o => if o = d then .undefined else .done false (emit d (.tryLock i false) s)

/-- Source: `resources[i].lockCount++`. -/
def incLockCount (i : Nat) (s : World) : Res Unit :=
  match s.resourcePool.resources[i]? with
  | none => .undefined
  | some r => .done () (setResource i { r with lockCount := r.lockCount + 1 } s)

/-- Source: `resources[i].useCount++`. -/
def incUseCount (i : Nat) (s : World) : Res Unit :=
  match s.resourcePool.resources[i]? with
  | none => .undefined
  | some r => .done () (setResource i { r with useCount := r.useCount + 1 } s)

/-- Source: an assignment to a field of `*currentDrinker`. -/
def updDrinker (d : Nat) (f : Drinker → Drinker) (s : World) : Res Unit :=
  match s.drinkerPool.drinkers[d]? with
  | none => .undefined
  | some c => .done () (setDrinker d (f c) s)

/-- Source: `std::this_thread::sleep_for(std::chrono::milliseconds(ms))`. -/
def sleepFor (d : Nat) (ms : Int) (s : World) : Res Unit :=
  .done () (emit d (.sleep ms) s)

/-- Source: `Drink` (main.cpp:158-184).  `r1`, `r2`, `r3` are the three values
drawn from `myRand`. -/
def Drink (d : Nat) (r1 r2 r3 : Nat) (s : World) : Res Unit :=
  let drinkTime : Int := 20 + Int.tmod r1 20
  let drunkTime : Int := 40 + Int.tmod r2 10
  let bathroomTime : Int := 60 + Int.tmod r3 10
  match s.drinkerPool.drinkers[d]? with
  | none => .undefined
  | some c =>
    match c.bottle, c.opener with
    | some b, some o =>
      (incUseCount b s).bind fun _ s =>
      (incUseCount o s).bind fun _ s =>
      (sleepFor d drinkTime s).bind fun _ s =>
      (unlockResource d b s).bind fun _ s =>
      (unlockResource d o s).bind fun _ s =>
      (updDrinker d (fun c => { c with bottle := none }) s).bind fun _ s =>
      (updDrinker d (fun c => { c with opener := none }) s).bind fun _ s =>
      (updDrinker d (fun c => { c with drinkCount := c.drinkCount + 1 }) s).bind fun _ s =>
      match s.drinkerPool.drinkers[d]? with
      | none => .undefined
      | some c =>
        if Int.tmod c.drinkCount 5 = 0 then sleepFor d drunkTime s
        else if Int.tmod c.drinkCount 10 = 0 then sleepFor d bathroomTime s
        else .done () s
    | _, _ => .undefined

/-- Source: the body of the `for` loop of `TryToGetResources`
(main.cpp:239-260), run over the indices still to visit.  The result is `true`
when the function returns `true` from inside the loop and `false` when the loop
runs to its end. -/
def scanLoop (d : Nat) (firstType : ResourceType) : List Nat → World → Res Bool
  | [], s => .done false s
  | i :: rest, s =>
    match s.resourcePool.resources[i]? with
    | none => .undefined
    | some second =>
      if firstType = ResourceType.Bottle then
        if second.type = ResourceType.Opener then
          (tryLockResource d i s).bind fun ok s =>
          if ok then
            (updDrinker d (fun c => { c with opener := some i }) s).bind fun _ s =>
            (incLockCount i s).bind fun _ s => .done true s
          else scanLoop d firstType rest s
        else scanLoop d firstType rest s
      else
        if second.type = ResourceType.Bottle then
          (tryLockResource d i s).bind fun ok s =>
          if ok then
            (updDrinker d (fun c => { c with bottle := some i }) s).bind fun _ s =>
            (incLockCount i s).bind fun _ s => .done true s
          else scanLoop d firstType rest s
        else scanLoop d firstType rest s

/-- Source: `TryToGetResources` (main.cpp:195-265).  `rnd` is the value drawn
from `myRand`. -/
def TryToGetResources (d : Nat) (rnd : Nat) (s : World) : Res Bool :=
  let totalResources := s.resourcePool.totalResources
  if totalResources = 0 then .undefined
  else
    let trying := Int.tmod rnd totalResources
    (updDrinker d (fun c => { c with resourceTryCount := c.resourceTryCount + 1 }) s).bind
    fun _ s =>
    if trying < 0 then .undefined
    else
      let first := trying.toNat
      (lockResource d first s).bind fun _ s =>
      (incLockCount first s).bind fun _ s =>
      match s.resourcePool.resources[first]? with
      | none => .undefined
      | some firstResource =>
        (if firstResource.type = ResourceType.Bottle then
          updDrinker d (fun c => { c with bottle := some first }) s
        else
          updDrinker d (fun c => { c with opener := some first }) s).bind fun _ s =>
        (scanLoop d firstResource.type (List.range totalResources.toNat) s).bind fun found s =>
        if found then .done true s
        else (unlockResource d first s).bind fun _ s => .done false s

/-- Source: `TryToDrink` (main.cpp:276-293). -/
def TryToDrink (d : Nat) (rnd r1 r2 r3 : Nat) (s : World) : Res Bool :=
  (TryToGetResources d rnd s).bind fun got s =>
  if got then
    (Drink d r1 r2 r3 s).bind fun _ s => .done true (emit d .notifyAll s)
  else .done false (emit d .notifyAll s)

/-- Overwrite the owner of `startingGunMutex`. -/
def setGun (m : Option Nat) (s : World) : World :=
  { s with drinkerPool := { s.drinkerPool with startingGunMutex := m } }

/-- Overwrite the owner of `poolMutex`. -/
def setPoolMutex (m : Option Nat) (s : World) : World :=
  { s with resourcePool := { s.resourcePool with poolMutex := m } }

/-- Source: `drinkerPool->startingGunMutex.lock()` by thread `d`. -/
def lockGun (d : Nat) (s : World) : Res Unit :=
  match s.drinkerPool.startingGunMutex with
  | none => .done () (setGun (some d) (emit d .gunLock s))
  | some o => if o = d then .undefined else .blocked (emit d .gunLock s)

/-- Source: `drinkerPool->startingGunMutex.unlock()` by thread `d`. -/
def unlockGun (d : Nat) (s : World) : Res Unit :=
  if s.drinkerPool.startingGunMutex = some d then
    .done () (setGun none (emit d .gunUnlock s))
  else .undefined

/-- Source: `std::unique_lock<std::mutex> IamWaiting(resourcePool->poolMutex)`. -/
def lockPool (d : Nat) (s : World) : Res Unit :=
  match s.resourcePool.poolMutex with
  | none => .done () (setPoolMutex (some d) (emit d .poolLock s))
  | some o => if o = d then .undefined else .blocked (emit d .poolLock s)

/-- Source: `poolCondition.wait(IamWaiting)`.  The wait gives the pool mutex
up while the thread is suspended and holds it again when it returns; the wake
(a notification or a spurious wake) comes from outside the thread. -/
def waitPool (d : Nat) (s : World) : Res Unit :=
  if s.resourcePool.poolMutex = some d then .done () (emit d .poolWait s)
  else .undefined

/-- Source: `IamWaiting.unlock()`. -/
def unlockPool (d : Nat) (s : World) : Res Unit :=
  if s.resourcePool.poolMutex = some d then
    .done () (setPoolMutex none (emit d .poolUnlock s))
  else .undefined

/-- Source: a read of `drinkerPool->stopDrinkingFlag`. -/
def readStop (d : Nat) (s : World) : Res Bool :=
  .done s.drinkerPool.stopDrinkingFlag (emit d (.readStop s.drinkerPool.stopDrinkingFlag) s)

/-- The four values a drinker draws from `myRand` in one pass of its loop. -/
structure Draws where
  rnd : Nat
  r1 : Nat
  r2 : Nat
  r3 : Nat
  deriving DecidableEq, Repr

/-- Source: one pass through the body of `while(true)` in `StartDrinker`
(main.cpp:306-346).  The result is `true` when the pass ends in a `break`
(with `startingGunMutex` still held) and `false` when the loop goes round. -/
def StartDrinkerBody (d : Nat) (k : Draws) (s : World) : Res Bool :=
  (lockGun d s).bind fun _ s =>
  (readStop d s).bind fun stop s =>
  if stop then .done true s
  else
    (unlockGun d s).bind fun _ s =>
    (TryToDrink d k.rnd k.r1 k.r2 k.r3 s).bind fun drank s =>
    if !drank then
      (lockGun d s).bind fun _ s =>
      (readStop d s).bind fun stop s =>
      if stop then .done true s
      else
        (lockPool d s).bind fun _ s =>
        (unlockGun d s).bind fun _ s =>
        (waitPool d s).bind fun _ s =>
        (unlockPool d s).bind fun _ s => .done false s
    else .done false s

/-- Source: `StartDrinker` (main.cpp:302-348), run for at most one pass per
element of the list of draws.  The result is `true` when the function has
returned (a `break`, then the final `startingGunMutex.unlock()`), and `false`
when the draws are used up with the thread still in the loop. -/
def StartDrinker (d : Nat) : List Draws → World → Res Bool
  | [], s => .done false s
  | k :: rest, s =>
    (StartDrinkerBody d k s).bind fun brk s =>
    if brk then (unlockGun d s).bind fun _ s => .done true s
    else StartDrinker d rest s

/-- The type of the second resource `TryToGetResources` looks for once the
first resource has type `t`: an opener for a bottle, a bottle otherwise. -/
def complementary (t : ResourceType) : ResourceType :=
  if t = ResourceType.Bottle then ResourceType.Opener else ResourceType.Bottle

/-- The pool is as `main` builds it: `totalResources` is the positive length of
the resource array. -/
def PoolOK (s : World) : Prop :=
  0 < s.resourcePool.totalResources ∧
    s.resourcePool.totalResources = (s.resourcePool.resources.length : Int)

/-- Resource `i` exists, has type `t` and its mutex is free. -/
def Available (s : World) (t : ResourceType) (i : Nat) : Prop :=
  ∃ r, s.resourcePool.resources[i]? = some r ∧ r.type = t ∧ r.resourceMutex = none

/-- The log of `s2` is the log of `s1` followed by observations that all
satisfy `P`. -/
def Extends (P : Obs → Prop) (s1 s2 : World) : Prop :=
  ∃ T, s2.trace = s1.trace ++ T ∧ ∀ o ∈ T, P o

/-- The assignment that records the second resource `i` in the drinker, for a
first resource of type `ft`. -/
def recordSecond (ft : ResourceType) (i : Nat) (c : Drinker) : Drinker :=
  if ft = ResourceType.Bottle then { c with opener := some i } else { c with bottle := some i }

/-- The assignment that records the first resource `i` in the drinker. -/
def recordFirst (ft : ResourceType) (i : Nat) (c : Drinker) : Drinker :=
  if ft = ResourceType.Bottle then { c with bottle := some i } else { c with opener := some i }

/-- The observations of the scan are `try_lock` calls of thread `d`. -/
def IsTryLockOf (d : Nat) (o : Obs) : Prop :=
  o.thread = d ∧ ∃ i b, o.event = Event.tryLock i b

/-- The observations `TryToGetResources` makes for a first resource `f`, when
the thread held `h0` resource mutexes on entry. -/
def AcquireObs (d f h0 : Nat) (o : Obs) : Prop :=
  o.thread = d ∧
    ((o.event = Event.lock f ∧ o.held = h0) ∨ (∃ i b, o.event = Event.tryLock i b) ∨
      o.event = Event.unlock f)

/-- The state in which the scan of `TryToGetResources` starts. -/
def afterFirst (d f : Nat) (c : Drinker) (rf : Resource) (s : World) : World :=
  setDrinker d
    (recordFirst rf.type f { c with resourceTryCount := c.resourceTryCount + 1 })
    (setResource f { rf with resourceMutex := some d, lockCount := rf.lockCount + 1 }
      (emit d (.lock f) s))

/-- Resource `r` once thread `d` has locked it and counted the lock. -/
def acquired (d : Nat) (r : Resource) : Resource :=
  { r with resourceMutex := some d, lockCount := r.lockCount + 1 }

/-- Drinker `c` once it has counted the try and recorded the first resource. -/
def tried (ft : ResourceType) (f : Nat) (c : Drinker) : Drinker :=
  recordFirst ft f { c with resourceTryCount := c.resourceTryCount + 1 }

/-- The second pointer of a drinker whose first resource has type `ft`: the
opener for a bottle, the bottle otherwise. -/
def secondPointer (ft : ResourceType) (c : Drinker) : Option Nat :=
  if ft = ResourceType.Bottle then c.opener else c.bottle

/-- The mutex owners of the pool, in index order. -/
def lockState (s : World) : List (Option Nat) :=
  s.resourcePool.resources.map (fun r => r.resourceMutex)

/-- The counters of `s'` are those of `s`, except that the `lockCount` of the
resources listed in `touched` is one higher; no `useCount` differs. -/
def CountsBumped (s s' : World) (touched : List Nat) : Prop :=
  s'.resourcePool.resources.length = s.resourcePool.resources.length ∧
  ∀ k r, s.resourcePool.resources[k]? = some r →
    ∃ r', s'.resourcePool.resources[k]? = some r' ∧ r'.useCount = r.useCount ∧
      r'.lockCount = r.lockCount + (if k ∈ touched then 1 else 0)

/-- Resource `r` once a drink has used it and released it. -/
def released (r : Resource) : Resource :=
  { r with useCount := r.useCount + 1, resourceMutex := none }

/-- Drinker `c` once it has finished a drink. -/
def refreshed (c : Drinker) : Drinker :=
  { c with bottle := none, opener := none, drinkCount := c.drinkCount + 1 }

/-- The pause `Drink` takes after releasing the resources, for the value `n`
of `drinkCount` after the increment: the list of sleeps of thread `d`, made
while holding `h` resource mutexes. -/
def pauseObs (d : Nat) (r2 r3 : Nat) (n : Int) (h : Nat) : List Obs :=
  if Int.tmod n 5 = 0 then [⟨d, .sleep (40 + Int.tmod r2 10), h⟩]
  else if Int.tmod n 10 = 0 then [⟨d, .sleep (60 + Int.tmod r3 10), h⟩]
  else []

/-- Sum of `useCount` over all resources. -/
def useSum (s : World) : Int := (s.resourcePool.resources.map (fun r => r.useCount)).sum

/-- Sum of `lockCount` over all resources. -/
def lockSum (s : World) : Int := (s.resourcePool.resources.map (fun r => r.lockCount)).sum

/-- Sum of `drinkCount` over all drinkers. -/
def drinkSum (s : World) : Int := (s.drinkerPool.drinkers.map (fun c => c.drinkCount)).sum

/-- Sum of `resourceTryCount` over all drinkers. -/
def trySum (s : World) : Int :=
  (s.drinkerPool.drinkers.map (fun c => c.resourceTryCount)).sum

/-- Every resource mutex is free. -/
def AllFree (s : World) : Prop := ∀ r ∈ s.resourcePool.resources, r.resourceMutex = none

/-- The state in which `main` starts the drinkers: a well-formed pool, all
counters zero, every mutex free, no drinker pointing at a resource. -/
def Initial (s : World) : Prop :=
  PoolOK s ∧
  (∀ r ∈ s.resourcePool.resources,
    r.useCount = 0 ∧ r.lockCount = 0 ∧ r.resourceMutex = none) ∧
  (∀ c ∈ s.drinkerPool.drinkers,
    c.drinkCount = 0 ∧ c.resourceTryCount = 0 ∧ c.bottle = none ∧ c.opener = none)

/-- One complete call of `TryToDrink`: the drinker and the four values its
random source returns (the last three are used only when the drinker drinks). -/
structure Call where
  drinker : Nat
  rnd : Nat
  r1 : Nat
  r2 : Nat
  r3 : Nat
  deriving DecidableEq, Repr

/-- A sequence of complete `TryToDrink` calls, one after the other. -/
def runCalls : List Call → World → Res Unit
  | [], s => .done () s
  | k :: rest, s =>
    (TryToDrink k.drinker k.rnd k.r1 k.r2 k.r3 s).bind fun _ s => runCalls rest s

/-- Resource `r` after a complete successful cycle that used it. -/
def used (r : Resource) : Resource :=
  { r with useCount := r.useCount + 1, lockCount := r.lockCount + 1 }

/-- All resources of the pool have the same type. -/
def SameType (s : World) : Prop :=
  ∀ r ∈ s.resourcePool.resources, ∀ r' ∈ s.resourcePool.resources, r.type = r'.type

/-- What the drinker loop guarantees of each of its observed calls: a call at
which the thread can be suspended is made holding no resource mutex or two,
and a blocking `lock()` of a resource mutex is made holding none (so a
resource acquired while another is held is acquired by `try_lock`). -/
def NoPartialHold (d : Nat) (o : Obs) : Prop :=
  o.thread = d ∧ (o.event.blocking = true → o.held = 0 ∨ o.held = 2) ∧
    (∀ i, o.event = Event.lock i → o.held = 0)

/-- The drinker is between two cycles: the pool is well formed and the
drinker holds no resource mutex. -/
def Idle (d : Nat) (s : World) : Prop := PoolOK s ∧ heldBy s d = 0

/-- A run from `s` only makes calls that satisfy `NoPartialHold`, whether it
returns or parks, and it leaves the drinker idle when it returns. -/
def Sound {α : Type} (d : Nat) (x : Res α) (s : World) : Prop :=
  (∀ s', x.state? = some s' → Extends (NoPartialHold d) s s') ∧
  (∀ a s', x = .done a s' → Idle d s')

/-- A resource as `main` creates it: both counters zero, mutex free. -/
def freshResource (i : Int) (t : ResourceType) : Resource := ⟨i, 0, 0, t, none⟩

/-- A drinker as `main` creates it: both counters zero, no resource. -/
def freshDrinker (i : Int) : Drinker := ⟨i, 0, 0, none, none⟩

/-- Example: the state `main` builds for 2 drinkers, 2 bottles and 1 opener. -/
def exampleWorld : World :=
  ⟨⟨3, none, [freshResource 0 .Bottle, freshResource 1 .Bottle, freshResource 2 .Opener]⟩,
   ⟨false, none, [freshDrinker 0, freshDrinker 1]⟩, []⟩

/-- Example: the pool of `exampleWorld` while drinker 1 holds the only opener. -/
def contendedWorld : World :=
  ⟨⟨3, none, [freshResource 0 .Bottle, freshResource 1 .Bottle, ⟨2, 0, 1, .Opener, some 1⟩]⟩,
   ⟨false, none, [freshDrinker 0, ⟨1, 0, 1, none, some 2⟩]⟩, []⟩

/-- Example: drinker 0 has drunk 9 times and holds bottle 0 and opener 2, about
to drink for the tenth time. -/
def tenthDrinkWorld : World :=
  ⟨⟨3, none, [⟨0, 9, 12, .Bottle, some 0⟩, freshResource 1 .Bottle, ⟨2, 9, 11, .Opener, some 0⟩]⟩,
   ⟨false, none, [⟨0, 9, 12, some 0, some 2⟩]⟩, []⟩

/-- Example: the state `main` builds for 1 drinker, 1 bottle and no opener. -/
def bottlesOnlyWorld : World :=
  ⟨⟨1, none, [freshResource 0 .Bottle]⟩, ⟨false, none, [freshDrinker 0]⟩, []⟩

/-- Example: three complete `TryToDrink` calls by the two drinkers. -/
def exampleCalls : List Call := [⟨0, 4, 0, 0, 0⟩, ⟨1, 5, 1, 2, 3⟩, ⟨0, 2, 7, 7, 7⟩]

/-- The state a run stops in, or `s` when the run is undefined. -/
def Res.stateOr {α : Type} (x : Res α) (s : World) : World := (x.state?).getD s

/-- Whether the log records a sleep of `ms` milliseconds. -/
def sleepsFor (ms : Int) (s : World) : Bool :=
  s.trace.any (fun o => decide (o.event = Event.sleep ms))

/-- The value an `int` holds after a sum that does not fit: 32-bit two's
complement wrap-around (the sum itself is undefined in C++; this is what the
supported targets compute). -/
def wrapInt (x : Int) : Int := (x + 2147483648) % 4294967296 - 2147483648

/-- The values an `int` can hold, such as the results of `atoi`. -/
def IsInt (x : Int) : Prop := -2147483648 ≤ x ∧ x ≤ 2147483647

/-- How far `main` gets before it starts the drinker threads: it returns
`exitCode`, or `new Resource[resourceCount]` is given a negative length, or
both pools are built. -/
inductive Setup
  | refused (exitCode : Int)
  | allocationFailed
  | built (s : World)
  deriving DecidableEq, Repr

/-- Source: the resource that the loop at main.cpp:494-500 writes at index
`i`; the mutex of a new resource is free. -/
def initResource (bottleCount : Int) (i : Nat) : Resource :=
  { id := i
    useCount := 0
    lockCount := 0
    type := if (i : Int) < bottleCount then ResourceType.Bottle else ResourceType.Opener
    resourceMutex := none }

/-- Source: the drinker that the loop at main.cpp:503-514 writes at index `i`. -/
def initDrinker (i : Nat) : Drinker :=
  { id := i, drinkCount := 0, resourceTryCount := 0, bottle := none, opener := none }

/-- Source: the two pools as main.cpp:478-514 initialises them, for
`resourceCount` resources of which the first `bottleCount` are bottles. -/
def initialWorld (drinkerCount bottleCount resourceCount : Int) : World :=
  { resourcePool :=
      { totalResources := resourceCount
        poolMutex := none
        resources := (List.range resourceCount.toNat).map (initResource bottleCount) }
    drinkerPool :=
      { stopDrinkingFlag := false
        startingGunMutex := none
        drinkers := (List.range drinkerCount.toNat).map initDrinker }
    trace := [] }

/-- Source: `main` (main.cpp:432-514) from the argument check to the end of
the initialisation of both pools.  `drinkerCount`, `bottleCount` and
`openerCount` are the three values `atoi` returned. -/
def mainSetup (argc : Int) (drinkerCount bottleCount openerCount : Int) : Setup :=
  if argc ≠ 4 then .refused 1
  else
    let resourceCount := wrapInt (bottleCount + openerCount)
    if drinkerCount < 0 ∨ bottleCount < 0 ∨ openerCount < 0 then .refused 1
    else if resourceCount = 0 then .refused 1
    else if resourceCount < 0 then .allocationFailed
    else .built (initialWorld drinkerCount bottleCount resourceCount)

/-- Where a drinker stands in a cycle, as far as its log tells: between two
cycles, just after the `try_lock` that completed its pair, asleep in `Drink`
with both resources, after the first `unlock` of `Drink`; `violated` when the
log shows anything else in the middle of a cycle. -/
inductive Phase
  | between
  | acquired
  | drinking
  | halfReleased
  | violated
  deriving DecidableEq, Repr

/-- How one observed call moves the phase.  Between cycles only a successful
`try_lock` starts a cycle; once a cycle has started the only calls allowed are
the sleep of `Drink` and its two unlocks, in that order; a read of
`stopDrinkingFlag` is allowed between cycles only, and only holding nothing. -/
def Phase.next : Phase → Obs → Phase
  | .between, ⟨_, .tryLock _ true, _⟩ => .acquired
  | .between, ⟨_, .readStop _, h⟩ => if h = 0 then .between else .violated
  | .between, _ => .between
  | .acquired, ⟨_, .sleep _, _⟩ => .drinking
  | .drinking, ⟨_, .unlock _, _⟩ => .halfReleased
  | .halfReleased, ⟨_, .unlock _, _⟩ => .between
  | _, _ => .violated

/-- The phase after a log. -/
def phaseAfter (p : Phase) (T : List Obs) : Phase := T.foldl Phase.next p

/-- From `s` to `s'` thread `d` logged whole cycles only: the added log takes
the phase from `between` back to `between`. -/
def WholeCycles (d : Nat) (s s' : World) : Prop :=
  ∃ T, s'.trace = s.trace ++ T ∧ (∀ o ∈ T, o.thread = d) ∧
    phaseAfter Phase.between T = Phase.between

/-- A run from `s` logs whole cycles only, whether it returns or parks, and it
leaves the drinker idle when it returns. -/
def Cyclic {α : Type} (d : Nat) (x : Res α) (s : World) : Prop :=
  (∀ s', x.state? = some s' → WholeCycles d s s') ∧
  (∀ a s', x = .done a s' → Idle d s')

/-- The `drinkCount` of drinker `d`, 0 when there is no such drinker. -/
def drinkCountOf (s : World) (d : Nat) : Int :=
  ((s.drinkerPool.drinkers[d]?).map (fun c => c.drinkCount)).getD 0

/-- An observation that leaves a drinker between cycles: anything but a
successful `try_lock`, a read of the flag being made with nothing held. -/
def Neutral (o : Obs) : Prop :=
  (∀ i, o.event ≠ Event.tryLock i true) ∧ (∀ f, o.event = Event.readStop f → o.held = 0)

/-- A failed `try_lock` of thread `d`. -/
def IsFailedTry (d : Nat) (o : Obs) : Prop :=
  o.thread = d ∧ ∃ i, o.event = Event.tryLock i false

/-- Where a drinker thread stands between two of its steps.  One step is one
call on a mutex, a sleep or the notification, together with the thread's own
statements that follow it up to the next such call.  The part of
`StartDrinker` outside `TryToDrink` touches no resource and no resource
pointer; a thread there is at `outside` and may call `TryToDrink` at any
time. -/
inductive Pc
  /-- In `StartDrinker`, outside `TryToDrink`. -/
  | outside
  /-- In `TryToGetResources`, before `firstResource->resourceMutex.lock()`
  (main.cpp:203), with `trying = first`. -/
  | locking (first : Nat)
  /-- In the `for` loop of `TryToGetResources` (main.cpp:239), before the test
  `i < totalResources`. -/
  | scanning (first i : Nat)
  /-- `TryToGetResources` has returned `true`; `Drink` is entered. -/
  | acquiredPair
  /-- In `Drink`, before `sleep_for(drinkTime)` (main.cpp:167). -/
  | sleeping (drinkTime drunkTime bathroomTime : Int)
  /-- In `Drink`, before `bottle->resourceMutex.unlock()` (main.cpp:170). -/
  | unlockingBottle (drunkTime bathroomTime : Int)
  /-- In `Drink`, before `opener->resourceMutex.unlock()` (main.cpp:171). -/
  | unlockingOpener (drunkTime bathroomTime : Int)
  /-- In `Drink`, before the test of `drinkCount % 5` (main.cpp:176). -/
  | pausing (drunkTime bathroomTime : Int)
  /-- In `TryToDrink`, before `poolCondition.notify_all()` (main.cpp:291);
  `drank` is `wasAbleToDrink`. -/
  | notifying (drank : Bool)
  deriving DecidableEq, Repr

/-- Source: the statements of `TryToDrink`, `TryToGetResources` and `Drink`
(main.cpp:158-293) that thread `d` runs from the position `pc` up to its next
position.  `k` holds the values `myRand` returns if the step draws any.  The
result is `blocked` when the step is a `lock()` of a mutex another thread
holds. -/
def threadStep (d : Nat) (k : Draws) : Pc → World → Res Pc
  | .outside, s =>
    let totalResources := s.resourcePool.totalResources
    if totalResources = 0 then .undefined
    else
      let trying := Int.tmod k.rnd totalResources
      (updDrinker d (fun c => { c with resourceTryCount := c.resourceTryCount + 1 }) s).bind
      fun _ s =>
      if trying < 0 then .undefined else .done (.locking trying.toNat) s
  | .locking first, s =>
    (lockResource d first s).bind fun _ s =>
    (incLockCount first s).bind fun _ s =>
    match s.resourcePool.resources[first]? with
    | none => .undefined
    | some firstResource =>
      (if firstResource.type = ResourceType.Bottle then
        updDrinker d (fun c => { c with bottle := some first }) s
      else
        updDrinker d (fun c => { c with opener := some first }) s).bind fun _ s =>
      .done (.scanning first 0) s
  | .scanning first i, s =>
    if (i : Int) < s.resourcePool.totalResources then
      match s.resourcePool.resources[first]?, s.resourcePool.resources[i]? with
      | some firstResource, some second =>
        if firstResource.type = ResourceType.Bottle then
          if second.type = ResourceType.Opener then
            (tryLockResource d i s).bind fun ok s =>
            if ok then
              (updDrinker d (fun c => { c with opener := some i }) s).bind fun _ s =>
              (incLockCount i s).bind fun _ s => .done .acquiredPair s
            else .done (.scanning first (i + 1)) s
          else .done (.scanning first (i + 1)) s
        else
          if second.type = ResourceType.Bottle then
            (tryLockResource d i s).bind fun ok s =>
            if ok then
              (updDrinker d (fun c => { c with bottle := some i }) s).bind fun _ s =>
              (incLockCount i s).bind fun _ s => .done .acquiredPair s
            else .done (.scanning first (i + 1)) s
          else .done (.scanning first (i + 1)) s
      | _, _ => .undefined
    else
      (unlockResource d first s).bind fun _ s => .done (.notifying false) s
  | .acquiredPair, s =>
    match s.drinkerPool.drinkers[d]? with
    | none => .undefined
    | some c =>
      match c.bottle, c.opener with
      | some b, some o =>
        (incUseCount b s).bind fun _ s =>
        (incUseCount o s).bind fun _ s =>
        .done (.sleeping (20 + Int.tmod k.r1 20) (40 + Int.tmod k.r2 10)
          (60 + Int.tmod k.r3 10)) s
      | _, _ => .undefined
  | .sleeping drinkTime drunkTime bathroomTime, s =>
    (sleepFor d drinkTime s).bind fun _ s => .done (.unlockingBottle drunkTime bathroomTime) s
  | .unlockingBottle drunkTime bathroomTime, s =>
    match s.drinkerPool.drinkers[d]? with
    | none => .undefined
    | some c =>
      match c.bottle with
      | none => .undefined
      | some b =>
        (unlockResource d b s).bind fun _ s =>
        .done (.unlockingOpener drunkTime bathroomTime) s
  | .unlockingOpener drunkTime bathroomTime, s =>
    match s.drinkerPool.drinkers[d]? with
    | none => .undefined
    | some c =>
      match c.opener with
      | none => .undefined
      | some o =>
        (unlockResource d o s).bind fun _ s =>
        (updDrinker d (fun c => { c with bottle := none }) s).bind fun _ s =>
        (updDrinker d (fun c => { c with opener := none }) s).bind fun _ s =>
        (updDrinker d (fun c => { c with drinkCount := c.drinkCount + 1 }) s).bind fun _ s =>
        .done (.pausing drunkTime bathroomTime) s
  | .pausing drunkTime bathroomTime, s =>
    match s.drinkerPool.drinkers[d]? with
    | none => .undefined
    | some c =>
      if Int.tmod c.drinkCount 5 = 0 then
        (sleepFor d drunkTime s).bind fun _ s => .done (.notifying true) s
      else if Int.tmod c.drinkCount 10 = 0 then
        (sleepFor d bathroomTime s).bind fun _ s => .done (.notifying true) s
      else .done (.notifying true) s
  | .notifying _, s => .done .outside (emit d .notifyAll s)

/-- The drinker threads running together: the shared state and the position
of every thread (thread `d` runs `drinkers[d]`). -/
structure Machine where
  world : World
  pcs : List Pc

/-- One scheduling decision: the thread that runs next and the values its
random source returns if the step draws any. -/
structure Turn where
  thread : Nat
  draws : Draws

/-- The machine `main` starts the drinkers in: every thread outside
`TryToDrink`. -/
def Machine.start (s : World) : Machine :=
  ⟨s, List.replicate s.drinkerPool.drinkers.length Pc.outside⟩

/-- One turn.  A thread that is suspended in `lock()` stays where it is, a turn
of a thread that does not exist changes nothing, and the result is `none` when
the step has undefined behaviour. -/
def Machine.step (t : Turn) (m : Machine) : Option Machine :=
  match m.pcs[t.thread]? with
  | none => some m
  | some pc =>
    match threadStep t.thread t.draws pc m.world with
    | .done pc' s => some ⟨s, m.pcs.set t.thread pc'⟩
    | .blocked _ => some m
    | .undefined => none

/-- An interleaved execution: the turns of a schedule, one after the other. -/
def Machine.run : List Turn → Machine → Option Machine
  | [], m => some m
  | t :: rest, m => (m.step t).bind (Machine.run rest)

/-- The owner of the mutex of resource `i`, if it is locked. -/
def ownerOf (s : World) (i : Nat) : Option Nat :=
  (s.resourcePool.resources[i]?).bind (fun r => r.resourceMutex)

/-- The type of resource `i`. -/
def typeOf (s : World) (i : Nat) : Option ResourceType :=
  (s.resourcePool.resources[i]?).map (fun r => r.type)

/-- The resource `drinkers[d].bottle` points at. -/
def bottleOf (s : World) (d : Nat) : Option Nat :=
  (s.drinkerPool.drinkers[d]?).bind (fun c => c.bottle)

/-- The resource `drinkers[d].opener` points at. -/
def openerOf (s : World) (d : Nat) : Option Nat :=
  (s.drinkerPool.drinkers[d]?).bind (fun c => c.opener)

/-- The program's own account of what thread `d` has locked when it stands at
`pc`: the first resource during the scan; the bottle and the opener it points
at from the return of `TryToGetResources` to the unlock of the bottle; the
opener it points at until the unlock of the opener; nothing elsewhere. -/
def Pc.holds (s : World) (d : Nat) : Pc → Nat → Prop
  | .scanning first _, i => i = first
  | .acquiredPair, i => bottleOf s d = some i ∨ openerOf s d = some i
  | .sleeping _ _ _, i => bottleOf s d = some i ∨ openerOf s d = some i
  | .unlockingBottle _ _, i => bottleOf s d = some i ∨ openerOf s d = some i
  | .unlockingOpener _ _, i => openerOf s d = some i
  | _, _ => False

/-- Thread `d` of the machine stands where the program has locked resource `i`
and not yet unlocked it. -/
def Holds (m : Machine) (d i : Nat) : Prop :=
  ∃ pc, m.pcs[d]? = some pc ∧ pc.holds m.world d i

/-- The positions between the return of a successful `TryToGetResources` and
the first unlock in `Drink`. -/
def Pc.drinking : Pc → Bool
  | .acquiredPair => true
  | .sleeping _ _ _ => true
  | .unlockingBottle _ _ => true
  | _ => false

/-- A bound on the number of its own steps after which a thread at `pc` holds
no resource mutex, in a pool of `n` resources; 0 where it holds none. -/
def Pc.remaining (n : Nat) : Pc → Nat
  | .scanning _ i => 5 + (n - i)
  | .acquiredPair => 4
  | .sleeping _ _ _ => 3
  | .unlockingBottle _ _ => 2
  | .unlockingOpener _ _ => 1
  | _ => 0

/-- What the data must satisfy for a thread at `pc`: the index it is about to
lock exists; during the scan the first resource is recorded in the pointer of
its type; while drinking both pointers are set, to different resources. -/
def Pc.Placed (s : World) (d : Nat) : Pc → Prop
  | .locking first => first < s.resourcePool.resources.length
  | .scanning first _ =>
    ∃ t, typeOf s first = some t ∧
      (if t = ResourceType.Bottle then bottleOf s d = some first
        else openerOf s d = some first)
  | .acquiredPair => ∃ b o, bottleOf s d = some b ∧ openerOf s d = some o ∧ b ≠ o
  | .sleeping _ _ _ => ∃ b o, bottleOf s d = some b ∧ openerOf s d = some o ∧ b ≠ o
  | .unlockingBottle _ _ => ∃ b o, bottleOf s d = some b ∧ openerOf s d = some o ∧ b ≠ o
  | .unlockingOpener _ _ => ∃ o, openerOf s d = some o
  | _ => True

/-- The invariant of the interleaved executions: the pool keeps its shape,
there is one thread per drinker, the owner of every locked mutex is exactly
the thread that stands where the program has it locked, and the data fits
every thread's position. -/
structure Inv (m : Machine) : Prop where
  pool : PoolOK m.world
  threads : m.pcs.length = m.world.drinkerPool.drinkers.length
  owned : ∀ d i, ownerOf m.world i = some d ↔ Holds m d i
  placed : ∀ (d : Nat) (pc : Pc), m.pcs[d]? = some pc → pc.Placed m.world d

/-- What a step of thread `d` leaves as it was: the shape of the pools, the
type of every resource, the pointers of the other drinkers and the mutexes the
other threads hold. -/
structure Frame (d : Nat) (s s' : World) : Prop where
  total : s'.resourcePool.totalResources = s.resourcePool.totalResources
  size : s'.resourcePool.resources.length = s.resourcePool.resources.length
  crowd : s'.drinkerPool.drinkers.length = s.drinkerPool.drinkers.length
  types : ∀ j, typeOf s' j = typeOf s j
  bottles : ∀ e, e ≠ d → bottleOf s' e = bottleOf s e
  openers : ∀ e, e ≠ d → openerOf s' e = openerOf s e
  owners : ∀ e j, e ≠ d → (ownerOf s' j = some e ↔ ownerOf s j = some e)

/-- Example: a schedule of the two drinkers of `exampleWorld` in which drinker
0 takes bottle 1 and opener 2 while drinker 1 waits for bottle 1. -/
def exampleSchedule : List Turn :=
  [⟨0, ⟨4, 0, 0, 0⟩⟩, ⟨1, ⟨4, 1, 1, 1⟩⟩, ⟨0, ⟨0, 0, 0, 0⟩⟩, ⟨1, ⟨0, 0, 0, 0⟩⟩,
   ⟨0, ⟨0, 0, 0, 0⟩⟩, ⟨0, ⟨0, 0, 0, 0⟩⟩, ⟨0, ⟨0, 0, 0, 0⟩⟩, ⟨0, ⟨0, 3, 3, 3⟩⟩]

/-- Thread `d` can take its step from `pc`: the step is defined and not
suspended, it leaves the rest of the machine as it was, afterwards the mutexes
the thread owns are those its new position accounts for, and a thread that
held a resource has come closer to holding none. -/
def GoodStep (m : Machine) (d : Nat) (k : Draws) (pc : Pc) : Prop :=
  ∃ pc' s', threadStep d k pc m.world = .done pc' s' ∧ Frame d m.world s' ∧
    (∀ i, ownerOf s' i = some d ↔ pc'.holds s' d i) ∧ pc'.Placed s' d ∧
    (0 < pc.remaining m.world.resourcePool.resources.length →
      pc'.remaining m.world.resourcePool.resources.length
        < pc.remaining m.world.resourcePool.resources.length)

/-- The locks a thread at `pc` has counted in `lockCount` beyond what its
`resourceTryCount` and `drinkCount` account for: one too few between the
increment of `resourceTryCount` and the first lock, one too many between the
second lock and the increment of `drinkCount`. -/
def Pc.lockAhead : Pc → Int
  | .locking _ => -1
  | .acquiredPair => 1
  | .sleeping _ _ _ => 1
  | .unlockingBottle _ _ => 1
  | .unlockingOpener _ _ => 1
  | _ => 0

/-- The uses a thread at `pc` has counted in `useCount` beyond twice its
`drinkCount`: two between the increments of `useCount` and that of
`drinkCount`. -/
def Pc.useAhead : Pc → Int
  | .sleeping _ _ _ => 2
  | .unlockingBottle _ _ => 2
  | .unlockingOpener _ _ => 2
  | _ => 0

/-- The attempt a thread at `pc` has counted in `resourceTryCount` and that has
neither failed nor been counted in `drinkCount` yet. -/
def Pc.tryAhead : Pc → Int
  | .locking _ => 1
  | .scanning _ _ => 1
  | .acquiredPair => 1
  | .sleeping _ _ _ => 1
  | .unlockingBottle _ _ => 1
  | .unlockingOpener _ _ => 1
  | _ => 0

/-- The four totals of `s'` are those of `s` raised by `a` (`lockCount`), `b`
(`useCount`), `c` (`resourceTryCount`) and `e` (`drinkCount`). -/
structure Shift (a b c e : Int) (s s' : World) : Prop where
  lock : lockSum s' = lockSum s + a
  use : useSum s' = useSum s + b
  tried : trySum s' = trySum s + c
  drunk : drinkSum s' = drinkSum s + e

/-- The counters of a machine add up: the totals of `lockCount` and `useCount`
are what the totals of `resourceTryCount` and `drinkCount` give, corrected for
the calls of `TryToDrink` that are under way. -/
structure Counted (m : Machine) : Prop where
  locks : lockSum m.world
    = trySum m.world + drinkSum m.world + (m.pcs.map Pc.lockAhead).sum
  uses : useSum m.world = 2 * drinkSum m.world + (m.pcs.map Pc.useAhead).sum
  tries : drinkSum m.world + (m.pcs.map Pc.tryAhead).sum ≤ trySum m.world

/-- Every call of `TryToDrink` that was started has returned. -/
def Machine.Quiet (m : Machine) : Prop := ∀ pc ∈ m.pcs, pc = Pc.outside

/-- Example: a schedule of the two drinkers of `exampleWorld` in which both
take bottle-first attempts in turn; drinker 1 fails while drinker 0 holds the
only opener, then both calls complete. -/
def contendedSchedule : List Turn :=
  [⟨0, ⟨4, 0, 0, 0⟩⟩, ⟨1, ⟨3, 1, 1, 1⟩⟩, ⟨0, ⟨0, 0, 0, 0⟩⟩, ⟨1, ⟨0, 0, 0, 0⟩⟩,
   ⟨0, ⟨0, 0, 0, 0⟩⟩, ⟨0, ⟨0, 0, 0, 0⟩⟩, ⟨0, ⟨0, 0, 0, 0⟩⟩,
   ⟨1, ⟨0, 0, 0, 0⟩⟩, ⟨1, ⟨0, 0, 0, 0⟩⟩, ⟨1, ⟨0, 0, 0, 0⟩⟩, ⟨1, ⟨0, 0, 0, 0⟩⟩,
   ⟨1, ⟨0, 0, 0, 0⟩⟩,
   ⟨0, ⟨0, 3, 3, 3⟩⟩, ⟨0, ⟨0, 0, 0, 0⟩⟩, ⟨0, ⟨0, 0, 0, 0⟩⟩, ⟨0, ⟨0, 0, 0, 0⟩⟩,
   ⟨0, ⟨0, 0, 0, 0⟩⟩, ⟨0, ⟨0, 0, 0, 0⟩⟩]

/-- Example: the state `main` builds for 2 drinkers, 1 bottle and 1 opener. -/
def pairWorld : World :=
  ⟨⟨2, none, [freshResource 0 .Bottle, freshResource 1 .Opener]⟩,
   ⟨false, none, [freshDrinker 0, freshDrinker 1]⟩, []⟩

/-- Example: a schedule of the two drinkers of `pairWorld` in which drinker 0
locks the bottle, drinker 1 locks the opener, each fails to get the other
resource, and both calls of `TryToDrink` return `false`. -/
def bothFailSchedule : List Turn :=
  [⟨0, ⟨0, 0, 0, 0⟩⟩, ⟨1, ⟨1, 0, 0, 0⟩⟩, ⟨0, ⟨0, 0, 0, 0⟩⟩, ⟨1, ⟨0, 0, 0, 0⟩⟩,
   ⟨0, ⟨0, 0, 0, 0⟩⟩, ⟨0, ⟨0, 0, 0, 0⟩⟩, ⟨1, ⟨0, 0, 0, 0⟩⟩, ⟨1, ⟨0, 0, 0, 0⟩⟩,
   ⟨0, ⟨0, 0, 0, 0⟩⟩, ⟨1, ⟨0, 0, 0, 0⟩⟩, ⟨0, ⟨0, 0, 0, 0⟩⟩, ⟨1, ⟨0, 0, 0, 0⟩⟩]

/-- Source: `poolOfDrinkers.stopDrinkingFlag = true` in `main` (main.cpp:550),
which `main` writes while it holds `startingGunMutex`; `now` tells whether
`main` has done so at this point of the drinker's run. -/
def raiseStop (now : Bool) (s : World) : World :=
  if now then { s with drinkerPool := { s.drinkerPool with stopDrinkingFlag := true } } else s

/-- What one pass of the drinker's loop meets: the values the drinker draws,
and whether `main` sets `stopDrinkingFlag` before the pass locks
`startingGunMutex` at the top of the loop (`stopBefore`) or while the drinker
is in `TryToDrink` (`stopDuring`).  These are the only stretches of a pass in
which the drinker does not hold `startingGunMutex`, apart from the wait, which
ends where the next pass begins. -/
structure Pass where
  draws : Draws
  stopBefore : Bool
  stopDuring : Bool
  deriving DecidableEq, Repr

/-- Source: one pass through the body of `while(true)` in `StartDrinker`
(main.cpp:306-346), with the write of `main` to `stopDrinkingFlag` taking place
where `p` says.  The result is `true` when the pass ends in a `break` (with
`startingGunMutex` still held) and `false` when the loop goes round. -/
def StartDrinkerPass (d : Nat) (p : Pass) (s : World) : Res Bool :=
  (lockGun d (raiseStop p.stopBefore s)).bind fun _ s =>
  (readStop d s).bind fun stop s =>
  if stop then .done true s
  else
    (unlockGun d s).bind fun _ s =>
    (TryToDrink d p.draws.rnd p.draws.r1 p.draws.r2 p.draws.r3 s).bind fun drank s =>
    if !drank then
      (lockGun d (raiseStop p.stopDuring s)).bind fun _ s =>
      (readStop d s).bind fun stop s =>
      if stop then .done true s
      else
        (lockPool d s).bind fun _ s =>
        (unlockGun d s).bind fun _ s =>
        (waitPool d s).bind fun _ s =>
        (unlockPool d s).bind fun _ s => .done false s
    else .done false (raiseStop p.stopDuring s)

/-- Source: `StartDrinker` (main.cpp:302-348) run while `main` may set
`stopDrinkingFlag`, for at most one pass per element of the list.  The result
is `true` when the function has returned (a `break`, then the final
`startingGunMutex.unlock()`), and `false` when the passes are used up with the
thread still in the loop. -/
def StartDrinkerRun (d : Nat) : List Pass → World → Res Bool
  | [], s => .done false s
  | p :: rest, s =>
    (StartDrinkerPass d p s).bind fun brk s =>
    if brk then (unlockGun d s).bind fun _ s => .done true s
    else StartDrinkerRun d rest s

/-- Example: drinker 0 drinks in its first pass; `main` sets the flag before
the second. -/
def stopAfterDrink : List Pass := [⟨⟨4, 0, 0, 0⟩, false, false⟩, ⟨⟨3, 1, 1, 1⟩, true, false⟩]

/-- Example: `main` sets the flag while drinker 0 is in `TryToDrink`. -/
def stopDuringAttempt : List Pass := [⟨⟨4, 0, 0, 0⟩, false, true⟩]

/-- Where a drinker thread stands in `StartDrinker` (main.cpp:302-348) between
two of its steps; inside `TryToDrink` it is at a position of the call. -/
inductive LoopPc
  /-- Before `startingGunMutex.lock()` at the top of the loop (main.cpp:310). -/
  | top
  /-- The flag was read clear: before `startingGunMutex.unlock()`
  (main.cpp:316) and the call of `TryToDrink`. -/
  | unlockingGun
  /-- In `TryToDrink`. -/
  | calling (pc : Pc)
  /-- `TryToDrink` returned `false`: before `startingGunMutex.lock()`
  (main.cpp:324). -/
  | recheck
  /-- The flag was read clear again: before the lock of `poolMutex` by
  `IamWaiting` (main.cpp:337). -/
  | lockingPool
  /-- Before `startingGunMutex.unlock()` (main.cpp:338). -/
  | unlockingGunToWait
  /-- Before `poolCondition.wait(IamWaiting)` (main.cpp:340). -/
  | waiting
  /-- In `wait`: `poolMutex` is released and no notification has come. -/
  | parked
  /-- In `wait`: notified, before `poolMutex` is locked again. -/
  | woken
  /-- Before `IamWaiting.unlock()` (main.cpp:341). -/
  | unlockingPool
  /-- After a `break`: before the last `startingGunMutex.unlock()`
  (main.cpp:347). -/
  | leaving
  /-- `StartDrinker` has returned. -/
  | returned
  deriving DecidableEq, Repr

/-- Source: the statements of `StartDrinker` (main.cpp:302-348) that thread `d`
runs from the position `pc` up to its next position; inside `TryToDrink` these
are the statements of `threadStep`.  The result is `blocked` when the thread
cannot go on by itself: it is in the `lock()` of a mutex another thread holds,
it is waiting on `poolCondition` and has not been notified, or it has
returned. -/
def loopStep (d : Nat) (k : Draws) : LoopPc → World → Res LoopPc
  | .top, s =>
    (lockGun d s).bind fun _ s =>
    (readStop d s).bind fun stop s =>
    if stop then .done .leaving s else .done .unlockingGun s
  | .unlockingGun, s =>
    (unlockGun d s).bind fun _ s =>
    (threadStep d k Pc.outside s).bind fun pc s => .done (.calling pc) s
  | .calling (Pc.notifying drank), s =>
    (threadStep d k (Pc.notifying drank) s).bind fun _ s =>
    if !drank then .done .recheck s else .done .top s
  | .calling pc, s =>
    (threadStep d k pc s).bind fun pc s => .done (.calling pc) s
  | .recheck, s =>
    (lockGun d s).bind fun _ s =>
    (readStop d s).bind fun stop s =>
    if stop then .done .leaving s else .done .lockingPool s
  | .lockingPool, s => (lockPool d s).bind fun _ s => .done .unlockingGunToWait s
  | .unlockingGunToWait, s => (unlockGun d s).bind fun _ s => .done .waiting s
  | .waiting, s => (waitPool d s).bind fun _ s => .done .parked (setPoolMutex none s)
  | .parked, s => .blocked s
  | .woken, s => (lockPool d s).bind fun _ s => .done .unlockingPool s
  | .unlockingPool, s => (unlockPool d s).bind fun _ s => .done .top s
  | .leaving, s => (unlockGun d s).bind fun _ s => .done .returned s
  | .returned, s => .blocked s

/-- Whether the step from this position calls `poolCondition.notify_all()`. -/
def LoopPc.notifies : LoopPc → Bool
  | .calling (Pc.notifying _) => true
  | _ => false

/-- Source: the effect of `poolCondition.notify_all()` on the threads: every
thread that is waiting on the condition is notified. -/
def wakeAll (pcs : List LoopPc) : List LoopPc :=
  pcs.map fun pc => if pc = LoopPc.parked then LoopPc.woken else pc

/-- The drinker threads running `StartDrinker` together: the shared state and
the position of every thread. -/
structure LoopMachine where
  world : World
  pcs : List LoopPc
  deriving DecidableEq, Repr

/-- What happens next in the machine: a step of a drinker thread, or one of
the two things `main` does after `Pause()` returns. -/
inductive Action
  /-- Thread `thread` takes its next step; `draws` are the values its random
  source returns if the step draws any. -/
  | drinker (thread : Nat) (draws : Draws)
  /-- Source: main.cpp:549-552, `main` locks `startingGunMutex`, sets
  `stopDrinkingFlag` and unlocks. -/
  | requestStop
  /-- Source: main.cpp:557-559, `main` locks `poolMutex`, calls
  `poolCondition.notify_all()` and unlocks. -/
  | wakeWaiters
  deriving DecidableEq, Repr

/-- The machine in which every drinker is about to enter the loop of
`StartDrinker`. -/
def LoopMachine.start (s : World) : LoopMachine :=
  ⟨s, List.replicate s.drinkerPool.drinkers.length LoopPc.top⟩

/-- One action.  A thread that cannot go on by itself stays where it is, as
does `main` while the mutex it needs is held; the result is `none` when the
step has undefined behaviour. -/
def LoopMachine.step (a : Action) (m : LoopMachine) : Option LoopMachine :=
  match a with
  | .drinker t k =>
    match m.pcs[t]? with
    | none => some m
    | some pc =>
      match loopStep t k pc m.world with
      | .done pc' s => some ⟨s, ((if pc.notifies then wakeAll m.pcs else m.pcs).set t pc')⟩
      | .blocked _ => some m
      | .undefined => none
  | .requestStop =>
    if m.world.drinkerPool.startingGunMutex = none then some ⟨raiseStop true m.world, m.pcs⟩
    else some m
  | .wakeWaiters =>
    if m.world.resourcePool.poolMutex = none then some ⟨m.world, wakeAll m.pcs⟩ else some m

/-- An interleaved execution of the drinkers and `main`. -/
def LoopMachine.run : List Action → LoopMachine → Option LoopMachine
  | [], m => some m
  | a :: rest, m => (m.step a).bind (LoopMachine.run rest)

/-- Example: a schedule of the two drinkers of `pairWorld`.  Drinker 0 locks
the bottle and drinker 1 the opener; each scans while the other still holds its
resource, so both calls of `TryToGetResources` fail; both drinkers unlock and
notify while nobody is waiting, find the flag clear, and wait. -/
def parkSchedule : List Action :=
  [.drinker 0 ⟨0, 0, 0, 0⟩, .drinker 0 ⟨0, 0, 0, 0⟩,
   .drinker 1 ⟨1, 0, 0, 0⟩, .drinker 1 ⟨1, 0, 0, 0⟩,
   .drinker 0 ⟨0, 0, 0, 0⟩, .drinker 1 ⟨0, 0, 0, 0⟩,
   .drinker 0 ⟨0, 0, 0, 0⟩, .drinker 0 ⟨0, 0, 0, 0⟩,
   .drinker 1 ⟨0, 0, 0, 0⟩, .drinker 1 ⟨0, 0, 0, 0⟩,
   .drinker 0 ⟨0, 0, 0, 0⟩, .drinker 1 ⟨0, 0, 0, 0⟩,
   .drinker 0 ⟨0, 0, 0, 0⟩, .drinker 1 ⟨0, 0, 0, 0⟩,
   .drinker 0 ⟨0, 0, 0, 0⟩, .drinker 0 ⟨0, 0, 0, 0⟩,
   .drinker 0 ⟨0, 0, 0, 0⟩, .drinker 0 ⟨0, 0, 0, 0⟩,
   .drinker 1 ⟨0, 0, 0, 0⟩, .drinker 1 ⟨0, 0, 0, 0⟩,
   .drinker 1 ⟨0, 0, 0, 0⟩, .drinker 1 ⟨0, 0, 0, 0⟩]

/-- Example: what ends the wait of `parkSchedule`: `main` sets the flag and
notifies, and each drinker locks `poolMutex` again, unlocks it, reads the flag
at the top of the loop and returns. -/
def stopSchedule : List Action :=
  [.requestStop, .wakeWaiters,
   .drinker 0 ⟨0, 0, 0, 0⟩, .drinker 0 ⟨0, 0, 0, 0⟩,
   .drinker 0 ⟨0, 0, 0, 0⟩, .drinker 0 ⟨0, 0, 0, 0⟩,
   .drinker 1 ⟨0, 0, 0, 0⟩, .drinker 1 ⟨0, 0, 0, 0⟩,
   .drinker 1 ⟨0, 0, 0, 0⟩, .drinker 1 ⟨0, 0, 0, 0⟩]

/-- Example: the state `main` builds for 4 drinkers, 2 bottles and 2 openers. -/
def fourWorld : World := initialWorld 4 2 4

/-- Example: a schedule of three of the four drinkers of `fourWorld`.  Drinkers
0 and 1 lock the two bottles and drinker 2 locks opener 2; drinker 0 then gets
opener 3 and drinks, while drinkers 1 and 2 find nothing free and fail. -/
def fourSchedule : List Turn :=
  List.replicate 2 ⟨0, ⟨0, 0, 0, 0⟩⟩ ++ List.replicate 2 ⟨1, ⟨1, 0, 0, 0⟩⟩ ++
  List.replicate 2 ⟨2, ⟨2, 0, 0, 0⟩⟩ ++ List.replicate 4 ⟨0, ⟨0, 0, 0, 0⟩⟩ ++
  List.replicate 4 ⟨1, ⟨0, 0, 0, 0⟩⟩ ++ List.replicate 4 ⟨2, ⟨0, 0, 0, 0⟩⟩ ++
  List.replicate 2 ⟨1, ⟨0, 0, 0, 0⟩⟩ ++ List.replicate 2 ⟨2, ⟨0, 0, 0, 0⟩⟩ ++
  List.replicate 6 ⟨0, ⟨0, 0, 0, 0⟩⟩

end DrinkingGame

/-!
Reservation System: a shallow embedding of `Station::fillUp`
(`5.Reservation System/ReservationSystem/Station.cpp`), run by one car with no
other thread touching the station.

* `freeMask`, `pumpsInStation` and `carsInStation` are `Int`; the bit
  operations are those of two's complement (`Int.land`, `Int.lor`,
  `Int.lnot`), which are exact for `int` and for unsigned masks.  `1 << i` is
  `2 ^ i` for `i < 31`, the sign bit `-2 ^ 31` for `i = 31`, and a fault from
  32 on, where the shift count reaches the width of `int`.
* `Pump::fillTankUp` is not part of the sources at hand: a call is recorded in
  the log with the pump index and the value of `freeMask` during the call.
* The calls on `stationMutex` and `stationCondition` are recorded in the log.
* The product `24 * (carsInStation / pumpsInStation)` is not bounded.
-/

namespace ReservationSystem

/-- What `fillUp` does that is visible outside the station object. -/
inductive StationEvent
  | lock
  | unlock
  | fillTankUp (pump : Nat) (freeMask : Int)
  | notifyAll
  | wait
  | divide (numerator denominator : Int)
  | sleep (ms : Int)
  deriving DecidableEq, Repr

/-- The fields of `Station` that `fillUp` uses, with the log of its calls. -/
structure Station where
  freeMask : Int
  pumpsInStation : Int
  carsInStation : Int
  log : List StationEvent
  deriving DecidableEq, Repr

/-- The undefined operations `fillUp` could reach. -/
inductive Fault
  | shift
  | divisionByZero
  deriving DecidableEq, Repr

/-- Append a call to the log. -/
def record (e : StationEvent) (st : Station) : Station :=
  { st with log := st.log ++ [e] }

/-- Source: `1 << i` on a 32-bit `int`.  For `i < 31` the value is `2 ^ i`; for
`i = 31` it is the `int` whose only set bit is the sign bit, `-2 ^ 31`; from 32
on the shift count is not less than the width of `int` and the behaviour is
undefined. -/
def shiftOne (i : Nat) : Except Fault Int :=
  if i < 31 then .ok ((1 <<< i : Nat) : Int)
  else if i = 31 then .ok (-2147483648)
  else .error .shift

/-- Source: the `for` loop of `Station::fillUp` (Station.cpp:31-49), run over
the pump indices still to visit; the result is the value of `success`. -/
def pumpLoop : List Nat → Station → Except Fault (Bool × Station)
  | [], st => .ok (false, st)
  | i :: rest, st =>
    let st := record .lock st
    match shiftOne i with
    | .error f => .error f
    | .ok bit =>
      if Int.land st.freeMask bit = 0 then
        let st := { st with freeMask := Int.lor st.freeMask bit }
        let st := record .unlock st
        let st := record (.fillTankUp i st.freeMask) st
        let st := record .lock st
        match shiftOne i with
        | .error f => .error f
        | .ok bit =>
          let st := { st with freeMask := Int.land st.freeMask (Int.lnot bit) }
          let st := record .unlock st
          let st := record .notifyAll st
          .ok (true, st)
      else pumpLoop rest (record .unlock st)

/-- Source: `Station::fillUp` (Station.cpp:22-67). -/
def fillUp (st : Station) : Except Fault (Int × Station) :=
  match pumpLoop (List.range st.pumpsInStation.toNat) st with
  | .error f => .error f
  | .ok (success, st) =>
    if success = false then
      let st := record .lock st
      let st := record .wait st
      let st := record .unlock st
      .ok (0, st)
    else
      if st.pumpsInStation = 0 then .error .divisionByZero
      else
        let st := record (.divide st.carsInStation st.pumpsInStation) st
        let st := record (.sleep (24 * Int.tdiv st.carsInStation st.pumpsInStation)) st
        .ok (1, st)

/-- Pump `i` exists and its bit of `freeMask` is clear. -/
def FreePump (st : Station) (i : Nat) : Prop :=
  (i : Int) < st.pumpsInStation ∧ Int.testBit st.freeMask i = false

/-- The log of `n` passes of the loop over busy pumps. -/
def polls : Nat → List StationEvent
  | 0 => []
  | n + 1 => [StationEvent.lock, StationEvent.unlock] ++ polls n

/-- The calls of `fillTankUp` in a log: pump index and `freeMask` during the
call. -/
def fills : List StationEvent → List (Nat × Int)
  | [] => []
  | StationEvent.fillTankUp i m :: rest => (i, m) :: fills rest
  | _ :: rest => fills rest

/-- The divisors of the divisions in a log. -/
def divisors : List StationEvent → List Int
  | [] => []
  | StationEvent.divide _ d :: rest => d :: divisors rest
  | _ :: rest => divisors rest

/-- Example: a station of 3 pumps of which pumps 0 and 2 are in use, with 7
cars. -/
def exampleStation : Station := ⟨5, 3, 7, []⟩

end ReservationSystem

namespace DrinkingGame

section basics

@[simp] theorem emit_resourcePool (d : Nat) (e : Event) (s : World) :
    (emit d e s).resourcePool = s.resourcePool := rfl

@[simp] theorem emit_drinkerPool (d : Nat) (e : Event) (s : World) :
    (emit d e s).drinkerPool = s.drinkerPool := rfl

@[simp] theorem emit_trace (d : Nat) (e : Event) (s : World) :
    (emit d e s).trace = s.trace ++ [⟨d, e, heldBy s d⟩] := rfl

@[simp] theorem setResource_resources (i : Nat) (r : Resource) (s : World) :
    (setResource i r s).resourcePool.resources = s.resourcePool.resources.set i r := rfl

@[simp] theorem setResource_totalResources (i : Nat) (r : Resource) (s : World) :
    (setResource i r s).resourcePool.totalResources = s.resourcePool.totalResources := rfl

@[simp] theorem setResource_poolMutex (i : Nat) (r : Resource) (s : World) :
    (setResource i r s).resourcePool.poolMutex = s.resourcePool.poolMutex := rfl

@[simp] theorem setResource_drinkerPool (i : Nat) (r : Resource) (s : World) :
    (setResource i r s).drinkerPool = s.drinkerPool := rfl

@[simp] theorem setResource_trace (i : Nat) (r : Resource) (s : World) :
    (setResource i r s).trace = s.trace := rfl

@[simp] theorem setDrinker_resourcePool (d : Nat) (c : Drinker) (s : World) :
    (setDrinker d c s).resourcePool = s.resourcePool := rfl

@[simp] theorem setDrinker_drinkers (d : Nat) (c : Drinker) (s : World) :
    (setDrinker d c s).drinkerPool.drinkers = s.drinkerPool.drinkers.set d c := rfl

@[simp] theorem setDrinker_stop (d : Nat) (c : Drinker) (s : World) :
    (setDrinker d c s).drinkerPool.stopDrinkingFlag = s.drinkerPool.stopDrinkingFlag := rfl

@[simp] theorem setDrinker_gun (d : Nat) (c : Drinker) (s : World) :
    (setDrinker d c s).drinkerPool.startingGunMutex = s.drinkerPool.startingGunMutex := rfl

@[simp] theorem setDrinker_trace (d : Nat) (c : Drinker) (s : World) :
    (setDrinker d c s).trace = s.trace := rfl

@[simp] theorem heldBy_emit (d t : Nat) (e : Event) (s : World) :
    heldBy (emit d e s) t = heldBy s t := rfl

@[simp] theorem heldBy_setDrinker (d t : Nat) (c : Drinker) (s : World) :
    heldBy (setDrinker d c s) t = heldBy s t := rfl

theorem Extends.refl (P : Obs → Prop) (s : World) : Extends P s s :=
  ⟨[], by simp, by simp⟩

theorem Extends.trans {P : Obs → Prop} {s1 s2 s3 : World}
    (h12 : Extends P s1 s2) (h23 : Extends P s2 s3) : Extends P s1 s3 := by
  obtain ⟨T1, e1, p1⟩ := h12
  obtain ⟨T2, e2, p2⟩ := h23
  refine ⟨T1 ++ T2, by rw [e2, e1, List.append_assoc], ?_⟩
  intro o ho
  rcases List.mem_append.mp ho with h | h
  · exact p1 o h
  · exact p2 o h

theorem Extends.mono {P Q : Obs → Prop} {s1 s2 : World} (hPQ : ∀ o, P o → Q o)
    (h : Extends P s1 s2) : Extends Q s1 s2 := by
  obtain ⟨T, e, p⟩ := h
  exact ⟨T, e, fun o ho => hPQ o (p o ho)⟩

theorem Extends.of_trace_eq {P : Obs → Prop} {s1 s2 : World} (h : s2.trace = s1.trace) :
    Extends P s1 s2 :=
  ⟨[], by simp [h], by simp⟩

theorem Extends.of_emit {P : Obs → Prop} (d : Nat) (e : Event) (s : World)
    (h : P ⟨d, e, heldBy s d⟩) : Extends P s (emit d e s) :=
  ⟨[⟨d, e, heldBy s d⟩], rfl, by simpa using h⟩

end basics

section primitives

theorem lockResource_free (d i : Nat) (s : World) (r : Resource)
    (h : s.resourcePool.resources[i]? = some r) (hf : r.resourceMutex = none) :
    lockResource d i s =
      .done () (setResource i { r with resourceMutex := some d } (emit d (.lock i) s)) := by
  simp [lockResource, h, hf]

theorem lockResource_busy (d i o : Nat) (s : World) (r : Resource)
    (h : s.resourcePool.resources[i]? = some r) (hf : r.resourceMutex = some o) (hod : o ≠ d) :
    lockResource d i s = .blocked (emit d (.lock i) s) := by
  simp [lockResource, h, hf, hod]

theorem unlockResource_owned (d i : Nat) (s : World) (r : Resource)
    (h : s.resourcePool.resources[i]? = some r) (hf : r.resourceMutex = some d) :
    unlockResource d i s =
      .done () (setResource i { r with resourceMutex := none } (emit d (.unlock i) s)) := by
  simp [unlockResource, h, hf]

theorem tryLockResource_free (d i : Nat) (s : World) (r : Resource)
    (h : s.resourcePool.resources[i]? = some r) (hf : r.resourceMutex = none) :
    tryLockResource d i s =
      .done true (setResource i { r with resourceMutex := some d }
        (emit d (.tryLock i true) s)) := by
  simp [tryLockResource, h, hf]

theorem incLockCount_some (i : Nat) (s : World) (r : Resource)
    (h : s.resourcePool.resources[i]? = some r) :
    incLockCount i s = .done () (setResource i { r with lockCount := r.lockCount + 1 } s) := by
  simp [incLockCount, h]

theorem incUseCount_some (i : Nat) (s : World) (r : Resource)
    (h : s.resourcePool.resources[i]? = some r) :
    incUseCount i s = .done () (setResource i { r with useCount := r.useCount + 1 } s) := by
  simp [incUseCount, h]

theorem updDrinker_some (d : Nat) (f : Drinker → Drinker) (s : World) (c : Drinker)
    (h : s.drinkerPool.drinkers[d]? = some c) :
    updDrinker d f s = .done () (setDrinker d (f c) s) := by
  simp [updDrinker, h]

end primitives

section scan

theorem scanLoop_cons (d : Nat) (ft : ResourceType) (i : Nat) (rest : List Nat) (s : World) :
    scanLoop d ft (i :: rest) s =
      match s.resourcePool.resources[i]? with
      | none => .undefined
      | some second =>
        if second.type = complementary ft then
          (tryLockResource d i s).bind fun ok s =>
          if ok then
            (updDrinker d (recordSecond ft i) s).bind fun _ s =>
            (incLockCount i s).bind fun _ s => .done true s
          else scanLoop d ft rest s
        else scanLoop d ft rest s := by
  by_cases hft : ft = ResourceType.Bottle
  · have h : recordSecond ft i = fun c => { c with opener := some i } := by
      funext c; simp [recordSecond, hft]
    rw [h]
    simp only [scanLoop, hft, complementary, if_true]
  · have h : recordSecond ft i = fun c => { c with bottle := some i } := by
      funext c; simp [recordSecond, hft]
    rw [h]
    simp only [scanLoop, hft, complementary, if_false]

theorem scanLoop_none (d : Nat) (ft : ResourceType) (idxs : List Nat) (s : World)
    (hidx : ∀ i ∈ idxs, i < s.resourcePool.resources.length)
    (hown : ∀ r ∈ s.resourcePool.resources,
      r.type = complementary ft → r.resourceMutex ≠ some d)
    (hnone : ∀ i ∈ idxs, ¬ Available s (complementary ft) i) :
    ∃ s', scanLoop d ft idxs s = .done false s' ∧ s'.resourcePool = s.resourcePool ∧
      s'.drinkerPool = s.drinkerPool ∧ Extends (IsTryLockOf d) s s' := by
  induction idxs generalizing s with
  | nil => exact ⟨s, rfl, rfl, rfl, Extends.refl _ s⟩
  | cons i rest ih =>
    have hi : i < s.resourcePool.resources.length := hidx i (List.mem_cons_self _ _)
    have hget : s.resourcePool.resources[i]? = some s.resourcePool.resources[i] :=
      List.getElem?_eq_getElem hi
    have hrest : ∀ k ∈ rest, k < s.resourcePool.resources.length :=
      fun k hk => hidx k (List.mem_cons_of_mem _ hk)
    have hnrest : ∀ k ∈ rest, ¬ Available s (complementary ft) k :=
      fun k hk => hnone k (List.mem_cons_of_mem _ hk)
    rw [scanLoop_cons, hget]
    by_cases hty : s.resourcePool.resources[i].type = complementary ft
    · simp only [hty, if_true]
      cases hm : s.resourcePool.resources[i].resourceMutex with
      | none => exact absurd ⟨_, hget, hty, hm⟩ (hnone i (List.mem_cons_self _ _))
      | some o =>
        have hod : o ≠ d := by
          intro h
          exact hown _ (List.getElem_mem hi) hty (by rw [hm, h])
        simp only [tryLockResource, hget, hm, hod, if_false, Res.bind]
        obtain ⟨s', h1, h2, h3, h4⟩ :=
          ih (emit d (.tryLock i false) s) hrest hown hnrest
        refine ⟨s', by simpa using h1, h2, h3, ?_⟩
        exact Extends.trans (Extends.of_emit d _ s ⟨rfl, i, false, rfl⟩) h4
    · simp only [hty, if_false]
      exact ih s hrest hown hnrest

theorem scanLoop_some (d : Nat) (ft : ResourceType) (pre post : List Nat) (j : Nat) (s : World)
    (c : Drinker) (rj : Resource)
    (hidx : ∀ i ∈ pre, i < s.resourcePool.resources.length)
    (hown : ∀ r ∈ s.resourcePool.resources,
      r.type = complementary ft → r.resourceMutex ≠ some d)
    (hnone : ∀ i ∈ pre, ¬ Available s (complementary ft) i)
    (hc : s.drinkerPool.drinkers[d]? = some c)
    (hj : s.resourcePool.resources[j]? = some rj)
    (hty : rj.type = complementary ft) (hfree : rj.resourceMutex = none) :
    ∃ s', scanLoop d ft (pre ++ j :: post) s = .done true s' ∧
      s'.resourcePool = { s.resourcePool with
        resources := s.resourcePool.resources.set j
          { rj with resourceMutex := some d, lockCount := rj.lockCount + 1 } } ∧
      s'.drinkerPool = { s.drinkerPool with
        drinkers := s.drinkerPool.drinkers.set d (recordSecond ft j c) } ∧
      Extends (IsTryLockOf d) s s' := by
  obtain ⟨s1, h1, hrp, hdp, hext⟩ := scanLoop_none d ft pre s hidx hown hnone
  have hgo : ∀ (pre : List Nat) (t : World), scanLoop d ft pre t = .done false s1 →
      scanLoop d ft (pre ++ j :: post) t = scanLoop d ft (j :: post) s1 := by
    intro pre
    induction pre with
    | nil =>
      intro t ht
      simp only [scanLoop, Res.done.injEq, true_and] at ht
      simp [ht]
    | cons i rest ih =>
      intro t ht
      rw [scanLoop_cons] at ht
      rw [List.cons_append, scanLoop_cons]
      cases hg : t.resourcePool.resources[i]? with
      | none => simp [hg] at ht
      | some second =>
        simp only [hg] at ht ⊢
        by_cases hsec : second.type = complementary ft
        · simp only [hsec, if_true] at ht ⊢
          cases htl : tryLockResource d i t with
          | undefined => simp [htl, Res.bind] at ht
          | blocked t1 => simp [htl, Res.bind] at ht
          | done ok t1 =>
            simp only [htl, Res.bind] at ht ⊢
            cases ok with
            | false => simp only [Bool.false_eq_true, if_false] at ht ⊢; exact ih t1 ht
            | true =>
              simp only [if_true] at ht
              cases hu : updDrinker d (recordSecond ft i) t1 with
              | undefined => simp [hu, Res.bind] at ht
              | blocked t2 => simp [hu, Res.bind] at ht
              | done u t2 =>
                simp only [hu, Res.bind] at ht
                cases hl : incLockCount i t2 with
                | undefined => simp [hl] at ht
                | blocked t3 => simp [hl] at ht
                | done u3 t3 => simp [hl] at ht
        · simp only [hsec, if_false] at ht ⊢
          exact ih t ht
  have hj1 : s1.resourcePool.resources[j]? = some rj := by rw [hrp]; exact hj
  have hc1 : s1.drinkerPool.drinkers[d]? = some c := by rw [hdp]; exact hc
  have hjlt : j < s.resourcePool.resources.length := by
    rcases List.getElem?_eq_some_iff.mp hj with ⟨h, _⟩
    exact h
  rw [hgo pre s h1, scanLoop_cons, hj1]
  simp only [hty, if_true]
  rw [tryLockResource_free d j s1 rj hj1 hfree]
  simp only [Res.bind, if_true]
  rw [updDrinker_some d _ _ c (by simpa using hc1)]
  simp only [Res.bind]
  rw [incLockCount_some j _ { rj with resourceMutex := some d }
    (by simp [List.getElem?_set, hrp, hjlt])]
  refine ⟨_, rfl, ?_, ?_, ?_⟩
  · simp [setResource, setDrinker, emit, hrp, ← hty]
  · simp [setResource, setDrinker, emit, hdp]
  · refine Extends.trans hext ?_
    refine ⟨[⟨d, .tryLock j true, heldBy s1 d⟩], by simp [setResource, setDrinker, emit], ?_⟩
    intro o ho
    simp only [List.mem_singleton] at ho
    subst ho
    exact ⟨rfl, j, true, rfl⟩

end scan

section acquire

theorem complementary_ne (t : ResourceType) : complementary t ≠ t := by
  cases t <;> simp [complementary]

theorem range_split (n j : Nat) (h : j < n) :
    List.range n = List.range j ++ j :: List.range' (j + 1) (n - j - 1) := by
  have h1 : n = (n - j - 1 + 1) + j := by omega
  rw [List.range_eq_range', List.range_eq_range']
  conv_lhs => rw [h1]
  rw [← List.range'_append_1, Nat.zero_add, List.range'_succ]

theorem tmod_index (rnd : Nat) (s : World) (h : PoolOK s) :
    Int.tmod (rnd : Int) s.resourcePool.totalResources
      = ((rnd % s.resourcePool.resources.length : Nat) : Int) := by
  rw [h.2, Int.tmod_eq_emod (Int.ofNat_nonneg _) (Int.ofNat_nonneg _)]
  exact (Int.natCast_mod rnd _).symm

theorem index_lt (rnd : Nat) (s : World) (h : PoolOK s) :
    rnd % s.resourcePool.resources.length < s.resourcePool.resources.length := by
  have h1 := h.1
  rw [h.2] at h1
  exact Nat.mod_lt _ (by exact_mod_cast h1)

theorem TryToGetResources_start (d rnd : Nat) (s : World) (c : Drinker) (rf : Resource)
    (hpool : PoolOK s) (hc : s.drinkerPool.drinkers[d]? = some c)
    (hrf : s.resourcePool.resources[rnd % s.resourcePool.resources.length]? = some rf)
    (hfree : rf.resourceMutex = none) :
    TryToGetResources d rnd s =
      (scanLoop d rf.type (List.range s.resourcePool.resources.length)
        (afterFirst d (rnd % s.resourcePool.resources.length) c rf s)).bind fun found t =>
        if found then .done true t
        else (unlockResource d (rnd % s.resourcePool.resources.length) t).bind
          fun _ t => .done false t := by
  have hlt := index_lt rnd s hpool
  have hne : s.resourcePool.totalResources ≠ 0 := ne_of_gt hpool.1
  unfold TryToGetResources
  simp only [hne, if_false, tmod_index rnd s hpool]
  rw [updDrinker_some d _ s c hc]
  simp only [Res.bind, Int.toNat_ofNat, not_lt.mpr (Int.ofNat_nonneg _), if_false]
  rw [lockResource_free d _ _ rf (by simpa using hrf) hfree]
  simp only []
  rw [incLockCount_some _ _ { rf with resourceMutex := some d }
    (by simp [List.getElem?_set, hlt])]
  simp only [setResource_resources, List.getElem?_set, List.length_set, hlt, if_true,
    setDrinker_resourcePool, emit_resourcePool, setResource_totalResources, hpool.2,
    Int.toNat_ofNat]
  have hst : ∀ (g : Drinker → Drinker),
      updDrinker d g
        (setResource (rnd % s.resourcePool.resources.length)
          { rf with resourceMutex := some d, lockCount := rf.lockCount + 1 }
          (setResource (rnd % s.resourcePool.resources.length)
            { rf with resourceMutex := some d }
            (emit d (.lock (rnd % s.resourcePool.resources.length))
              (setDrinker d { c with resourceTryCount := c.resourceTryCount + 1 } s))))
      = .done () (setDrinker d (g { c with resourceTryCount := c.resourceTryCount + 1 })
          (setResource (rnd % s.resourcePool.resources.length)
            { rf with resourceMutex := some d, lockCount := rf.lockCount + 1 }
            (emit d (.lock (rnd % s.resourcePool.resources.length)) s))) := by
    intro g
    have hcl : d < s.drinkerPool.drinkers.length := by
      rcases List.getElem?_eq_some_iff.mp hc with ⟨h, _⟩
      exact h
    rw [updDrinker_some d g _ { c with resourceTryCount := c.resourceTryCount + 1 }
      (by simp [List.getElem?_set, hcl])]
    simp [setResource, setDrinker, emit, heldBy]
  by_cases hty : rf.type = ResourceType.Bottle
  · rw [if_pos hty, hst]
    simp only [afterFirst, recordFirst, if_pos hty]
  · rw [if_neg hty, hst]
    simp only [afterFirst, recordFirst, if_neg hty]

theorem afterFirst_resources (d f : Nat) (c : Drinker) (rf : Resource) (s : World) :
    (afterFirst d f c rf s).resourcePool.resources
      = s.resourcePool.resources.set f (acquired d rf) := rfl

theorem afterFirst_drinkers (d f : Nat) (c : Drinker) (rf : Resource) (s : World) :
    (afterFirst d f c rf s).drinkerPool.drinkers
      = s.drinkerPool.drinkers.set d (tried rf.type f c) := rfl

theorem afterFirst_available (d f : Nat) (c : Drinker) (rf : Resource) (s : World)
    (hrf : s.resourcePool.resources[f]? = some rf) (i : Nat) :
    Available (afterFirst d f c rf s) (complementary rf.type) i
      ↔ Available s (complementary rf.type) i := by
  have hflt : f < s.resourcePool.resources.length := by
    rcases List.getElem?_eq_some_iff.mp hrf with ⟨h, _⟩
    exact h
  unfold Available
  rw [afterFirst_resources]
  by_cases hif : f = i
  · subst hif
    simp only [List.getElem?_set, hflt, if_true, hrf, Option.some.injEq]
    constructor
    · rintro ⟨r, rfl, ht, _⟩
      exact absurd ht.symm (complementary_ne rf.type)
    · rintro ⟨r, rfl, ht, _⟩
      exact absurd ht.symm (complementary_ne rf.type)
  · simp only [List.getElem?_set, hif, if_false]

theorem afterFirst_own (d f : Nat) (c : Drinker) (rf : Resource) (s : World)
    (hheld : ∀ r ∈ s.resourcePool.resources, r.resourceMutex ≠ some d) :
    ∀ r ∈ (afterFirst d f c rf s).resourcePool.resources,
      r.type = complementary rf.type → r.resourceMutex ≠ some d := by
  intro r hr ht
  rw [afterFirst_resources] at hr
  rcases List.mem_or_eq_of_mem_set hr with h | h
  · exact hheld r h
  · subst h
    exact absurd ht.symm (complementary_ne _)

theorem TryToGetResources_fail (d rnd : Nat) (s : World) (c : Drinker) (rf : Resource)
    (hpool : PoolOK s) (hc : s.drinkerPool.drinkers[d]? = some c)
    (hheld : ∀ r ∈ s.resourcePool.resources, r.resourceMutex ≠ some d)
    (hrf : s.resourcePool.resources[rnd % s.resourcePool.resources.length]? = some rf)
    (hfree : rf.resourceMutex = none)
    (hnone : ∀ i, ¬ Available s (complementary rf.type) i) :
    ∃ s', TryToGetResources d rnd s = .done false s' ∧
      s'.resourcePool = { s.resourcePool with
        resources := s.resourcePool.resources.set (rnd % s.resourcePool.resources.length)
          { rf with lockCount := rf.lockCount + 1 } } ∧
      s'.drinkerPool = { s.drinkerPool with
        drinkers := s.drinkerPool.drinkers.set d
          (tried rf.type (rnd % s.resourcePool.resources.length) c) } ∧
      Extends (AcquireObs d (rnd % s.resourcePool.resources.length) (heldBy s d)) s s' := by
  have hlt := index_lt rnd s hpool
  rw [TryToGetResources_start d rnd s c rf hpool hc hrf hfree]
  obtain ⟨s1, h1, hrp, hdp, hext⟩ := scanLoop_none d rf.type
    (List.range s.resourcePool.resources.length)
    (afterFirst d (rnd % s.resourcePool.resources.length) c rf s)
    (by intro i hi; rw [afterFirst_resources, List.length_set]; exact List.mem_range.mp hi)
    (afterFirst_own d _ c rf s hheld)
    (by intro i _; rw [afterFirst_available d _ c rf s hrf]; exact hnone i)
  rw [h1]
  simp only [Res.bind, Bool.false_eq_true, if_false]
  rw [unlockResource_owned d _ s1 (acquired d rf)
    (by rw [hrp, afterFirst_resources]; simp [List.getElem?_set, hlt]) rfl]
  refine ⟨_, rfl, ?_, ?_, ?_⟩
  · simp [setResource, emit, hrp, afterFirst, setDrinker, acquired, ← hfree]
  · simp [setResource, emit, hdp, afterFirst, setDrinker, tried]
  · have e1 : Extends (AcquireObs d (rnd % s.resourcePool.resources.length) (heldBy s d)) s
        (afterFirst d (rnd % s.resourcePool.resources.length) c rf s) :=
      ⟨[⟨d, .lock _, heldBy s d⟩], rfl, by
        intro o ho
        simp only [List.mem_singleton] at ho
        subst ho
        exact ⟨rfl, Or.inl ⟨rfl, rfl⟩⟩⟩
    have e2 := Extends.mono
      (Q := AcquireObs d (rnd % s.resourcePool.resources.length) (heldBy s d))
      (fun o ho => ⟨ho.1, Or.inr (Or.inl ho.2)⟩) hext
    refine Extends.trans (Extends.trans e1 e2) ?_
    refine ⟨[⟨d, .unlock _, heldBy s1 d⟩], rfl, ?_⟩
    intro o ho
    simp only [List.mem_singleton] at ho
    subst ho
    exact ⟨rfl, Or.inr (Or.inr rfl)⟩

theorem TryToGetResources_success (d rnd : Nat) (s : World) (c : Drinker) (rf : Resource)
    (j : Nat) (rj : Resource)
    (hpool : PoolOK s) (hc : s.drinkerPool.drinkers[d]? = some c)
    (hheld : ∀ r ∈ s.resourcePool.resources, r.resourceMutex ≠ some d)
    (hrf : s.resourcePool.resources[rnd % s.resourcePool.resources.length]? = some rf)
    (hfree : rf.resourceMutex = none)
    (hj : s.resourcePool.resources[j]? = some rj)
    (hjt : rj.type = complementary rf.type) (hjf : rj.resourceMutex = none)
    (hmin : ∀ i, i < j → ¬ Available s (complementary rf.type) i) :
    ∃ s', TryToGetResources d rnd s = .done true s' ∧
      s'.resourcePool = { s.resourcePool with
        resources := (s.resourcePool.resources.set (rnd % s.resourcePool.resources.length)
          (acquired d rf)).set j (acquired d rj) } ∧
      s'.drinkerPool = { s.drinkerPool with
        drinkers := s.drinkerPool.drinkers.set d
          (recordSecond rf.type j
            (tried rf.type (rnd % s.resourcePool.resources.length) c)) } ∧
      Extends (AcquireObs d (rnd % s.resourcePool.resources.length) (heldBy s d)) s s' := by
  have hlt := index_lt rnd s hpool
  have hjlt : j < s.resourcePool.resources.length := by
    rcases List.getElem?_eq_some_iff.mp hj with ⟨h, _⟩
    exact h
  have hcl : d < s.drinkerPool.drinkers.length := by
    rcases List.getElem?_eq_some_iff.mp hc with ⟨h, _⟩
    exact h
  have hjf' : rnd % s.resourcePool.resources.length ≠ j := by
    intro h
    rw [h, hj] at hrf
    injection hrf with hrf
    rw [hrf] at hjt
    exact complementary_ne _ hjt.symm
  rw [TryToGetResources_start d rnd s c rf hpool hc hrf hfree,
    range_split _ j hjlt]
  obtain ⟨s1, h1, hrp, hdp, hext⟩ := scanLoop_some d rf.type (List.range j)
    (List.range' (j + 1) (s.resourcePool.resources.length - j - 1)) j
    (afterFirst d (rnd % s.resourcePool.resources.length) c rf s)
    (tried rf.type (rnd % s.resourcePool.resources.length) c) rj
    (by
      intro i hi
      rw [afterFirst_resources, List.length_set]
      exact lt_trans (List.mem_range.mp hi) hjlt)
    (afterFirst_own d _ c rf s hheld)
    (by
      intro i hi
      rw [afterFirst_available d _ c rf s hrf]
      exact hmin i (List.mem_range.mp hi))
    (by rw [afterFirst_drinkers]; simp [List.getElem?_set, hcl])
    (by rw [afterFirst_resources]; simp [List.getElem?_set, hjf', hj])
    hjt hjf
  rw [h1]
  simp only [Res.bind, if_true]
  refine ⟨_, rfl, ?_, ?_, ?_⟩
  · rw [hrp]
    simp [afterFirst, setDrinker, setResource, emit, acquired]
  · rw [hdp]
    simp [afterFirst, setDrinker, setResource, emit, tried]
  · have e1 : Extends (AcquireObs d (rnd % s.resourcePool.resources.length) (heldBy s d)) s
        (afterFirst d (rnd % s.resourcePool.resources.length) c rf s) :=
      ⟨[⟨d, .lock _, heldBy s d⟩], rfl, by
        intro o ho
        simp only [List.mem_singleton] at ho
        subst ho
        exact ⟨rfl, Or.inl ⟨rfl, rfl⟩⟩⟩
    have e2 := Extends.mono
      (Q := AcquireObs d (rnd % s.resourcePool.resources.length) (heldBy s d))
      (fun o ho => ⟨ho.1, Or.inr (Or.inl ho.2)⟩) hext
    exact Extends.trans e1 e2

theorem TryToGetResources_busy (d rnd o : Nat) (s : World) (c : Drinker) (rf : Resource)
    (hpool : PoolOK s) (hc : s.drinkerPool.drinkers[d]? = some c)
    (hrf : s.resourcePool.resources[rnd % s.resourcePool.resources.length]? = some rf)
    (hbusy : rf.resourceMutex = some o) (hod : o ≠ d) :
    TryToGetResources d rnd s =
      .blocked (emit d (.lock (rnd % s.resourcePool.resources.length))
        (setDrinker d { c with resourceTryCount := c.resourceTryCount + 1 } s)) := by
  have hne : s.resourcePool.totalResources ≠ 0 := ne_of_gt hpool.1
  unfold TryToGetResources
  simp only [hne, if_false, tmod_index rnd s hpool]
  rw [updDrinker_some d _ s c hc]
  simp only [Res.bind, Int.toNat_ofNat, not_lt.mpr (Int.ofNat_nonneg _), if_false]
  rw [lockResource_busy d _ o _ rf (by simpa using hrf) hbusy hod]

end acquire

section outcome

theorem heldBy_zero_iff (s : World) (d : Nat) :
    heldBy s d = 0 ↔ ∀ r ∈ s.resourcePool.resources, r.resourceMutex ≠ some d := by
  simp [heldBy, List.countP_eq_zero]

theorem exists_least_available (s : World) (t : ResourceType)
    (h : ∃ i, Available s t i) :
    ∃ j, Available s t j ∧ ∀ i, i < j → ¬ Available s t i := by
  classical
  exact ⟨Nat.find h, Nat.find_spec h, fun i hi => Nat.find_min h hi⟩

/-- Complete description of a call of `TryToGetResources` by a drinker that
holds no resource mutex: it is parked when the first resource is held by
another thread, fails when no complementary resource is available, and
otherwise succeeds on the available complementary resource of least index. -/
theorem TryToGetResources_outcome (d rnd : Nat) (s : World) (c : Drinker) (rf : Resource)
    (hpool : PoolOK s) (hc : s.drinkerPool.drinkers[d]? = some c)
    (hheld : heldBy s d = 0)
    (hrf : s.resourcePool.resources[rnd % s.resourcePool.resources.length]? = some rf) :
    (∃ o, rf.resourceMutex = some o ∧ o ≠ d ∧
      TryToGetResources d rnd s =
        .blocked (emit d (.lock (rnd % s.resourcePool.resources.length))
          (setDrinker d { c with resourceTryCount := c.resourceTryCount + 1 } s))) ∨
    (rf.resourceMutex = none ∧ (∀ i, ¬ Available s (complementary rf.type) i) ∧
      ∃ s', TryToGetResources d rnd s = .done false s' ∧
        s'.resourcePool = { s.resourcePool with
          resources := s.resourcePool.resources.set (rnd % s.resourcePool.resources.length)
            { rf with lockCount := rf.lockCount + 1 } } ∧
        s'.drinkerPool = { s.drinkerPool with
          drinkers := s.drinkerPool.drinkers.set d
            (tried rf.type (rnd % s.resourcePool.resources.length) c) } ∧
        Extends (AcquireObs d (rnd % s.resourcePool.resources.length) 0) s s') ∨
    (rf.resourceMutex = none ∧ ∃ j rj, s.resourcePool.resources[j]? = some rj ∧
      rj.type = complementary rf.type ∧ rj.resourceMutex = none ∧
      (∀ i, i < j → ¬ Available s (complementary rf.type) i) ∧
      ∃ s', TryToGetResources d rnd s = .done true s' ∧
        s'.resourcePool = { s.resourcePool with
          resources := (s.resourcePool.resources.set (rnd % s.resourcePool.resources.length)
            (acquired d rf)).set j (acquired d rj) } ∧
        s'.drinkerPool = { s.drinkerPool with
          drinkers := s.drinkerPool.drinkers.set d
            (recordSecond rf.type j
              (tried rf.type (rnd % s.resourcePool.resources.length) c)) } ∧
        Extends (AcquireObs d (rnd % s.resourcePool.resources.length) 0) s s') := by
  have hown := (heldBy_zero_iff s d).mp hheld
  have hlt := index_lt rnd s hpool
  have hcase : rf.resourceMutex = none ∨ ∃ o, rf.resourceMutex = some o := by
    cases rf.resourceMutex <;> simp
  rcases hcase with hm | ⟨o, hm⟩
  · by_cases hav : ∃ i, Available s (complementary rf.type) i
    · obtain ⟨j, ⟨rj, hj, hjt, hjf⟩, hmin⟩ := exists_least_available s _ hav
      obtain ⟨s', h1, h2, h3, h4⟩ :=
        TryToGetResources_success d rnd s c rf j rj hpool hc hown hrf hm hj hjt hjf hmin
      rw [hheld] at h4
      exact Or.inr (Or.inr ⟨hm, j, rj, hj, hjt, hjf, hmin, s', h1, h2, h3, h4⟩)
    · have hnone : ∀ i, ¬ Available s (complementary rf.type) i :=
        fun i hi => hav ⟨i, hi⟩
      obtain ⟨s', h1, h2, h3, h4⟩ :=
        TryToGetResources_fail d rnd s c rf hpool hc hown hrf hm hnone
      rw [hheld] at h4
      exact Or.inr (Or.inl ⟨hm, hnone, s', h1, h2, h3, h4⟩)
  · have hod : o ≠ d := by
      intro h
      have hmem : rf ∈ s.resourcePool.resources := List.getElem?_mem hrf
      exact hown rf hmem (by rw [hm, h])
    exact Or.inl ⟨o, hm, hod, TryToGetResources_busy d rnd o s c rf hpool hc hrf hm hod⟩

theorem heldBy_eq_count (s : World) (d : Nat) :
    heldBy s d = (lockState s).countP (fun m => decide (m = some d)) := by
  simp [heldBy, lockState, List.countP_map, Function.comp_def]

theorem heldBy_congr (s t : World) (d : Nat) (h : lockState t = lockState s) :
    heldBy t d = heldBy s d := by
  rw [heldBy_eq_count, heldBy_eq_count, h]

end outcome

section claims_acquire

theorem lockState_getElem? (s : World) (k : Nat) :
    (lockState s)[k]? = (s.resourcePool.resources[k]?).map (fun r => r.resourceMutex) := by
  simp [lockState]

/-- C1: once `TryToGetResources` has locked the first resource (index
`rnd % totalResources`, free on entry), it returns; it returns `true` exactly
when some resource of the complementary type is unlocked; and then the second
resource it locks, recorded in the drinker's other pointer, is the unlocked
complementary resource of lowest index, the only mutex besides the first whose
owner changes. -/
theorem TryToGetResources_scans_lowest (d rnd : Nat) (s : World) (c : Drinker) (rf : Resource)
    (hpool : PoolOK s) (hc : s.drinkerPool.drinkers[d]? = some c) (hheld : heldBy s d = 0)
    (hrf : s.resourcePool.resources[rnd % s.resourcePool.resources.length]? = some rf)
    (hfree : rf.resourceMutex = none) :
    ∃ b s', TryToGetResources d rnd s = .done b s' ∧
      (b = true ↔ ∃ i, Available s (complementary rf.type) i) ∧
      (b = true → ∃ j c' rj',
        Available s (complementary rf.type) j ∧
        (∀ i, Available s (complementary rf.type) i → j ≤ i) ∧
        s'.drinkerPool.drinkers[d]? = some c' ∧ secondPointer rf.type c' = some j ∧
        s'.resourcePool.resources[j]? = some rj' ∧ rj'.resourceMutex = some d ∧
        (lockState s')[rnd % s.resourcePool.resources.length]? = some (some d) ∧
        ∀ k, k ≠ rnd % s.resourcePool.resources.length → k ≠ j →
          (lockState s')[k]? = (lockState s)[k]?) := by
  have hlt := index_lt rnd s hpool
  have hcl : d < s.drinkerPool.drinkers.length := by
    rcases List.getElem?_eq_some_iff.mp hc with ⟨h, _⟩
    exact h
  rcases TryToGetResources_outcome d rnd s c rf hpool hc hheld hrf with
    ⟨o, ho, _, _⟩ | ⟨_, hnone, s', h1, _, _, _⟩ | ⟨_, j, rj, hj, hjt, hjf, hmin, s', h1, h2, h3, _⟩
  · rw [hfree] at ho
    cases ho
  · refine ⟨false, s', h1, ?_, ?_⟩
    · constructor
      · intro h
        cases h
      · rintro ⟨i, hi⟩
        exact absurd hi (hnone i)
    · intro h
      cases h
  · have hjlt : j < s.resourcePool.resources.length := by
      rcases List.getElem?_eq_some_iff.mp hj with ⟨h, _⟩
      exact h
    have hav : Available s (complementary rf.type) j := ⟨rj, hj, hjt, hjf⟩
    refine ⟨true, s', h1, ?_, ?_⟩
    · exact ⟨fun _ => ⟨j, hav⟩, fun _ => rfl⟩
    · intro _
      refine ⟨j, recordSecond rf.type j
        (tried rf.type (rnd % s.resourcePool.resources.length) c), acquired d rj, hav,
        ?_, ?_, ?_, ?_, rfl, ?_, ?_⟩
      · intro i hi
        by_contra hlt'
        exact hmin i (not_le.mp hlt') hi
      · rw [h3]
        simp [List.getElem?_set, hcl]
      · simp only [secondPointer, recordSecond]
        split <;> rfl
      · rw [h2]
        simp [List.getElem?_set, hjlt]
      · have hne : rnd % s.resourcePool.resources.length ≠ j := by
          intro h
          rw [h, hj] at hrf
          injection hrf with hrf
          rw [hrf] at hjt
          exact complementary_ne _ hjt.symm
        rw [lockState_getElem?, h2]
        simp [List.getElem?_set, hlt, hne, Ne.symm hne, acquired]
      · intro k hk1 hk2
        rw [lockState_getElem?, lockState_getElem?, h2]
        simp [List.getElem?_set, Ne.symm hk1, Ne.symm hk2]

theorem first_ne_second (s : World) (f j : Nat) (rf rj : Resource)
    (hrf : s.resourcePool.resources[f]? = some rf)
    (hj : s.resourcePool.resources[j]? = some rj)
    (hjt : rj.type = complementary rf.type) : f ≠ j := by
  intro h
  subst h
  rw [hrf] at hj
  injection hj with hj
  subst hj
  exact complementary_ne _ hjt.symm

theorem heldBy_of_resources (s : World) (d : Nat) (l : List Resource)
    (h : s.resourcePool.resources = l) :
    heldBy s d = l.countP (fun r => decide (r.resourceMutex = some d)) := by
  rw [heldBy, h]

theorem heldBy_pair (s s' : World) (d f j : Nat) (rf rj : Resource)
    (hheld : heldBy s d = 0)
    (hrf : s.resourcePool.resources[f]? = some rf)
    (hj : s.resourcePool.resources[j]? = some rj) (hne : f ≠ j)
    (h2 : s'.resourcePool.resources
      = (s.resourcePool.resources.set f (acquired d rf)).set j (acquired d rj)) :
    heldBy s' d = 2 := by
  have hflt : f < s.resourcePool.resources.length := by
    rcases List.getElem?_eq_some_iff.mp hrf with ⟨h, _⟩
    exact h
  have hjlt : j < s.resourcePool.resources.length := by
    rcases List.getElem?_eq_some_iff.mp hj with ⟨h, _⟩
    exact h
  have hown := (heldBy_zero_iff s d).mp hheld
  have hjlt' : j < (s.resourcePool.resources.set f (acquired d rf)).length := by
    simpa using hjlt
  have hrj : (s.resourcePool.resources.set f (acquired d rf))[j] = rj := by
    rw [List.getElem_set_of_ne hne]
    exact (List.getElem?_eq_some_iff.mp hj).2
  have hrf' : s.resourcePool.resources[f] = rf := (List.getElem?_eq_some_iff.mp hrf).2
  have h0 : heldBy s d = 0 := hheld
  unfold heldBy at h0
  rw [heldBy_of_resources s' d _ h2, List.countP_set _ _ _ _ hjlt', hrj,
    List.countP_set _ _ _ _ hflt, hrf', h0]
  have e1 : decide (rj.resourceMutex = some d) = false := by
    simpa using hown rj (List.getElem?_mem hj)
  have e2 : decide (rf.resourceMutex = some d) = false := by
    simpa using hown rf (List.getElem?_mem hrf)
  simp [acquired, e1, e2]

/-- C2: in a pool whose resources are all bottles or openers, whenever
`TryToGetResources` returns `true` the drinker's `bottle` pointer refers to a
bottle and its `opener` pointer to an opener, the two are different resources,
both are locked by the drinker on return, and they are all it holds. -/
theorem TryToGetResources_acquires_pair (d rnd : Nat) (s s' : World) (c : Drinker)
    (hpool : PoolOK s) (hc : s.drinkerPool.drinkers[d]? = some c) (hheld : heldBy s d = 0)
    (htypes : ∀ r ∈ s.resourcePool.resources,
      r.type = ResourceType.Bottle ∨ r.type = ResourceType.Opener)
    (hret : TryToGetResources d rnd s = .done true s') :
    ∃ c' b o rb ro, s'.drinkerPool.drinkers[d]? = some c' ∧
      c'.bottle = some b ∧ c'.opener = some o ∧
      s'.resourcePool.resources[b]? = some rb ∧ s'.resourcePool.resources[o]? = some ro ∧
      rb.type = ResourceType.Bottle ∧ ro.type = ResourceType.Opener ∧ b ≠ o ∧
      rb.resourceMutex = some d ∧ ro.resourceMutex = some d ∧ heldBy s' d = 2 := by
  have hlt := index_lt rnd s hpool
  have hrf := List.getElem?_eq_getElem hlt
  have hcl : d < s.drinkerPool.drinkers.length := by
    rcases List.getElem?_eq_some_iff.mp hc with ⟨h, _⟩
    exact h
  rcases TryToGetResources_outcome d rnd s c _ hpool hc hheld hrf with
    ⟨o, _, _, h1⟩ | ⟨_, _, t, h1, _, _, _⟩ | ⟨_, j, rj, hj, hjt, _, _, t, h1, h2, h3, _⟩
  · rw [h1] at hret
    cases hret
  · rw [h1] at hret
    cases hret
  · rw [h1] at hret
    injection hret with _ hts
    subst hts
    have hjlt : j < s.resourcePool.resources.length := by
      rcases List.getElem?_eq_some_iff.mp hj with ⟨h, _⟩
      exact h
    have hne : rnd % s.resourcePool.resources.length ≠ j := first_ne_second s _ j _ rj hrf hj hjt
    have hres : t.resourcePool.resources = (s.resourcePool.resources.set
        (rnd % s.resourcePool.resources.length)
        (acquired d s.resourcePool.resources[rnd % s.resourcePool.resources.length])).set j
        (acquired d rj) := by rw [h2]
    have hh : heldBy t d = 2 := heldBy_pair s t d _ j _ rj hheld hrf hj hne hres
    have hgf : t.resourcePool.resources[rnd % s.resourcePool.resources.length]?
        = some (acquired d s.resourcePool.resources[rnd % s.resourcePool.resources.length]) := by
      rw [hres]
      simp [List.getElem?_set, hlt, Ne.symm hne]
    have hgj : t.resourcePool.resources[j]? = some (acquired d rj) := by
      rw [hres]
      simp [List.getElem?_set, hjlt]
    have hgd : t.drinkerPool.drinkers[d]? = some (recordSecond
        s.resourcePool.resources[rnd % s.resourcePool.resources.length].type j
        (tried s.resourcePool.resources[rnd % s.resourcePool.resources.length].type
          (rnd % s.resourcePool.resources.length) c)) := by
      rw [h3]
      simp [List.getElem?_set, hcl]
    rcases htypes _ (List.getElem_mem hlt) with hty | hty
    · refine ⟨_, rnd % s.resourcePool.resources.length, j, _, _, hgd, ?_, ?_, hgf, hgj, ?_, ?_,
        hne, rfl, rfl, hh⟩
      · simp [recordSecond, tried, recordFirst, hty]
      · simp [recordSecond, tried, recordFirst, hty]
      · simpa [acquired] using hty
      · simp only [acquired]
        rw [hjt, hty]
        rfl
    · have hnb : s.resourcePool.resources[rnd % s.resourcePool.resources.length].type
          ≠ ResourceType.Bottle := by
        rw [hty]
        decide
      refine ⟨_, j, rnd % s.resourcePool.resources.length, _, _, hgd, ?_, ?_, hgj, hgf, ?_, ?_,
        Ne.symm hne, rfl, rfl, hh⟩
      · simp [recordSecond, tried, recordFirst, hnb]
      · simp [recordSecond, tried, recordFirst, hnb]
      · simp only [acquired]
        rw [hjt, hty]
        rfl
      · simpa [acquired] using hty

/-- C3: when no resource of the complementary type is unlocked,
`TryToGetResources` returns `false`; and after any call that returned `false`
every resource mutex has the owner it had before the call, so the drinker
holds no resource lock on return. -/
theorem TryToGetResources_failure_releases (d rnd : Nat) (s : World) (c : Drinker)
    (rf : Resource)
    (hpool : PoolOK s) (hc : s.drinkerPool.drinkers[d]? = some c) (hheld : heldBy s d = 0)
    (hrf : s.resourcePool.resources[rnd % s.resourcePool.resources.length]? = some rf)
    (hfree : rf.resourceMutex = none) :
    ((∀ i, ¬ Available s (complementary rf.type) i) →
      ∃ s', TryToGetResources d rnd s = .done false s') ∧
    (∀ s', TryToGetResources d rnd s = .done false s' →
      (∀ i, ¬ Available s (complementary rf.type) i) ∧
      lockState s' = lockState s ∧ heldBy s' d = 0) := by
  have hlt := index_lt rnd s hpool
  rcases TryToGetResources_outcome d rnd s c rf hpool hc hheld hrf with
    ⟨o, ho, _, _⟩ | ⟨_, hnone, t, h1, h2, _, _⟩ | ⟨_, j, rj, hj, hjt, hjf, _, t, h1, _, _, _⟩
  · rw [hfree] at ho
    cases ho
  · refine ⟨fun _ => ⟨t, h1⟩, ?_⟩
    intro s' hs'
    rw [h1] at hs'
    injection hs' with _ hts
    subst hts
    have hls : lockState t = lockState s := by
      unfold lockState
      rw [h2]
      simp only [List.map_set]
      apply List.ext_getElem?
      intro k
      by_cases hk : rnd % s.resourcePool.resources.length = k
      · subst hk
        have hrf' := (List.getElem?_eq_some_iff.mp hrf).2
        simp [List.getElem?_set, hlt, hrf']
      · simp [List.getElem?_set, hk]
    exact ⟨hnone, hls, by rw [heldBy_congr s t d hls, hheld]⟩
  · refine ⟨fun hnone => absurd ⟨rj, hj, hjt, hjf⟩ (hnone j), ?_⟩
    intro s' hs'
    rw [h1] at hs'
    cases hs'

/-- C9: a call of `TryToGetResources` that returns `true` raises the
`lockCount` of exactly the first-picked resource and the scan-matched resource
by one each; a call that returns `false` raises the `lockCount` of the
first-picked resource by one; every other `lockCount` and every `useCount`
stay as they were. -/
theorem TryToGetResources_lockCount (d rnd : Nat) (s s' : World) (c : Drinker) (b : Bool)
    (hpool : PoolOK s) (hc : s.drinkerPool.drinkers[d]? = some c) (hheld : heldBy s d = 0)
    (hret : TryToGetResources d rnd s = .done b s') :
    (b = false → CountsBumped s s' [rnd % s.resourcePool.resources.length]) ∧
    (b = true → ∃ j c' rf, j ≠ rnd % s.resourcePool.resources.length ∧
      s.resourcePool.resources[rnd % s.resourcePool.resources.length]? = some rf ∧
      s'.drinkerPool.drinkers[d]? = some c' ∧ secondPointer rf.type c' = some j ∧
      CountsBumped s s' [rnd % s.resourcePool.resources.length, j]) := by
  have hlt := index_lt rnd s hpool
  obtain ⟨rf, hrf⟩ : ∃ rf,
      s.resourcePool.resources[rnd % s.resourcePool.resources.length]? = some rf :=
    ⟨_, List.getElem?_eq_getElem hlt⟩
  have hcl : d < s.drinkerPool.drinkers.length := by
    rcases List.getElem?_eq_some_iff.mp hc with ⟨h, _⟩
    exact h
  rcases TryToGetResources_outcome d rnd s c rf hpool hc hheld hrf with
    ⟨o, _, _, h1⟩ | ⟨_, _, t, h1, h2, _, _⟩ | ⟨_, j, rj, hj, hjt, _, _, t, h1, h2, h3, _⟩
  · rw [h1] at hret
    cases hret
  · rw [h1] at hret
    injection hret with hb hts
    subst hb
    subst hts
    refine ⟨fun _ => ⟨by rw [h2]; simp, ?_⟩, fun h => by cases h⟩
    intro k r hk
    rw [h2]
    by_cases hkf : rnd % s.resourcePool.resources.length = k
    · subst hkf
      rw [hrf] at hk
      injection hk with hk
      subst hk
      exact ⟨{ rf with lockCount := rf.lockCount + 1 }, by simp [List.getElem?_set, hlt], rfl,
        by simp⟩
    · exact ⟨r, by simp [List.getElem?_set, hkf, hk], rfl, by simp [Ne.symm hkf]⟩
  · rw [h1] at hret
    injection hret with hb hts
    subst hb
    subst hts
    have hjlt : j < s.resourcePool.resources.length := by
      rcases List.getElem?_eq_some_iff.mp hj with ⟨h, _⟩
      exact h
    have hne : rnd % s.resourcePool.resources.length ≠ j := first_ne_second s _ j _ rj hrf hj hjt
    refine ⟨fun h => Bool.noConfusion h, fun _ => ⟨j, recordSecond rf.type j
      (tried rf.type (rnd % s.resourcePool.resources.length) c), rf, Ne.symm hne, hrf,
      ?_, ?_, ⟨?_, ?_⟩⟩⟩
    · rw [h3]
      simp [List.getElem?_set, hcl]
    · simp only [secondPointer, recordSecond]
      split <;> rfl
    · rw [h2]
      simp
    · intro k r hk
      rw [h2]
      by_cases hkj : j = k
      · subst hkj
        rw [hj] at hk
        injection hk with hk
        subst hk
        exact ⟨acquired d rj, by simp [List.getElem?_set, hjlt], rfl, by simp [acquired]⟩
      · by_cases hkf : rnd % s.resourcePool.resources.length = k
        · subst hkf
          rw [hrf] at hk
          injection hk with hk
          subst hk
          exact ⟨acquired d rf, by simp [List.getElem?_set, hlt, hkj], rfl,
            by simp [acquired]⟩
        · exact ⟨r, by simp [List.getElem?_set, hkf, hkj, hk], rfl,
            by simp [Ne.symm hkf, Ne.symm hkj]⟩

end claims_acquire

section drink

theorem heldBy_setResource (s : World) (d i : Nat) (r r' : Resource)
    (h : s.resourcePool.resources[i]? = some r) :
    heldBy (setResource i r' s) d
      = (heldBy s d - if r.resourceMutex = some d then 1 else 0)
        + if r'.resourceMutex = some d then 1 else 0 := by
  have hlt : i < s.resourcePool.resources.length := by
    rcases List.getElem?_eq_some_iff.mp h with ⟨h, _⟩
    exact h
  have hr : s.resourcePool.resources[i] = r := (List.getElem?_eq_some_iff.mp h).2
  unfold heldBy
  rw [setResource_resources, List.countP_set _ _ _ _ hlt, hr]
  simp

/-- Complete description of `Drink` for a drinker that holds two different
resources through its `bottle` and `opener` pointers. -/
theorem Drink_spec (d r1 r2 r3 : Nat) (s : World) (c : Drinker) (b o : Nat)
    (rb ro : Resource)
    (hc : s.drinkerPool.drinkers[d]? = some c)
    (hcb : c.bottle = some b) (hco : c.opener = some o)
    (hrb : s.resourcePool.resources[b]? = some rb)
    (hro : s.resourcePool.resources[o]? = some ro) (hne : b ≠ o)
    (hmb : rb.resourceMutex = some d) (hmo : ro.resourceMutex = some d) :
    ∃ s', Drink d r1 r2 r3 s = .done () s' ∧
      s'.resourcePool = { s.resourcePool with
        resources := (s.resourcePool.resources.set b (released rb)).set o (released ro) } ∧
      s'.drinkerPool = { s.drinkerPool with
        drinkers := s.drinkerPool.drinkers.set d (refreshed c) } ∧
      s'.trace = s.trace ++
        ([⟨d, .sleep (20 + Int.tmod r1 20), heldBy s d⟩, ⟨d, .unlock b, heldBy s d⟩,
          ⟨d, .unlock o, heldBy s d - 1⟩] ++
          pauseObs d r2 r3 (c.drinkCount + 1) (heldBy s d - 1 - 1)) := by
  have hblt : b < s.resourcePool.resources.length := by
    rcases List.getElem?_eq_some_iff.mp hrb with ⟨h, _⟩
    exact h
  have holt : o < s.resourcePool.resources.length := by
    rcases List.getElem?_eq_some_iff.mp hro with ⟨h, _⟩
    exact h
  have hcl : d < s.drinkerPool.drinkers.length := by
    rcases List.getElem?_eq_some_iff.mp hc with ⟨h, _⟩
    exact h
  have hcases : Drink d r1 r2 r3 s =
      (incUseCount b s).bind fun _ s =>
      (incUseCount o s).bind fun _ s =>
      (sleepFor d (20 + Int.tmod r1 20) s).bind fun _ s =>
      (unlockResource d b s).bind fun _ s =>
      (unlockResource d o s).bind fun _ s =>
      (updDrinker d (fun c => { c with bottle := none }) s).bind fun _ s =>
      (updDrinker d (fun c => { c with opener := none }) s).bind fun _ s =>
      (updDrinker d (fun c => { c with drinkCount := c.drinkCount + 1 }) s).bind fun _ s =>
      match s.drinkerPool.drinkers[d]? with
      | none => .undefined
      | some c =>
        if Int.tmod c.drinkCount 5 = 0 then sleepFor d (40 + Int.tmod r2 10) s
        else if Int.tmod c.drinkCount 10 = 0 then sleepFor d (60 + Int.tmod r3 10) s
        else .done () s := by
    unfold Drink
    simp only [hc, hcb, hco]
  rw [hcases, incUseCount_some b s rb hrb]
  simp only [Res.bind]
  rw [incUseCount_some o _ ro (by simp [List.getElem?_set, hne, hro])]
  simp only [sleepFor]
  rw [unlockResource_owned d b _ { rb with useCount := rb.useCount + 1 }
    (by simp [List.getElem?_set, hne, Ne.symm hne, hblt]) hmb]
  simp only []
  rw [unlockResource_owned d o _ { ro with useCount := ro.useCount + 1 }
    (by simp [List.getElem?_set, hne, Ne.symm hne, holt]) hmo]
  simp only []
  rw [updDrinker_some d _ _ c (by simpa using hc)]
  simp only []
  rw [updDrinker_some d _ _ { c with bottle := none } (by simp [List.getElem?_set, hcl])]
  simp only []
  rw [updDrinker_some d _ _ { c with bottle := none, opener := none }
    (by simp [List.getElem?_set, hcl])]
  simp only [setDrinker_drinkers, setResource_drinkerPool, emit_drinkerPool, List.getElem?_set,
    List.length_set, hcl, if_true]
  have hh1 : heldBy (setResource o { ro with useCount := ro.useCount + 1 }
      (setResource b { rb with useCount := rb.useCount + 1 } s)) d = heldBy s d := by
    rw [heldBy_setResource _ d o ro _ (by simp [List.getElem?_set, hne, hro]),
      heldBy_setResource _ d b rb _ hrb]
    have hpos : 0 < heldBy s d := by
      unfold heldBy
      exact List.countP_pos_iff.mpr ⟨rb, List.getElem?_mem hrb, by simp [hmb]⟩
    simp only [hmb, hmo, if_true]
    omega
  have hh2 : heldBy (setResource b { rb with useCount := rb.useCount + 1, resourceMutex := none }
      (emit d (.unlock b) (emit d (.sleep (20 + Int.tmod r1 20))
        (setResource o { ro with useCount := ro.useCount + 1 }
          (setResource b { rb with useCount := rb.useCount + 1 } s))))) d
        = heldBy s d - 1 := by
    rw [heldBy_setResource _ d b { rb with useCount := rb.useCount + 1 } _
      (by simp [List.getElem?_set, hne, Ne.symm hne, hblt])]
    simp only [heldBy_emit]
    rw [hh1]
    simp [hmb]
  have hh3 : ∀ (cc : Drinker) (e : Event), heldBy (setDrinker d cc (setDrinker d
      { c with bottle := none, opener := none } (setDrinker d { c with bottle := none }
      (setResource o { ro with useCount := ro.useCount + 1, resourceMutex := none }
      (emit d e
      (setResource b { rb with useCount := rb.useCount + 1, resourceMutex := none }
      (emit d (.unlock b) (emit d (.sleep (20 + Int.tmod r1 20))
        (setResource o { ro with useCount := ro.useCount + 1 }
          (setResource b { rb with useCount := rb.useCount + 1 } s)))))))))) d
        = heldBy s d - 1 - 1 := by
    intro cc e
    rw [heldBy_setDrinker, heldBy_setDrinker, heldBy_setDrinker,
      heldBy_setResource _ d o { ro with useCount := ro.useCount + 1 } _
        (by simp [List.getElem?_set, hne, Ne.symm hne, holt]), heldBy_emit, hh2]
    simp [hmo]
  have hres : ∀ t : World, t.resourcePool.resources =
      (s.resourcePool.resources.set b (released rb)).set o (released ro) →
      t.resourcePool.totalResources = s.resourcePool.totalResources →
      t.resourcePool.poolMutex = s.resourcePool.poolMutex →
      t.resourcePool = { s.resourcePool with
        resources := (s.resourcePool.resources.set b (released rb)).set o (released ro) } := by
    intro t h1 h2 h3
    cases ht : t.resourcePool
    simp_all
  have hset : (((s.resourcePool.resources.set b { rb with useCount := rb.useCount + 1 }).set o
      { ro with useCount := ro.useCount + 1 }).set b
      { rb with useCount := rb.useCount + 1, resourceMutex := none }).set o
      { ro with useCount := ro.useCount + 1, resourceMutex := none }
      = (s.resourcePool.resources.set b (released rb)).set o (released ro) := by
    apply List.ext_getElem?
    intro k
    simp only [List.getElem?_set, List.length_set, released]
    by_cases hko : o = k
    · simp [hko]
    · by_cases hkb : b = k
      · simp [hkb, hko]
      · simp [hkb, hko]
  have hdrk : ((s.drinkerPool.drinkers.set d { c with bottle := none }).set d
      { c with bottle := none, opener := none }).set d
      { c with bottle := none, opener := none, drinkCount := c.drinkCount + 1 }
      = s.drinkerPool.drinkers.set d (refreshed c) := by
    simp [List.set_set, refreshed]
  unfold pauseObs
  by_cases h5 : Int.tmod (c.drinkCount + 1) 5 = 0
  · simp only [h5, if_true]
    refine ⟨_, rfl, ?_, ?_, ?_⟩
    · apply hres
      · simp only [emit_resourcePool, setDrinker_resourcePool, setResource_resources]
        exact hset
      · rfl
      · rfl
    · simp only [emit_drinkerPool]
      cases hdp : s.drinkerPool
      simp [setDrinker, setResource, emit, hdp, refreshed]
    · simp only [emit_trace, setDrinker_trace, setResource_trace, hh3, hh2, hh1, heldBy_emit,
        List.append_assoc, List.singleton_append, List.cons_append, List.nil_append]
  · simp only [h5, if_false]
    by_cases h10 : Int.tmod (c.drinkCount + 1) 10 = 0
    · simp only [h10, if_true]
      refine ⟨_, rfl, ?_, ?_, ?_⟩
      · apply hres
        · simp only [emit_resourcePool, setDrinker_resourcePool, setResource_resources]
          exact hset
        · rfl
        · rfl
      · simp only [emit_drinkerPool]
        cases hdp : s.drinkerPool
        simp [setDrinker, setResource, emit, hdp, refreshed]
      · simp only [emit_trace, setDrinker_trace, setResource_trace, hh3, hh2, hh1, heldBy_emit,
          List.append_assoc, List.singleton_append, List.cons_append, List.nil_append]
    · simp only [h10, if_false]
      refine ⟨_, rfl, ?_, ?_, ?_⟩
      · apply hres
        · simp only [emit_resourcePool, setDrinker_resourcePool, setResource_resources]
          exact hset
        · rfl
        · rfl
      · cases hdp : s.drinkerPool
        simp [setDrinker, setResource, emit, hdp, refreshed]
      · simp only [emit_trace, setDrinker_trace, setResource_trace, hh2, hh1, heldBy_emit,
          List.append_assoc, List.singleton_append, List.cons_append, List.nil_append,
          List.append_nil]

/-- C8: for a drinker that holds a bottle and an opener, `Drink` returns,
raises the `useCount` of exactly those two resources by one each and leaves
both unlocked, sets the drinker's `bottle` and `opener` to null and raises its
`drinkCount` by one; the `useCount` and mutex of every other resource, every
`lockCount`, and every other drinker are unchanged. -/
theorem Drink_releases_pair (d r1 r2 r3 : Nat) (s : World) (c : Drinker) (b o : Nat)
    (rb ro : Resource)
    (hc : s.drinkerPool.drinkers[d]? = some c)
    (hcb : c.bottle = some b) (hco : c.opener = some o)
    (hrb : s.resourcePool.resources[b]? = some rb)
    (hro : s.resourcePool.resources[o]? = some ro) (hne : b ≠ o)
    (hmb : rb.resourceMutex = some d) (hmo : ro.resourceMutex = some d) :
    ∃ s', Drink d r1 r2 r3 s = .done () s' ∧
      (∃ c', s'.drinkerPool.drinkers[d]? = some c' ∧ c'.bottle = none ∧ c'.opener = none ∧
        c'.drinkCount = c.drinkCount + 1 ∧ c'.resourceTryCount = c.resourceTryCount) ∧
      (∀ e, e ≠ d → s'.drinkerPool.drinkers[e]? = s.drinkerPool.drinkers[e]?) ∧
      s'.resourcePool.resources.length = s.resourcePool.resources.length ∧
      ∀ k r, s.resourcePool.resources[k]? = some r →
        ∃ r', s'.resourcePool.resources[k]? = some r' ∧ r'.lockCount = r.lockCount ∧
          r'.type = r.type ∧ r'.id = r.id ∧
          (if k = b ∨ k = o then r'.useCount = r.useCount + 1 ∧ r'.resourceMutex = none
           else r'.useCount = r.useCount ∧ r'.resourceMutex = r.resourceMutex) := by
  have hblt : b < s.resourcePool.resources.length := by
    rcases List.getElem?_eq_some_iff.mp hrb with ⟨h, _⟩
    exact h
  have holt : o < s.resourcePool.resources.length := by
    rcases List.getElem?_eq_some_iff.mp hro with ⟨h, _⟩
    exact h
  have hcl : d < s.drinkerPool.drinkers.length := by
    rcases List.getElem?_eq_some_iff.mp hc with ⟨h, _⟩
    exact h
  obtain ⟨s', h1, h2, h3, _⟩ := Drink_spec d r1 r2 r3 s c b o rb ro hc hcb hco hrb hro hne hmb hmo
  refine ⟨s', h1, ⟨refreshed c, ?_, rfl, rfl, rfl, rfl⟩, ?_, ?_, ?_⟩
  · rw [h3]
    simp [List.getElem?_set, hcl]
  · intro e he
    rw [h3]
    simp [List.getElem?_set, Ne.symm he]
  · rw [h2]
    simp
  · intro k r hk
    rw [h2]
    by_cases hko : o = k
    · subst hko
      rw [hro] at hk
      injection hk with hk
      subst hk
      exact ⟨released ro, by simp [List.getElem?_set, holt], rfl, rfl, rfl, by simp [released]⟩
    · by_cases hkb : b = k
      · subst hkb
        rw [hrb] at hk
        injection hk with hk
        subst hk
        exact ⟨released rb, by simp [List.getElem?_set, hblt, hko], rfl, rfl, rfl,
          by simp [released]⟩
      · exact ⟨r, by simp [List.getElem?_set, hko, hkb, hk], rfl, rfl, rfl,
          by simp [Ne.symm hko, Ne.symm hkb]⟩

/-- C5, as amended: the two pauses of `Drink` are the arms of one
`if`/`else if`, so no call incurs both.  After the `drinkTime` sleep (made while
holding both resources) and the two unlocks, `Drink` sleeps at most once more,
for `drunkTime` or for `bathroomTime`, holding nothing; it sleeps for
`drunkTime` when `drinkCount` after the increment is a multiple of 5 but not of
10, and not at all when it is not a multiple of 5. -/
theorem Drink_pause_exclusive (d r1 r2 r3 : Nat) (s : World) (c : Drinker) (b o : Nat)
    (rb ro : Resource)
    (hc : s.drinkerPool.drinkers[d]? = some c)
    (hcb : c.bottle = some b) (hco : c.opener = some o)
    (hrb : s.resourcePool.resources[b]? = some rb)
    (hro : s.resourcePool.resources[o]? = some ro) (hne : b ≠ o)
    (hmb : rb.resourceMutex = some d) (hmo : ro.resourceMutex = some d) :
    ∃ s' P, Drink d r1 r2 r3 s = .done () s' ∧
      s'.trace = s.trace ++
        ([⟨d, .sleep (20 + Int.tmod r1 20), heldBy s d⟩, ⟨d, .unlock b, heldBy s d⟩,
          ⟨d, .unlock o, heldBy s d - 1⟩] ++ P) ∧
      (P = [] ∨ P = [⟨d, .sleep (40 + Int.tmod r2 10), heldBy s d - 1 - 1⟩] ∨
        P = [⟨d, .sleep (60 + Int.tmod r3 10), heldBy s d - 1 - 1⟩]) ∧
      (Int.tmod (c.drinkCount + 1) 5 = 0 → Int.tmod (c.drinkCount + 1) 10 ≠ 0 →
        P = [⟨d, .sleep (40 + Int.tmod r2 10), heldBy s d - 1 - 1⟩]) ∧
      (Int.tmod (c.drinkCount + 1) 5 ≠ 0 → P = []) := by
  obtain ⟨s', h1, _, _, h4⟩ :=
    Drink_spec d r1 r2 r3 s c b o rb ro hc hcb hco hrb hro hne hmb hmo
  refine ⟨s', pauseObs d r2 r3 (c.drinkCount + 1) (heldBy s d - 1 - 1), h1, h4, ?_, ?_, ?_⟩
  · unfold pauseObs
    split
    · exact Or.inr (Or.inl rfl)
    · split
      · exact Or.inr (Or.inr rfl)
      · exact Or.inl rfl
  · intro h5 _
    simp [pauseObs, h5]
  · intro h5
    have h10 : Int.tmod (c.drinkCount + 1) 10 ≠ 0 := by
      intro h
      have h1 : (10 : Int) ∣ c.drinkCount + 1 := Int.dvd_of_tmod_eq_zero h
      have h2 : (5 : Int) ∣ c.drinkCount + 1 := Dvd.dvd.trans (by norm_num) h1
      exact h5 (Int.tmod_eq_zero_of_dvd h2)
    simp [pauseObs, h5, h10]

end drink

section cycle

theorem sum_map_set {α : Type} (g : α → Int) (l : List α) (i : Nat) (x a : α)
    (h : l[i]? = some x) :
    ((l.set i a).map g).sum = (l.map g).sum - g x + g a := by
  induction l generalizing i with
  | nil => simp at h
  | cons y ys ih =>
    cases i with
    | zero =>
      simp only [List.getElem?_cons_zero, Option.some.injEq] at h
      subst h
      simp only [List.set_cons_zero, List.map_cons, List.sum_cons]
      ring
    | succ n =>
      simp only [List.getElem?_cons_succ] at h
      simp only [List.set_cons_succ, List.map_cons, List.sum_cons, ih n h]
      ring

theorem heldBy_zero_of_allFree (s : World) (d : Nat) (h : AllFree s) : heldBy s d = 0 := by
  rw [heldBy_zero_iff]
  intro r hr
  rw [h r hr]
  simp

/-- Complete description of a call of `TryToDrink` made when every resource
mutex is free. -/
theorem TryToDrink_outcome (d rnd r1 r2 r3 : Nat) (s : World) (c : Drinker) (rf : Resource)
    (hpool : PoolOK s) (hc : s.drinkerPool.drinkers[d]? = some c) (hfree : AllFree s)
    (hrf : s.resourcePool.resources[rnd % s.resourcePool.resources.length]? = some rf) :
    ((∀ i, ¬ Available s (complementary rf.type) i) ∧
      ∃ s', TryToDrink d rnd r1 r2 r3 s = .done false s' ∧
        s'.resourcePool = { s.resourcePool with
          resources := s.resourcePool.resources.set (rnd % s.resourcePool.resources.length)
            { rf with lockCount := rf.lockCount + 1 } } ∧
        s'.drinkerPool = { s.drinkerPool with
          drinkers := s.drinkerPool.drinkers.set d
            (tried rf.type (rnd % s.resourcePool.resources.length) c) }) ∨
    (∃ j rj, s.resourcePool.resources[j]? = some rj ∧
      rnd % s.resourcePool.resources.length ≠ j ∧
      ∃ s', TryToDrink d rnd r1 r2 r3 s = .done true s' ∧
        s'.resourcePool = { s.resourcePool with
          resources := (s.resourcePool.resources.set (rnd % s.resourcePool.resources.length)
            (used rf)).set j (used rj) } ∧
        s'.drinkerPool = { s.drinkerPool with
          drinkers := s.drinkerPool.drinkers.set d
            (refreshed { c with resourceTryCount := c.resourceTryCount + 1 }) }) := by
  have hlt := index_lt rnd s hpool
  have hcl : d < s.drinkerPool.drinkers.length := by
    rcases List.getElem?_eq_some_iff.mp hc with ⟨h, _⟩
    exact h
  have hheld := heldBy_zero_of_allFree s d hfree
  have hrfm : rf.resourceMutex = none := hfree rf (List.getElem?_mem hrf)
  rcases TryToGetResources_outcome d rnd s c rf hpool hc hheld hrf with
    ⟨o, ho, _, _⟩ | ⟨_, hnone, t, h1, h2, h3, _⟩ | ⟨_, j, rj, hj, hjt, hjf, _, t, h1, h2, h3, _⟩
  · rw [hrfm] at ho
    cases ho
  · refine Or.inl ⟨hnone, emit d .notifyAll t, ?_, ?_, ?_⟩
    · simp only [TryToDrink, h1, Res.bind, Bool.false_eq_true, if_false]
    · simpa using h2
    · simpa using h3
  · have hjlt : j < s.resourcePool.resources.length := by
      rcases List.getElem?_eq_some_iff.mp hj with ⟨h, _⟩
      exact h
    have hne : rnd % s.resourcePool.resources.length ≠ j := first_ne_second s _ j rf rj hrf hj hjt
    have hres : t.resourcePool.resources = (s.resourcePool.resources.set
        (rnd % s.resourcePool.resources.length) (acquired d rf)).set j (acquired d rj) := by
      rw [h2]
    have hgf : t.resourcePool.resources[rnd % s.resourcePool.resources.length]?
        = some (acquired d rf) := by
      rw [hres]
      simp [List.getElem?_set, hlt, Ne.symm hne]
    have hgj : t.resourcePool.resources[j]? = some (acquired d rj) := by
      rw [hres]
      simp [List.getElem?_set, hjlt]
    have hgd : t.drinkerPool.drinkers[d]? = some (recordSecond rf.type j
        (tried rf.type (rnd % s.resourcePool.resources.length) c)) := by
      rw [h3]
      simp [List.getElem?_set, hcl]
    have hdrink : ∃ b o rb ro, t.resourcePool.resources[b]? = some rb ∧
        t.resourcePool.resources[o]? = some ro ∧ b ≠ o ∧
        (recordSecond rf.type j
          (tried rf.type (rnd % s.resourcePool.resources.length) c)).bottle = some b ∧
        (recordSecond rf.type j
          (tried rf.type (rnd % s.resourcePool.resources.length) c)).opener = some o ∧
        rb.resourceMutex = some d ∧ ro.resourceMutex = some d ∧
        (t.resourcePool.resources.set b (released rb)).set o (released ro)
          = (s.resourcePool.resources.set (rnd % s.resourcePool.resources.length)
            (used rf)).set j (used rj) := by
      have hcanon : ∀ (l : List Resource) (a b : Nat) (x y : Resource), a ≠ b →
          a < l.length → b < l.length → x.resourceMutex = none → y.resourceMutex = none →
          ((((l.set a (acquired d x)).set b (acquired d y)).set a
            (released (acquired d x))).set b (released (acquired d y))
            = (l.set a (used x)).set b (used y)) ∧
          ((((l.set a (acquired d x)).set b (acquired d y)).set b
            (released (acquired d y))).set a (released (acquired d x))
            = (l.set a (used x)).set b (used y)) := by
        intro l a b x y hab ha hb hx hy
        constructor
        · apply List.ext_getElem?
          intro k
          simp only [List.getElem?_set, List.length_set, released, acquired, used]
          by_cases hkb : b = k
          · simp [hkb, ← hy]
          · by_cases hka : a = k
            · simp [hka, hkb, ← hx]
            · simp [hka, hkb]
        · apply List.ext_getElem?
          intro k
          simp only [List.getElem?_set, List.length_set, released, acquired, used]
          by_cases hkb : b = k
          · subst hkb
            simp [hab, ← hy]
          · by_cases hka : a = k
            · simp [hka, hkb, ← hx]
            · simp [hka, hkb]
      obtain ⟨hc1, hc2⟩ := hcanon s.resourcePool.resources _ j rf rj hne hlt hjlt hrfm hjf
      by_cases hty : rf.type = ResourceType.Bottle
      · refine ⟨_, j, _, _, hgf, hgj, hne, ?_, ?_, rfl, rfl, ?_⟩
        · simp [recordSecond, tried, recordFirst, hty]
        · simp [recordSecond, tried, recordFirst, hty]
        · rw [hres]
          exact hc1
      · refine ⟨j, _, _, _, hgj, hgf, Ne.symm hne, ?_, ?_, rfl, rfl, ?_⟩
        · simp [recordSecond, tried, recordFirst, hty]
        · simp [recordSecond, tried, recordFirst, hty]
        · rw [hres]
          exact hc2
    obtain ⟨b, o, rb, ro, hb1, ho1, hbo, hcb, hco, hmb, hmo, hfinal⟩ := hdrink
    obtain ⟨u, hu1, hu2, hu3, _⟩ :=
      Drink_spec d r1 r2 r3 t _ b o rb ro hgd hcb hco hb1 ho1 hbo hmb hmo
    refine Or.inr ⟨j, rj, hj, hne, emit d .notifyAll u, ?_, ?_, ?_⟩
    · simp only [TryToDrink, h1, Res.bind, if_true, hu1]
    · rw [emit_resourcePool, hu2, hfinal, h2]
    · rw [emit_drinkerPool, hu3, h3]
      simp only [List.set_set]
      have hrefr : refreshed (recordSecond rf.type j
          (tried rf.type (rnd % s.resourcePool.resources.length) c))
          = refreshed { c with resourceTryCount := c.resourceTryCount + 1 } := by
        simp only [refreshed, recordSecond, tried, recordFirst]
        split <;> rfl
      rw [hrefr]

theorem TryToGetResources_no_drinker (d rnd : Nat) (s : World)
    (h : s.drinkerPool.drinkers[d]? = none) : TryToGetResources d rnd s = .undefined := by
  unfold TryToGetResources
  simp only [updDrinker, h, Res.bind]
  split <;> rfl

theorem TryToDrink_drinker (d rnd r1 r2 r3 : Nat) (s s' : World) (b : Bool)
    (hret : TryToDrink d rnd r1 r2 r3 s = .done b s') :
    ∃ c, s.drinkerPool.drinkers[d]? = some c := by
  cases h : s.drinkerPool.drinkers[d]? with
  | some c => exact ⟨c, rfl⟩
  | none =>
    simp only [TryToDrink, TryToGetResources_no_drinker d rnd s h, Res.bind] at hret
    cases hret

/-- Effect of one complete call of `TryToDrink`, made with every mutex free, on
the four totals. -/
theorem TryToDrink_step (d rnd r1 r2 r3 : Nat) (s s' : World) (b : Bool)
    (hpool : PoolOK s) (hfree : AllFree s)
    (hret : TryToDrink d rnd r1 r2 r3 s = .done b s') :
    PoolOK s' ∧ AllFree s' ∧
    useSum s' = useSum s + (if b then 2 else 0) ∧
    drinkSum s' = drinkSum s + (if b then 1 else 0) ∧
    lockSum s' = lockSum s + (if b then 2 else 1) ∧
    trySum s' = trySum s + 1 := by
  obtain ⟨c, hc⟩ := TryToDrink_drinker d rnd r1 r2 r3 s s' b hret
  have hlt := index_lt rnd s hpool
  obtain ⟨rf, hrf⟩ : ∃ rf,
      s.resourcePool.resources[rnd % s.resourcePool.resources.length]? = some rf :=
    ⟨_, List.getElem?_eq_getElem hlt⟩
  have hrfm : rf.resourceMutex = none := hfree rf (List.getElem?_mem hrf)
  rcases TryToDrink_outcome d rnd r1 r2 r3 s c rf hpool hc hfree hrf with
    ⟨_, t, h1, h2, h3⟩ | ⟨j, rj, hj, hne, t, h1, h2, h3⟩
  · rw [h1] at hret
    injection hret with hb hts
    subst hb
    subst hts
    refine ⟨?_, ?_, ?_, ?_, ?_, ?_⟩
    · unfold PoolOK
      rw [h2]
      simpa using hpool
    · intro r hr
      rw [h2] at hr
      rcases List.mem_or_eq_of_mem_set hr with h | h
      · exact hfree r h
      · rw [h]
        exact hrfm
    · simp only [useSum, h2, sum_map_set _ _ _ rf _ hrf, Bool.false_eq_true, if_false]
      ring
    · simp only [drinkSum, h3, sum_map_set _ _ _ c _ hc, tried, recordFirst,
        Bool.false_eq_true, if_false]
      split <;> ring
    · simp only [lockSum, h2, sum_map_set _ _ _ rf _ hrf, Bool.false_eq_true, if_false]
      ring
    · simp only [trySum, h3, sum_map_set _ _ _ c _ hc, tried, recordFirst]
      split <;> ring
  · rw [h1] at hret
    injection hret with hb hts
    subst hb
    subst hts
    have hrjm : rj.resourceMutex = none := hfree rj (List.getElem?_mem hj)
    have hj' : (s.resourcePool.resources.set (rnd % s.resourcePool.resources.length)
        (used rf))[j]? = some rj := by
      simp [List.getElem?_set, hne, hj]
    have hres : t.resourcePool.resources = (s.resourcePool.resources.set
        (rnd % s.resourcePool.resources.length) (used rf)).set j (used rj) := by
      rw [h2]
    refine ⟨?_, ?_, ?_, ?_, ?_, ?_⟩
    · unfold PoolOK
      rw [h2]
      simpa using hpool
    · intro r hr
      rw [h2] at hr
      rcases List.mem_or_eq_of_mem_set hr with h | h
      · rcases List.mem_or_eq_of_mem_set h with h | h
        · exact hfree r h
        · rw [h]
          exact hrfm
      · rw [h]
        exact hrjm
    · unfold useSum
      rw [hres, sum_map_set _ _ _ rj _ hj', sum_map_set _ _ _ rf _ hrf]
      simp only [used, if_true]
      ring
    · simp only [drinkSum, h3, sum_map_set _ _ _ c _ hc, refreshed, if_true]
      ring
    · unfold lockSum
      rw [hres, sum_map_set _ _ _ rj _ hj', sum_map_set _ _ _ rf _ hrf]
      simp only [used, if_true]
      ring
    · simp only [trySum, h3, sum_map_set _ _ _ c _ hc, refreshed]
      ring

/-- The totals after a sequence of complete `TryToDrink` calls that started
with every mutex free: `k` of the calls drank. -/
theorem runCalls_totals (calls : List Call) (s s' : World)
    (hpool : PoolOK s) (hfree : AllFree s) (hrun : runCalls calls s = .done () s') :
    PoolOK s' ∧ AllFree s' ∧ ∃ k : Nat, k ≤ calls.length ∧
      useSum s' = useSum s + 2 * k ∧ drinkSum s' = drinkSum s + k ∧
      lockSum s' = lockSum s + calls.length + k ∧ trySum s' = trySum s + calls.length := by
  induction calls generalizing s with
  | nil =>
    simp only [runCalls, Res.done.injEq, true_and] at hrun
    subst hrun
    exact ⟨hpool, hfree, 0, le_refl _, by simp, by simp, by simp, by simp⟩
  | cons k rest ih =>
    simp only [runCalls] at hrun
    cases hstep : TryToDrink k.drinker k.rnd k.r1 k.r2 k.r3 s with
    | undefined => simp [hstep, Res.bind] at hrun
    | blocked t => simp [hstep, Res.bind] at hrun
    | done b t =>
      simp only [hstep, Res.bind] at hrun
      obtain ⟨hp, hf, hu, hd, hl, ht⟩ :=
        TryToDrink_step k.drinker k.rnd k.r1 k.r2 k.r3 s t b hpool hfree hstep
      obtain ⟨hp', hf', n, hn, hu', hd', hl', ht'⟩ := ih t hp hf hrun
      refine ⟨hp', hf', n + (if b then 1 else 0), ?_, ?_, ?_, ?_, ?_⟩
      · simp only [List.length_cons]
        split <;> omega
      · rw [hu', hu]
        cases b
        · simp
          try ring
        · simp
          try ring
      · rw [hd', hd]
        cases b
        · simp
          try ring
        · simp
          try ring
      · rw [hl', hl]
        cases b
        · simp
          try ring
        · simp
          try ring
      · rw [ht', ht]
        simp only [List.length_cons, Nat.cast_add, Nat.cast_one]
        ring

theorem Initial.totals (s : World) (h : Initial s) :
    PoolOK s ∧ AllFree s ∧ useSum s = 0 ∧ drinkSum s = 0 ∧ lockSum s = 0 ∧ trySum s = 0 := by
  obtain ⟨hp, hr, hd⟩ := h
  refine ⟨hp, fun r hr' => (hr r hr').2.2, ?_, ?_, ?_, ?_⟩
  · apply List.sum_eq_zero
    intro x hx
    obtain ⟨r, hr', rfl⟩ := List.mem_map.mp hx
    exact (hr r hr').1
  · apply List.sum_eq_zero
    intro x hx
    obtain ⟨c, hc', rfl⟩ := List.mem_map.mp hx
    exact (hd c hc').1
  · apply List.sum_eq_zero
    intro x hx
    obtain ⟨r, hr', rfl⟩ := List.mem_map.mp hx
    exact (hr r hr').2.1
  · apply List.sum_eq_zero
    intro x hx
    obtain ⟨c, hc', rfl⟩ := List.mem_map.mp hx
    exact (hd c hc').2.1

/-- Conservation when the calls do not overlap: in every state reached from an
initial state by complete `TryToDrink` calls made one after the other, the sum
of `useCount` over all resources is twice the sum of `drinkCount` over all
drinkers. -/
theorem conservation (calls : List Call) (s0 s : World) (h0 : Initial s0)
    (hrun : runCalls calls s0 = .done () s) : useSum s = 2 * drinkSum s := by
  obtain ⟨hp, hf, hu, hd, _, _⟩ := Initial.totals s0 h0
  obtain ⟨_, _, k, _, hu', hd', _, _⟩ := runCalls_totals calls s0 s hp hf hrun
  rw [hu', hd', hu, hd]
  ring

/-- When the calls do not overlap: in every state reached from an initial
state by complete `TryToDrink` calls made one after the other, the sum of
`lockCount` over all resources is at least the sum of `useCount` over all
resources. -/
theorem lockSum_ge_useSum (calls : List Call) (s0 s : World) (h0 : Initial s0)
    (hrun : runCalls calls s0 = .done () s) : useSum s ≤ lockSum s := by
  obtain ⟨hp, hf, hu, _, hl, _⟩ := Initial.totals s0 h0
  obtain ⟨_, _, k, hk, hu', _, hl', _⟩ := runCalls_totals calls s0 s hp hf hrun
  rw [hu', hl', hu, hl]
  have : (k : Int) ≤ (calls.length : Int) := by exact_mod_cast hk
  linarith

theorem SameType.not_available (s : World) (h : SameType s) (rf : Resource)
    (hrf : rf ∈ s.resourcePool.resources) (i : Nat) :
    ¬ Available s (complementary rf.type) i := by
  rintro ⟨r, hr, ht, _⟩
  rw [h r (List.getElem?_mem hr) rf hrf] at ht
  exact complementary_ne _ ht.symm

theorem runCalls_single_type (calls : List Call) (s s' : World)
    (hpool : PoolOK s) (hfree : AllFree s) (hsame : SameType s)
    (hd : ∀ c ∈ s.drinkerPool.drinkers, c.drinkCount = 0)
    (hu : ∀ r ∈ s.resourcePool.resources, r.useCount = 0)
    (hrun : runCalls calls s = .done () s') :
    (∀ c ∈ s'.drinkerPool.drinkers, c.drinkCount = 0) ∧
      (∀ r ∈ s'.resourcePool.resources, r.useCount = 0) := by
  induction calls generalizing s with
  | nil =>
    simp only [runCalls, Res.done.injEq, true_and] at hrun
    subst hrun
    exact ⟨hd, hu⟩
  | cons k rest ih =>
    simp only [runCalls] at hrun
    cases hstep : TryToDrink k.drinker k.rnd k.r1 k.r2 k.r3 s with
    | undefined => simp [hstep, Res.bind] at hrun
    | blocked t => simp [hstep, Res.bind] at hrun
    | done b t =>
      simp only [hstep, Res.bind] at hrun
      obtain ⟨hp, hf, _⟩ :=
        TryToDrink_step k.drinker k.rnd k.r1 k.r2 k.r3 s t b hpool hfree hstep
      obtain ⟨c, hc⟩ := TryToDrink_drinker k.drinker k.rnd k.r1 k.r2 k.r3 s t b hstep
      have hlt := index_lt k.rnd s hpool
      obtain ⟨rf, hrf⟩ : ∃ rf,
          s.resourcePool.resources[k.rnd % s.resourcePool.resources.length]? = some rf :=
        ⟨_, List.getElem?_eq_getElem hlt⟩
      have hrfmem : rf ∈ s.resourcePool.resources := List.getElem?_mem hrf
      rcases TryToDrink_outcome k.drinker k.rnd k.r1 k.r2 k.r3 s c rf hpool hc hfree hrf with
        ⟨_, t', h1, h2, h3⟩ | ⟨j, rj, hj, hne, t', h1, _, _⟩
      · rw [h1] at hstep
        injection hstep with _ hts
        subst hts
        apply ih t' hp hf _ _ _ hrun
        · intro r hr r' hr'
          rw [h2] at hr hr'
          have key : ∀ x ∈ s.resourcePool.resources.set
              (k.rnd % s.resourcePool.resources.length)
              { rf with lockCount := rf.lockCount + 1 }, x.type = rf.type := by
            intro x hx
            rcases List.mem_or_eq_of_mem_set hx with h | h
            · exact hsame x h rf hrfmem
            · rw [h]
          rw [key r hr, key r' hr']
        · intro c' hc'
          rw [h3] at hc'
          rcases List.mem_or_eq_of_mem_set hc' with h | h
          · exact hd c' h
          · rw [h]
            have := hd c (List.getElem?_mem hc)
            simp only [tried, recordFirst]
            split <;> exact this
        · intro r hr
          rw [h2] at hr
          rcases List.mem_or_eq_of_mem_set hr with h | h
          · exact hu r h
          · rw [h]
            exact hu rf hrfmem
      · have hav : Available s (complementary rf.type) j := by
          have hjm : rj.resourceMutex = none := hfree rj (List.getElem?_mem hj)
          have hheld := heldBy_zero_of_allFree s k.drinker hfree
          rcases TryToGetResources_outcome k.drinker k.rnd s c rf hpool hc hheld hrf with
            ⟨o, ho, _, _⟩ | ⟨_, _, u, hu1, _, _, _⟩ | ⟨_, j', rj', hj', hjt', hjf', _, _⟩
          · rw [hfree rf hrfmem] at ho
            cases ho
          · simp only [TryToDrink, hu1, Res.bind, Bool.false_eq_true, if_false] at h1
            cases h1
          · exact absurd ⟨rj', hj', hjt', hjf'⟩ (hsame.not_available s rf hrfmem j')
        exact absurd hav (hsame.not_available s rf hrfmem j)

/-- C6: in a pool whose resources all have the same type, no call of
`TryToGetResources` returns `true`, whatever index is picked and whatever the
lock state, and every call whose first resource is free returns `false`; so
after any sequence of `TryToDrink` calls from an initial state every drinker's
`drinkCount` and every resource's `useCount` is still 0. -/
theorem single_type_never_drinks (s : World) (hpool : PoolOK s) (hsame : SameType s) :
    (∀ d rnd c, s.drinkerPool.drinkers[d]? = some c → heldBy s d = 0 →
      (∀ s', TryToGetResources d rnd s ≠ .done true s') ∧
      (∀ rf, s.resourcePool.resources[rnd % s.resourcePool.resources.length]? = some rf →
        rf.resourceMutex = none → ∃ s', TryToGetResources d rnd s = .done false s')) ∧
    (Initial s → ∀ calls s', runCalls calls s = .done () s' →
      (∀ c ∈ s'.drinkerPool.drinkers, c.drinkCount = 0) ∧
      (∀ r ∈ s'.resourcePool.resources, r.useCount = 0)) := by
  constructor
  · intro d rnd c hc hheld
    have hlt := index_lt rnd s hpool
    obtain ⟨rf, hrf⟩ : ∃ rf,
        s.resourcePool.resources[rnd % s.resourcePool.resources.length]? = some rf :=
      ⟨_, List.getElem?_eq_getElem hlt⟩
    have hrfmem : rf ∈ s.resourcePool.resources := List.getElem?_mem hrf
    rcases TryToGetResources_outcome d rnd s c rf hpool hc hheld hrf with
      ⟨o, ho, _, h1⟩ | ⟨_, _, t, h1, _, _, _⟩ | ⟨_, j, rj, hj, hjt, hjf, _, _⟩
    · have hnt : ∀ s', TryToGetResources d rnd s ≠ .done true s' := by
        intro s' h
        rw [h1] at h
        cases h
      refine ⟨hnt, ?_⟩
      intro rf' hrf' hm
      rw [hrf] at hrf'
      injection hrf' with hrf'
      subst hrf'
      rw [hm] at ho
      cases ho
    · have hnt : ∀ s', TryToGetResources d rnd s ≠ .done true s' := by
        intro s' h
        rw [h1] at h
        cases h
      exact ⟨hnt, fun _ _ _ => ⟨t, h1⟩⟩
    · exact absurd ⟨rj, hj, hjt, hjf⟩ (hsame.not_available s rf hrfmem j)
  · intro h0 calls s' hrun
    obtain ⟨hp, hr, hd⟩ := h0
    exact runCalls_single_type calls s s' hp (fun r hr' => (hr r hr').2.2) hsame
      (fun c hc => (hd c hc).1) (fun r hr' => (hr r hr').1) hrun

end cycle

section loop

theorem Sound.bind {α β : Type} {d : Nat} {x : Res α} {f : α → World → Res β} {s : World}
    (hx : Sound d x s) (hf : ∀ a s1, x = .done a s1 → Sound d (f a s1) s1) :
    Sound d (x.bind f) s := by
  cases x with
  | undefined =>
    refine ⟨?_, ?_⟩
    · intro s' h
      simp [Res.bind, Res.state?] at h
    · intro a s' h
      simp [Res.bind] at h
  | blocked t =>
    refine ⟨?_, ?_⟩
    · intro s' h
      exact hx.1 s' (by simpa [Res.bind] using h)
    · intro a s' h
      simp [Res.bind] at h
  | done a t =>
    have h1 := hx.1 t rfl
    have h2 := hf a t rfl
    refine ⟨?_, ?_⟩
    · intro s' h
      exact Extends.trans h1 (h2.1 s' (by simpa [Res.bind] using h))
    · intro b s' h
      exact h2.2 b s' (by simpa [Res.bind] using h)

theorem Sound.done {α : Type} {d : Nat} (a : α) {s : World} (h : Idle d s) :
    Sound d (Res.done a s) s := by
  refine ⟨?_, ?_⟩
  · intro s' hs
    simp only [Res.state?, Option.some.injEq] at hs
    subst hs
    exact Extends.refl _ _
  · intro b s' hs
    injection hs with _ hs
    subst hs
    exact h

theorem NoPartialHold.of_zero (d : Nat) (e : Event) : NoPartialHold d ⟨d, e, 0⟩ :=
  ⟨rfl, fun _ => Or.inl rfl, fun _ _ => rfl⟩

theorem extends_emit_idle (d : Nat) (e : Event) (s : World) (h : Idle d s) :
    Extends (NoPartialHold d) s (emit d e s) := by
  apply Extends.of_emit
  rw [h.2]
  exact NoPartialHold.of_zero d e

theorem idle_emit {d : Nat} {s : World} (e : Event) (h : Idle d s) : Idle d (emit d e s) := h

theorem idle_setGun {d : Nat} {s : World} (m : Option Nat) (h : Idle d s) :
    Idle d (setGun m s) := h

theorem idle_setPoolMutex {d : Nat} {s : World} (m : Option Nat) (h : Idle d s) :
    Idle d (setPoolMutex m s) := h

theorem lockGun_sound (d : Nat) (s : World) (h : Idle d s) : Sound d (lockGun d s) s := by
  unfold lockGun
  split
  · refine ⟨?_, ?_⟩
    · intro s' hs
      simp only [Res.state?, Option.some.injEq] at hs
      subst hs
      exact Extends.trans (extends_emit_idle d _ s h) (Extends.of_trace_eq rfl)
    · intro a s' hs
      injection hs with _ hs
      subst hs
      exact idle_setGun _ (idle_emit _ h)
  · split
    · exact ⟨fun s' hs => by simp [Res.state?] at hs, fun a s' hs => by simp at hs⟩
    · refine ⟨?_, fun a s' hs => by simp at hs⟩
      intro s' hs
      simp only [Res.state?, Option.some.injEq] at hs
      subst hs
      exact extends_emit_idle d _ s h

theorem unlockGun_sound (d : Nat) (s : World) (h : Idle d s) : Sound d (unlockGun d s) s := by
  unfold unlockGun
  split
  · refine ⟨?_, ?_⟩
    · intro s' hs
      simp only [Res.state?, Option.some.injEq] at hs
      subst hs
      exact Extends.trans (extends_emit_idle d _ s h) (Extends.of_trace_eq rfl)
    · intro a s' hs
      injection hs with _ hs
      subst hs
      exact idle_setGun _ (idle_emit _ h)
  · exact ⟨fun s' hs => by simp [Res.state?] at hs, fun a s' hs => by simp at hs⟩

theorem lockPool_sound (d : Nat) (s : World) (h : Idle d s) : Sound d (lockPool d s) s := by
  unfold lockPool
  split
  · refine ⟨?_, ?_⟩
    · intro s' hs
      simp only [Res.state?, Option.some.injEq] at hs
      subst hs
      exact Extends.trans (extends_emit_idle d _ s h) (Extends.of_trace_eq rfl)
    · intro a s' hs
      injection hs with _ hs
      subst hs
      exact idle_setPoolMutex _ (idle_emit _ h)
  · split
    · exact ⟨fun s' hs => by simp [Res.state?] at hs, fun a s' hs => by simp at hs⟩
    · refine ⟨?_, fun a s' hs => by simp at hs⟩
      intro s' hs
      simp only [Res.state?, Option.some.injEq] at hs
      subst hs
      exact extends_emit_idle d _ s h

theorem unlockPool_sound (d : Nat) (s : World) (h : Idle d s) :
    Sound d (unlockPool d s) s := by
  unfold unlockPool
  split
  · refine ⟨?_, ?_⟩
    · intro s' hs
      simp only [Res.state?, Option.some.injEq] at hs
      subst hs
      exact Extends.trans (extends_emit_idle d _ s h) (Extends.of_trace_eq rfl)
    · intro a s' hs
      injection hs with _ hs
      subst hs
      exact idle_setPoolMutex _ (idle_emit _ h)
  · exact ⟨fun s' hs => by simp [Res.state?] at hs, fun a s' hs => by simp at hs⟩

theorem waitPool_sound (d : Nat) (s : World) (h : Idle d s) : Sound d (waitPool d s) s := by
  unfold waitPool
  split
  · refine ⟨?_, ?_⟩
    · intro s' hs
      simp only [Res.state?, Option.some.injEq] at hs
      subst hs
      exact extends_emit_idle d _ s h
    · intro a s' hs
      injection hs with _ hs
      subst hs
      exact idle_emit _ h
  · exact ⟨fun s' hs => by simp [Res.state?] at hs, fun a s' hs => by simp at hs⟩

theorem readStop_sound (d : Nat) (s : World) (h : Idle d s) : Sound d (readStop d s) s := by
  unfold readStop
  refine ⟨?_, ?_⟩
  · intro s' hs
    simp only [Res.state?, Option.some.injEq] at hs
    subst hs
    exact extends_emit_idle d _ s h
  · intro a s' hs
    injection hs with _ hs
    subst hs
    exact idle_emit _ h

theorem PoolOK.of_same_size {s t : World} (h : PoolOK s)
    (h1 : t.resourcePool.totalResources = s.resourcePool.totalResources)
    (h2 : t.resourcePool.resources.length = s.resourcePool.resources.length) : PoolOK t := by
  unfold PoolOK
  rw [h1, h2]
  exact h

theorem heldBy_after_release (s s' : World) (d b o : Nat) (rb ro : Resource)
    (hrb : s.resourcePool.resources[b]? = some rb)
    (hro : s.resourcePool.resources[o]? = some ro) (hne : b ≠ o)
    (hmb : rb.resourceMutex = some d) (hmo : ro.resourceMutex = some d)
    (h2 : s'.resourcePool.resources
      = (s.resourcePool.resources.set b (released rb)).set o (released ro)) :
    heldBy s' d = heldBy s d - 1 - 1 := by
  have hblt : b < s.resourcePool.resources.length := by
    rcases List.getElem?_eq_some_iff.mp hrb with ⟨h, _⟩
    exact h
  have holt : o < s.resourcePool.resources.length := by
    rcases List.getElem?_eq_some_iff.mp hro with ⟨h, _⟩
    exact h
  have holt' : o < (s.resourcePool.resources.set b (released rb)).length := by
    simpa using holt
  have hro' : (s.resourcePool.resources.set b (released rb))[o] = ro := by
    rw [List.getElem_set_of_ne hne]
    exact (List.getElem?_eq_some_iff.mp hro).2
  have hrb' : s.resourcePool.resources[b] = rb := (List.getElem?_eq_some_iff.mp hrb).2
  rw [heldBy_of_resources s' d _ h2, List.countP_set _ _ _ _ holt', hro',
    List.countP_set _ _ _ _ hblt, hrb']
  simp [released, hmb, hmo, heldBy]

theorem AcquireObs.noPartialHold {d f : Nat} {o : Obs} (h : AcquireObs d f 0 o) :
    NoPartialHold d o := by
  obtain ⟨ht, hcase⟩ := h
  rcases hcase with ⟨he, hh⟩ | ⟨i, b, he⟩ | he
  · exact ⟨ht, fun _ => Or.inl hh, fun _ _ => hh⟩
  · refine ⟨ht, ?_, ?_⟩
    · intro hb
      rw [he] at hb
      simp [Event.blocking] at hb
    · intro k hk
      rw [he] at hk
      cases hk
  · refine ⟨ht, ?_, ?_⟩
    · intro hb
      rw [he] at hb
      simp [Event.blocking] at hb
    · intro k hk
      rw [he] at hk
      cases hk

theorem pauseObs_noPartialHold (d r2 r3 : Nat) (n : Int) :
    ∀ o ∈ pauseObs d r2 r3 n 0, NoPartialHold d o := by
  intro o ho
  unfold pauseObs at ho
  split at ho
  · simp only [List.mem_singleton] at ho
    subst ho
    exact NoPartialHold.of_zero d _
  · split at ho
    · simp only [List.mem_singleton] at ho
      subst ho
      exact NoPartialHold.of_zero d _
    · simp at ho

theorem TryToDrink_sound (d rnd r1 r2 r3 : Nat) (s : World) (h : Idle d s) :
    Sound d (TryToDrink d rnd r1 r2 r3 s) s := by
  obtain ⟨hpool, hheld⟩ := h
  cases hc : s.drinkerPool.drinkers[d]? with
  | none =>
    have hund : TryToDrink d rnd r1 r2 r3 s = .undefined := by
      simp [TryToDrink, TryToGetResources_no_drinker d rnd s hc, Res.bind]
    rw [hund]
    exact ⟨fun s' hs => by simp [Res.state?] at hs, fun a s' hs => by simp at hs⟩
  | some c =>
    have hlt := index_lt rnd s hpool
    have hcl : d < s.drinkerPool.drinkers.length := by
      rcases List.getElem?_eq_some_iff.mp hc with ⟨h, _⟩
      exact h
    obtain ⟨rf, hrf⟩ : ∃ rf,
        s.resourcePool.resources[rnd % s.resourcePool.resources.length]? = some rf :=
      ⟨_, List.getElem?_eq_getElem hlt⟩
    rcases TryToGetResources_outcome d rnd s c rf hpool hc hheld hrf with
      ⟨o, _, _, h1⟩ | ⟨hrfm, _, t, h1, h2, _, hx⟩ |
      ⟨_, j, rj, hj, hjt, _, _, t, h1, h2, h3, hx⟩
    · have hb : TryToDrink d rnd r1 r2 r3 s = .blocked
          (emit d (.lock (rnd % s.resourcePool.resources.length))
            (setDrinker d { c with resourceTryCount := c.resourceTryCount + 1 } s)) := by
        simp [TryToDrink, h1, Res.bind]
      rw [hb]
      refine ⟨?_, fun a s' hs => by simp at hs⟩
      intro s' hs
      simp only [Res.state?, Option.some.injEq] at hs
      subst hs
      refine ⟨[⟨d, .lock (rnd % s.resourcePool.resources.length), 0⟩], ?_, ?_⟩
      · simp [hheld]
      · intro o ho
        simp only [List.mem_singleton] at ho
        subst ho
        exact NoPartialHold.of_zero d _
    · have hd : TryToDrink d rnd r1 r2 r3 s = .done false (emit d .notifyAll t) := by
        simp [TryToDrink, h1, Res.bind]
      have hls : lockState t = lockState s := by
        have hrf' := (List.getElem?_eq_some_iff.mp hrf).2
        unfold lockState
        rw [h2]
        simp only [List.map_set]
        apply List.ext_getElem?
        intro k
        by_cases hk : rnd % s.resourcePool.resources.length = k
        · subst hk
          simp [List.getElem?_set, hlt, hrf']
        · simp [List.getElem?_set, hk]
      have hidle : Idle d t :=
        ⟨hpool.of_same_size (by rw [h2]) (by rw [h2]; simp),
          by rw [heldBy_congr s t d hls, hheld]⟩
      rw [hd]
      refine ⟨?_, ?_⟩
      · intro s' hs
        simp only [Res.state?, Option.some.injEq] at hs
        subst hs
        exact Extends.trans (Extends.mono (fun o ho => ho.noPartialHold) hx)
          (extends_emit_idle d _ t hidle)
      · intro a s' hs
        injection hs with _ hs
        subst hs
        exact idle_emit _ hidle
    · have hjlt : j < s.resourcePool.resources.length := by
        rcases List.getElem?_eq_some_iff.mp hj with ⟨h, _⟩
        exact h
      have hne : rnd % s.resourcePool.resources.length ≠ j :=
        first_ne_second s _ j rf rj hrf hj hjt
      have hres : t.resourcePool.resources = (s.resourcePool.resources.set
          (rnd % s.resourcePool.resources.length) (acquired d rf)).set j (acquired d rj) := by
        rw [h2]
      have hht : heldBy t d = 2 := heldBy_pair s t d _ j rf rj hheld hrf hj hne hres
      have hgf : t.resourcePool.resources[rnd % s.resourcePool.resources.length]?
          = some (acquired d rf) := by
        rw [hres]
        simp [List.getElem?_set, hlt, Ne.symm hne]
      have hgj : t.resourcePool.resources[j]? = some (acquired d rj) := by
        rw [hres]
        simp [List.getElem?_set, hjlt]
      have hgd : t.drinkerPool.drinkers[d]? = some (recordSecond rf.type j
          (tried rf.type (rnd % s.resourcePool.resources.length) c)) := by
        rw [h3]
        simp [List.getElem?_set, hcl]
      have hpoolt : PoolOK t := hpool.of_same_size (by rw [h2]) (by rw [h2]; simp)
      have hdrink : ∃ b o rb ro, t.resourcePool.resources[b]? = some rb ∧
          t.resourcePool.resources[o]? = some ro ∧ b ≠ o ∧
          (recordSecond rf.type j
            (tried rf.type (rnd % s.resourcePool.resources.length) c)).bottle = some b ∧
          (recordSecond rf.type j
            (tried rf.type (rnd % s.resourcePool.resources.length) c)).opener = some o ∧
          rb.resourceMutex = some d ∧ ro.resourceMutex = some d := by
        by_cases hty : rf.type = ResourceType.Bottle
        · refine ⟨_, j, _, _, hgf, hgj, hne, ?_, ?_, rfl, rfl⟩
          · simp [recordSecond, tried, recordFirst, hty]
          · simp [recordSecond, tried, recordFirst, hty]
        · refine ⟨j, _, _, _, hgj, hgf, Ne.symm hne, ?_, ?_, rfl, rfl⟩
          · simp [recordSecond, tried, recordFirst, hty]
          · simp [recordSecond, tried, recordFirst, hty]
      obtain ⟨b, o, rb, ro, hb1, ho1, hbo, hcb, hco, hmb, hmo⟩ := hdrink
      obtain ⟨u, hu1, hu2, _, hu4⟩ :=
        Drink_spec d r1 r2 r3 t _ b o rb ro hgd hcb hco hb1 ho1 hbo hmb hmo
      have hhu : heldBy u d = 0 := by
        rw [heldBy_after_release t u d b o rb ro hb1 ho1 hbo hmb hmo (by rw [hu2]), hht]
      have hidle : Idle d u :=
        ⟨hpoolt.of_same_size (by rw [hu2]) (by rw [hu2]; simp), hhu⟩
      have hd : TryToDrink d rnd r1 r2 r3 s = .done true (emit d .notifyAll u) := by
        simp [TryToDrink, h1, Res.bind, hu1]
      have hext : Extends (NoPartialHold d) t u := by
        refine ⟨_, hu4, ?_⟩
        rw [hht]
        intro ob hob
        rcases List.mem_append.mp hob with hob | hob
        · simp only [List.mem_cons, List.mem_singleton, List.not_mem_nil, or_false] at hob
          rcases hob with rfl | rfl | rfl
          · exact ⟨rfl, fun _ => Or.inr rfl, fun i hi => by cases hi⟩
          · exact ⟨rfl, fun hb => by simp [Event.blocking] at hb, fun i hi => by cases hi⟩
          · exact ⟨rfl, fun hb => by simp [Event.blocking] at hb, fun i hi => by cases hi⟩
        · exact pauseObs_noPartialHold d r2 r3 _ ob hob
      rw [hd]
      refine ⟨?_, ?_⟩
      · intro s' hs
        simp only [Res.state?, Option.some.injEq] at hs
        subst hs
        exact Extends.trans (Extends.mono (fun o ho => ho.noPartialHold) hx)
          (Extends.trans hext (extends_emit_idle d _ u hidle))
      · intro a s' hs
        injection hs with _ hs
        subst hs
        exact idle_emit _ hidle

theorem StartDrinkerBody_sound (d : Nat) (k : Draws) (s : World) (h : Idle d s) :
    Sound d (StartDrinkerBody d k s) s := by
  unfold StartDrinkerBody
  refine Sound.bind (lockGun_sound d s h) ?_
  intro _ s1 h1
  have i1 := (lockGun_sound d s h).2 _ _ h1
  refine Sound.bind (readStop_sound d s1 i1) ?_
  intro stop s2 h2
  have i2 := (readStop_sound d s1 i1).2 _ _ h2
  cases stop with
  | true => exact Sound.done _ i2
  | false =>
    simp only [Bool.false_eq_true, if_false]
    refine Sound.bind (unlockGun_sound d s2 i2) ?_
    intro _ s3 h3
    have i3 := (unlockGun_sound d s2 i2).2 _ _ h3
    refine Sound.bind (TryToDrink_sound d k.rnd k.r1 k.r2 k.r3 s3 i3) ?_
    intro drank s4 h4
    have i4 := (TryToDrink_sound d k.rnd k.r1 k.r2 k.r3 s3 i3).2 _ _ h4
    cases drank with
    | true => exact Sound.done _ i4
    | false =>
      simp only [Bool.not_false, if_true]
      refine Sound.bind (lockGun_sound d s4 i4) ?_
      intro _ s5 h5
      have i5 := (lockGun_sound d s4 i4).2 _ _ h5
      refine Sound.bind (readStop_sound d s5 i5) ?_
      intro stop s6 h6
      have i6 := (readStop_sound d s5 i5).2 _ _ h6
      cases stop with
      | true => exact Sound.done _ i6
      | false =>
        simp only [Bool.false_eq_true, if_false]
        refine Sound.bind (lockPool_sound d s6 i6) ?_
        intro _ s7 h7
        have i7 := (lockPool_sound d s6 i6).2 _ _ h7
        refine Sound.bind (unlockGun_sound d s7 i7) ?_
        intro _ s8 h8
        have i8 := (unlockGun_sound d s7 i7).2 _ _ h8
        refine Sound.bind (waitPool_sound d s8 i8) ?_
        intro _ s9 h9
        have i9 := (waitPool_sound d s8 i8).2 _ _ h9
        refine Sound.bind (unlockPool_sound d s9 i9) ?_
        intro _ s10 h10
        exact Sound.done _ ((unlockPool_sound d s9 i9).2 _ _ h10)

theorem StartDrinker_sound (d : Nat) (draws : List Draws) (s : World) (h : Idle d s) :
    Sound d (StartDrinker d draws s) s := by
  induction draws generalizing s with
  | nil => exact Sound.done _ h
  | cons k rest ih =>
    unfold StartDrinker
    refine Sound.bind (StartDrinkerBody_sound d k s h) ?_
    intro brk s1 h1
    have i1 := (StartDrinkerBody_sound d k s h).2 _ _ h1
    cases brk with
    | true =>
      simp only [if_true]
      refine Sound.bind (unlockGun_sound d s1 i1) ?_
      intro _ s2 h2
      exact Sound.done _ ((unlockGun_sound d s1 i1).2 _ _ h2)
    | false =>
      simp only [Bool.false_eq_true, if_false]
      exact ih s1 i1

/-- C10: no partial hold during blocking.  Whatever the state in which a
drinker that holds no resource enters `StartDrinker`, and however many passes
of the loop it makes, every call it makes at which it can be suspended (the
blocking `lock()` of the first resource, the lock of `startingGunMutex` or of
`poolMutex`, the wait on `poolCondition`, the sleeps) is made while it holds 0
or 2 resource mutexes, never exactly 1; a blocking `lock()` of a resource is
made holding none, so the second resource is only ever taken by `try_lock`;
and whenever `StartDrinker` stops (returned or still looping) the drinker
holds no resource.  This covers runs that end parked on a mutex. -/
theorem StartDrinker_no_partial_hold (d : Nat) (draws : List Draws) (s : World)
    (hpool : PoolOK s) (hheld : heldBy s d = 0) :
    (∀ s', (StartDrinker d draws s).state? = some s' →
      ∃ T, s'.trace = s.trace ++ T ∧ ∀ o ∈ T, o.thread = d ∧
        (o.event.blocking = true → o.held = 0 ∨ o.held = 2) ∧
        (∀ i, o.event = Event.lock i → o.held = 0)) ∧
    (∀ b s', StartDrinker d draws s = .done b s' → heldBy s' d = 0) := by
  have h := StartDrinker_sound d draws s ⟨hpool, hheld⟩
  exact ⟨fun s' hs => h.1 s' hs, fun b s' hs => (h.2 b s' hs).2⟩

end loop

section witnesses

theorem exampleWorld_poolOK : PoolOK exampleWorld := ⟨by decide, by decide⟩

theorem contendedWorld_poolOK : PoolOK contendedWorld := ⟨by decide, by decide⟩

theorem bottlesOnlyWorld_poolOK : PoolOK bottlesOnlyWorld := ⟨by decide, by decide⟩

theorem exampleWorld_initial : Initial exampleWorld :=
  ⟨exampleWorld_poolOK, by decide, by decide⟩

theorem bottlesOnlyWorld_initial : Initial bottlesOnlyWorld :=
  ⟨bottlesOnlyWorld_poolOK, by decide, by decide⟩

/-- Witness for C1: drinker 0 picks bottle 1 in `exampleWorld` and the call
returns, with `true` exactly when an opener is available. -/
theorem TryToGetResources_scans_lowest_witness :
    PoolOK exampleWorld ∧ heldBy exampleWorld 0 = 0 ∧
    ∃ b s', TryToGetResources 0 4 exampleWorld = .done b s' ∧
      (b = true ↔
        ∃ i, Available exampleWorld (complementary (freshResource 1 .Bottle).type) i) :=
  ⟨exampleWorld_poolOK, by decide,
    (TryToGetResources_scans_lowest 0 4 exampleWorld (freshDrinker 0)
      (freshResource 1 .Bottle) exampleWorld_poolOK rfl (by decide) rfl rfl).imp
      fun _ h => h.imp fun _ h => ⟨h.1, h.2.1⟩⟩

/-- Witness for C2: after drinker 0 picks bottle 1 in `exampleWorld` it holds
exactly two resource mutexes. -/
theorem TryToGetResources_acquires_pair_witness :
    TryToGetResources 0 4 exampleWorld
        = .done true ((TryToGetResources 0 4 exampleWorld).stateOr exampleWorld) ∧
      heldBy ((TryToGetResources 0 4 exampleWorld).stateOr exampleWorld) 0 = 2 :=
  ⟨by decide,
    (TryToGetResources_acquires_pair 0 4 exampleWorld
      ((TryToGetResources 0 4 exampleWorld).stateOr exampleWorld) (freshDrinker 0)
      exampleWorld_poolOK rfl (by decide) (by decide) (by decide)).elim
      fun _ h => h.elim fun _ h => h.elim fun _ h => h.elim fun _ h => h.elim fun _ h =>
        h.2.2.2.2.2.2.2.2.2.2⟩

/-- Witness for C3: in `contendedWorld` the only opener is held by drinker 1, so
the call of drinker 0, which picks bottle 1, returns `false`. -/
theorem TryToGetResources_failure_releases_witness :
    PoolOK contendedWorld ∧ heldBy contendedWorld 0 = 0 ∧
    ∃ s', TryToGetResources 0 4 contendedWorld = .done false s' :=
  ⟨contendedWorld_poolOK, by decide,
    (TryToGetResources_failure_releases 0 4 contendedWorld (freshDrinker 0)
      (freshResource 1 .Bottle) contendedWorld_poolOK rfl (by decide) rfl rfl).1
      (by
        rintro i ⟨r, hr, ht, hm⟩
        have hi : i < 3 := (List.getElem?_eq_some_iff.mp hr).1
        interval_cases i <;> simp [contendedWorld, freshResource] at hr <;> subst hr <;>
          simp [complementary, freshResource] at ht hm)⟩

/-- Example: conservation after the three calls of `exampleCalls`. -/
theorem conservation_witness :
    Initial exampleWorld ∧
    runCalls exampleCalls exampleWorld
      = .done () ((runCalls exampleCalls exampleWorld).stateOr exampleWorld) ∧
    useSum ((runCalls exampleCalls exampleWorld).stateOr exampleWorld)
      = 2 * drinkSum ((runCalls exampleCalls exampleWorld).stateOr exampleWorld) :=
  ⟨exampleWorld_initial, by decide,
    conservation exampleCalls exampleWorld _ exampleWorld_initial (by decide)⟩

/-- Counterexample to C5 as stated: on the tenth drink (`drinkCount` goes from 9
to 10, a multiple of 10) `Drink` sleeps for `drunkTime` = 40 ms but not for
`bathroomTime` = 60 ms. -/
theorem Drink_tenth_skips_bathroom :
    Int.tmod (9 + 1) 10 = 0 ∧
    (Drink 0 0 0 0 tenthDrinkWorld).state?.map
        (fun s => (s.trace.map Obs.event, sleepsFor 40 s, sleepsFor 60 s))
      = some ([.sleep 20, .unlock 0, .unlock 2, .sleep 40], true, false) :=
  ⟨by decide, by decide⟩

/-- Witness for the amended C5: the tenth drink of `tenthDrinkWorld` returns. -/
theorem Drink_pause_exclusive_witness :
    ∃ s' P, Drink 0 0 0 0 tenthDrinkWorld = .done () s' ∧
      s'.trace = tenthDrinkWorld.trace ++
        ([⟨0, .sleep (20 + Int.tmod (0 : Nat) 20), heldBy tenthDrinkWorld 0⟩,
          ⟨0, .unlock 0, heldBy tenthDrinkWorld 0⟩,
          ⟨0, .unlock 2, heldBy tenthDrinkWorld 0 - 1⟩] ++ P) :=
  (Drink_pause_exclusive 0 0 0 0 tenthDrinkWorld ⟨0, 9, 12, some 0, some 2⟩ 0 2
    ⟨0, 9, 12, .Bottle, some 0⟩ ⟨2, 9, 11, .Opener, some 0⟩ rfl rfl rfl rfl rfl (by decide)
    rfl rfl).imp fun _ h => h.imp fun _ h => ⟨h.1, h.2.1⟩

/-- Witness for C6: `bottlesOnlyWorld` has one bottle and no opener. -/
theorem single_type_never_drinks_witness :
    PoolOK bottlesOnlyWorld ∧ SameType bottlesOnlyWorld ∧
    ∀ s', TryToGetResources 0 7 bottlesOnlyWorld ≠ .done true s' :=
  ⟨bottlesOnlyWorld_poolOK, by unfold SameType; decide,
    ((single_type_never_drinks bottlesOnlyWorld bottlesOnlyWorld_poolOK
      (by unfold SameType; decide)).1 0 7 (freshDrinker 0) rfl (by decide)).1⟩

/-- Example: locks and uses after the three calls of `exampleCalls`. -/
theorem lockSum_ge_useSum_witness :
    Initial exampleWorld ∧
    useSum ((runCalls exampleCalls exampleWorld).stateOr exampleWorld)
      ≤ lockSum ((runCalls exampleCalls exampleWorld).stateOr exampleWorld) :=
  ⟨exampleWorld_initial,
    lockSum_ge_useSum exampleCalls exampleWorld _ exampleWorld_initial (by decide)⟩

/-- Witness for C8: drinker 0 of `tenthDrinkWorld` holds bottle 0 and opener 2. -/
theorem Drink_releases_pair_witness :
    ∃ s', Drink 0 0 0 0 tenthDrinkWorld = .done () s' ∧
      s'.resourcePool.resources.length = tenthDrinkWorld.resourcePool.resources.length :=
  (Drink_releases_pair 0 0 0 0 tenthDrinkWorld ⟨0, 9, 12, some 0, some 2⟩ 0 2
    ⟨0, 9, 12, .Bottle, some 0⟩ ⟨2, 9, 11, .Opener, some 0⟩ rfl rfl rfl rfl rfl (by decide)
    rfl rfl).imp fun _ h => ⟨h.1, h.2.2.2.1⟩

/-- Witness for C9: the failed call of drinker 0 in `contendedWorld` counts one
lock, on bottle 1. -/
theorem TryToGetResources_lockCount_witness :
    TryToGetResources 0 4 contendedWorld
        = .done false ((TryToGetResources 0 4 contendedWorld).stateOr contendedWorld) ∧
      CountsBumped contendedWorld
        ((TryToGetResources 0 4 contendedWorld).stateOr contendedWorld)
        [4 % contendedWorld.resourcePool.resources.length] :=
  ⟨by decide,
    (TryToGetResources_lockCount 0 4 contendedWorld
      ((TryToGetResources 0 4 contendedWorld).stateOr contendedWorld) (freshDrinker 0) false
      contendedWorld_poolOK rfl (by decide) (by decide)).1 rfl⟩

/-- Witness for C10: two passes of drinker 0 through its loop in
`contendedWorld`; the drinker holds nothing when the run stops. -/
theorem StartDrinker_no_partial_hold_witness :
    PoolOK contendedWorld ∧ heldBy contendedWorld 0 = 0 ∧
    ∀ b s', StartDrinker 0 [⟨4, 0, 0, 0⟩, ⟨3, 1, 1, 1⟩] contendedWorld = .done b s' →
      heldBy s' 0 = 0 :=
  ⟨contendedWorld_poolOK, by decide,
    (StartDrinker_no_partial_hold 0 [⟨4, 0, 0, 0⟩, ⟨3, 1, 1, 1⟩] contendedWorld
      contendedWorld_poolOK (by decide)).2⟩

end witnesses

section setup

theorem wrapInt_of_isInt (x : Int) (h : IsInt x) : wrapInt x = x := by
  unfold IsInt at h
  unfold wrapInt
  omega

theorem wrapInt_sum (b o : Int) (hb : IsInt b) (ho : IsInt o) (hb0 : 0 ≤ b) (ho0 : 0 ≤ o) :
    (wrapInt (b + o) = 0 ↔ b + o = 0) ∧ (0 < wrapInt (b + o) ↔ 0 < b + o ∧ b + o ≤ 2147483647) ∧
      (0 < wrapInt (b + o) → wrapInt (b + o) = b + o) := by
  unfold IsInt at hb ho
  unfold wrapInt
  omega

/-- C14: for all `int` values of `drinkerCount`, `bottleCount` and
`openerCount`, `main` (called with three arguments) returns 1 before any pool
is built exactly when one of the three counts is negative or
`bottleCount + openerCount` is 0; it never returns another code there, and
otherwise it goes on to build the pools (which it completes whenever the sum
of the two counts fits an `int`). -/
theorem mainSetup_refuses_iff (d b o : Int) (hb : IsInt b) (ho : IsInt o) :
    (mainSetup 4 d b o = .refused 1 ↔ (d < 0 ∨ b < 0 ∨ o < 0 ∨ b + o = 0)) ∧
    (∀ code, mainSetup 4 d b o = .refused code → code = 1) ∧
    (¬ (d < 0 ∨ b < 0 ∨ o < 0 ∨ b + o = 0) →
      (b + o ≤ 2147483647 → ∃ s, mainSetup 4 d b o = .built s) ∧
      (2147483647 < b + o → mainSetup 4 d b o = .allocationFailed)) := by
  by_cases hneg : d < 0 ∨ b < 0 ∨ o < 0
  · have h1 : mainSetup 4 d b o = .refused 1 := by
      simp [mainSetup, hneg]
    refine ⟨⟨fun _ => ?_, fun _ => h1⟩, ?_, ?_⟩
    · rcases hneg with h | h | h
      · exact Or.inl h
      · exact Or.inr (Or.inl h)
      · exact Or.inr (Or.inr (Or.inl h))
    · intro code hc
      rw [h1] at hc
      injection hc with hc
      exact hc.symm
    · intro hn
      exact absurd (by tauto) hn
  · have hb0 : 0 ≤ b := by
      by_contra h
      exact hneg (Or.inr (Or.inl (not_le.mp h)))
    have ho0 : 0 ≤ o := by
      by_contra h
      exact hneg (Or.inr (Or.inr (not_le.mp h)))
    obtain ⟨hz, hp, _⟩ := wrapInt_sum b o hb ho hb0 ho0
    by_cases hsum : b + o = 0
    · have h1 : mainSetup 4 d b o = .refused 1 := by
        simp [mainSetup, hneg, hz.mpr hsum]
      refine ⟨⟨fun _ => by tauto, fun _ => h1⟩, ?_, ?_⟩
      · intro code hc
        rw [h1] at hc
        injection hc with hc
        exact hc.symm
      · intro hn
        exact absurd (by tauto) hn
    · have hwz : wrapInt (b + o) ≠ 0 := fun h => hsum (hz.mp h)
      by_cases hfit : b + o ≤ 2147483647
      · have hpos : 0 < wrapInt (b + o) := hp.mpr ⟨by omega, hfit⟩
        have hb' : ∃ s, mainSetup 4 d b o = .built s := by
          refine ⟨initialWorld d b (wrapInt (b + o)), ?_⟩
          simp only [mainSetup, hneg, hwz, not_lt.mpr (le_of_lt hpos), if_false, ne_eq,
            not_true_eq_false]
        obtain ⟨s, hs⟩ := hb'
        refine ⟨⟨fun h => ?_, fun h => ?_⟩, ?_, ?_⟩
        · rw [hs] at h
          cases h
        · exact absurd h (by tauto)
        · intro code hc
          rw [hs] at hc
          cases hc
        · intro _
          exact ⟨fun _ => ⟨s, hs⟩, fun h => absurd hfit (not_le.mpr h)⟩
      · have hnegw : wrapInt (b + o) < 0 := by
          unfold IsInt at hb ho
          unfold wrapInt
          omega
        have hs : mainSetup 4 d b o = .allocationFailed := by
          simp only [mainSetup, hneg, hwz, hnegw, if_false, if_true, ne_eq, not_true_eq_false]
        refine ⟨⟨fun h => ?_, fun h => ?_⟩, ?_, ?_⟩
        · rw [hs] at h
          cases h
        · exact absurd h (by tauto)
        · intro code hc
          rw [hs] at hc
          cases hc
        · intro _
          exact ⟨fun h => absurd h hfit, fun _ => hs⟩

end setup

section construction

theorem countP_range_lt (n k : Nat) :
    (List.range n).countP (fun i => decide (i < k)) = min n k := by
  induction n with
  | zero => simp
  | succ m ih =>
    rw [List.range_succ, List.countP_append, ih]
    by_cases h : m < k
    · have h1 : List.countP (fun i => decide (i < k)) [m] = 1 := by simp [h]
      rw [h1]
      omega
    · have h1 : List.countP (fun i => decide (i < k)) [m] = 0 := by simp [h]
      rw [h1]
      omega

theorem countP_range_ge (n k : Nat) :
    (List.range n).countP (fun i => decide (¬ i < k)) = n - k := by
  induction n with
  | zero => simp
  | succ m ih =>
    rw [List.range_succ, List.countP_append, ih]
    by_cases h : m < k
    · have h1 : List.countP (fun i => decide (¬ i < k)) [m] = 0 := by simp [h]
      rw [h1]
      omega
    · have h1 : List.countP (fun i => decide (¬ i < k)) [m] = 1 := by
        simp [not_lt.mp h]
      rw [h1]
      omega

theorem initialWorld_poolOK (d b n : Int) (hn : 0 < n) : PoolOK (initialWorld d b n) := by
  refine ⟨hn, ?_⟩
  simp only [initialWorld, List.length_map, List.length_range]
  omega

theorem initialWorld_initial (d b n : Int) (hn : 0 < n) : Initial (initialWorld d b n) := by
  refine ⟨initialWorld_poolOK d b n hn, ?_, ?_⟩
  · intro r hr
    simp only [initialWorld, List.mem_map] at hr
    obtain ⟨i, _, rfl⟩ := hr
    exact ⟨rfl, rfl, rfl⟩
  · intro c hc
    simp only [initialWorld, List.mem_map] at hc
    obtain ⟨i, _, rfl⟩ := hc
    exact ⟨rfl, rfl, rfl, rfl⟩

theorem mainSetup_built (d b o : Int) (hd0 : 0 ≤ d) (hb0 : 0 ≤ b) (ho0 : 0 ≤ o)
    (hsum : 0 < wrapInt (b + o)) :
    mainSetup 4 d b o = .built (initialWorld d b (wrapInt (b + o))) := by
  have hneg : ¬ (d < 0 ∨ b < 0 ∨ o < 0) := by
    rintro (h | h | h) <;> omega
  simp only [mainSetup, hneg, ne_of_gt hsum, not_lt.mpr (le_of_lt hsum), if_false, ne_eq,
    not_true_eq_false]

/-- C15: for all `int` counts with `drinkerCount >= 0`, `bottleCount >= 0`,
`openerCount >= 0` and `bottleCount + openerCount > 0` (as `main` computes the
sum), `main` builds a pool of exactly `bottleCount + openerCount` resources;
resource `i` has id `i`, `lockCount` 0, `useCount` 0 and a free mutex, and is a
bottle when `i < bottleCount` and an opener otherwise; so the pool holds
exactly `bottleCount` bottles, `openerCount` openers and no resource of type
`Unknown`. -/
theorem mainSetup_builds_pool (d b o : Int) (hd0 : 0 ≤ d) (hb : IsInt b) (ho : IsInt o)
    (hb0 : 0 ≤ b) (ho0 : 0 ≤ o) (hsum : 0 < wrapInt (b + o)) :
    ∃ s, mainSetup 4 d b o = .built s ∧
      s.resourcePool.totalResources = b + o ∧
      (s.resourcePool.resources.length : Int) = b + o ∧
      (∀ (i : Nat) (r : Resource), s.resourcePool.resources[i]? = some r →
        r.id = i ∧ r.lockCount = 0 ∧ r.useCount = 0 ∧ r.resourceMutex = none ∧
        r.type = if (i : Int) < b then ResourceType.Bottle else ResourceType.Opener) ∧
      ((s.resourcePool.resources.countP
        (fun r => decide (r.type = ResourceType.Bottle)) : Nat) : Int) = b ∧
      ((s.resourcePool.resources.countP
        (fun r => decide (r.type = ResourceType.Opener)) : Nat) : Int) = o ∧
      s.resourcePool.resources.countP
        (fun r => decide (r.type = ResourceType.Unknown)) = 0 := by
  have hw : wrapInt (b + o) = b + o := (wrapInt_sum b o hb ho hb0 ho0).2.2 hsum
  refine ⟨_, mainSetup_built d b o hd0 hb0 ho0 hsum, ?_, ?_, ?_, ?_, ?_, ?_⟩
  · exact hw
  · simp only [initialWorld, List.length_map, List.length_range]
    omega
  · intro i r hr
    simp only [initialWorld, List.getElem?_map, Option.map_eq_some'] at hr
    obtain ⟨k, hk, rfl⟩ := hr
    have hki : k = i := by
      have := List.getElem?_eq_some_iff.mp hk
      obtain ⟨h1, h2⟩ := this
      simpa using h2.symm
    subst hki
    exact ⟨rfl, rfl, rfl, rfl, rfl⟩
  · have hfun : (fun r : Resource => decide (r.type = ResourceType.Bottle)) ∘ initResource b
        = fun i => decide (i < b.toNat) := by
      funext i
      simp only [Function.comp, initResource]
      by_cases h : (i : Int) < b
      · have h' : i < b.toNat := by omega
        simp [h, h']
      · have h' : ¬ i < b.toNat := by omega
        simp [h, h']
    simp only [initialWorld, List.countP_map, hfun, countP_range_lt]
    omega
  · have hfun : (fun r : Resource => decide (r.type = ResourceType.Opener)) ∘ initResource b
        = fun i => decide (¬ i < b.toNat) := by
      funext i
      simp only [Function.comp, initResource]
      by_cases h : (i : Int) < b
      · have h' : i < b.toNat := by omega
        simp [h, h']
      · have h' : ¬ i < b.toNat := by omega
        simp [h, h']
    simp only [initialWorld, List.countP_map, hfun, countP_range_ge]
    omega
  · rw [List.countP_eq_zero]
    intro r hr
    simp only [initialWorld, List.mem_map] at hr
    obtain ⟨i, _, rfl⟩ := hr
    simp only [initResource]
    split <;> simp

/-- Witness for C15: the pool `main` builds for 2 drinkers, 2 bottles and 1
opener has 3 resources. -/
theorem mainSetup_builds_pool_witness :
    0 < wrapInt (2 + 1) ∧
    ∃ s, mainSetup 4 2 2 1 = .built s ∧ s.resourcePool.totalResources = 2 + 1 :=
  ⟨by decide,
    (mainSetup_builds_pool 2 2 1 (by decide) ⟨by decide, by decide⟩ ⟨by decide, by decide⟩
      (by decide) (by decide) (by decide)).imp fun _ h => ⟨h.1, h.2.1⟩⟩

/-- Witness for C14: two bottles and one opener are accepted, no resource at
all is refused. -/
theorem mainSetup_refuses_iff_witness :
    (mainSetup 4 2 0 0 = .refused 1 ↔ ((2 : Int) < 0 ∨ (0 : Int) < 0 ∨ (0 : Int) < 0 ∨
      (0 : Int) + 0 = 0)) ∧ mainSetup 4 2 0 0 = .refused 1 :=
  ⟨(mainSetup_refuses_iff 2 0 0 ⟨by decide, by decide⟩ ⟨by decide, by decide⟩).1, by decide⟩

end construction

section accounting

/-- The accounting identity when the calls do not overlap: in every state
reached from an initial state by complete `TryToDrink` calls made one after the
other, the sum of `lockCount` over all resources equals the sum of
`resourceTryCount` over all drinkers plus the sum of `drinkCount` over all
drinkers. -/
theorem lock_accounting (calls : List Call) (s0 s : World) (h0 : Initial s0)
    (hrun : runCalls calls s0 = .done () s) : lockSum s = trySum s + drinkSum s := by
  obtain ⟨hp, hf, _, hd, hl, ht⟩ := Initial.totals s0 h0
  obtain ⟨_, _, k, _, _, hd', hl', ht'⟩ := runCalls_totals calls s0 s hp hf hrun
  rw [hl', ht', hd', hl, ht, hd]
  ring

/-- Example: the totals after the three calls of `exampleCalls`. -/
theorem lock_accounting_witness :
    Initial exampleWorld ∧
    lockSum ((runCalls exampleCalls exampleWorld).stateOr exampleWorld)
      = trySum ((runCalls exampleCalls exampleWorld).stateOr exampleWorld)
        + drinkSum ((runCalls exampleCalls exampleWorld).stateOr exampleWorld) :=
  ⟨exampleWorld_initial,
    lock_accounting exampleCalls exampleWorld _ exampleWorld_initial (by decide)⟩

end accounting

section index_safety

/-- C18: index safety of `TryToGetResources`.  In a pool as `main` accepts it
(`totalResources > 0`, the length of the array), for every value `rnd >= 0` of
the random source and every drinker that holds no resource, `rnd %
totalResources` does not divide by zero, the first-pick index lies in
`[0, totalResources)`, every index of the scan loop lies in
`[0, totalResources)`, and the call never reaches an undefined access: it
returns or parks on the first mutex. -/
theorem TryToGetResources_index_safe (d rnd : Nat) (s : World) (c : Drinker)
    (hpool : PoolOK s) (hc : s.drinkerPool.drinkers[d]? = some c) (hheld : heldBy s d = 0) :
    s.resourcePool.totalResources ≠ 0 ∧
    0 ≤ Int.tmod rnd s.resourcePool.totalResources ∧
    Int.tmod rnd s.resourcePool.totalResources < s.resourcePool.totalResources ∧
    (Int.tmod rnd s.resourcePool.totalResources).toNat < s.resourcePool.resources.length ∧
    (∀ i ∈ List.range s.resourcePool.totalResources.toNat,
      i < s.resourcePool.resources.length) ∧
    TryToGetResources d rnd s ≠ .undefined := by
  have hlt := index_lt rnd s hpool
  have htm := tmod_index rnd s hpool
  obtain ⟨rf, hrf⟩ : ∃ rf,
      s.resourcePool.resources[rnd % s.resourcePool.resources.length]? = some rf :=
    ⟨_, List.getElem?_eq_getElem hlt⟩
  refine ⟨ne_of_gt hpool.1, ?_, ?_, ?_, ?_, ?_⟩
  · rw [htm]
    exact Int.ofNat_nonneg _
  · rw [htm, hpool.2]
    exact_mod_cast hlt
  · rw [htm]
    simpa using hlt
  · intro i hi
    rw [hpool.2] at hi
    simpa using hi
  · rcases TryToGetResources_outcome d rnd s c rf hpool hc hheld hrf with
      ⟨_, _, _, h1⟩ | ⟨_, _, t, h1, _⟩ | ⟨_, _, _, _, _, _, _, t, h1, _⟩ <;>
    · rw [h1]
      intro h
      cases h

/-- Witness for C18: the pool `main` builds for 2 drinkers, 2 bottles and 1
opener. -/
theorem TryToGetResources_index_safe_witness :
    mainSetup 4 2 2 1 = .built (initialWorld 2 2 (wrapInt (2 + 1))) ∧
    TryToGetResources 1 2147483647 (initialWorld 2 2 (wrapInt (2 + 1))) ≠ .undefined :=
  ⟨by decide,
    (TryToGetResources_index_safe 1 2147483647 (initialWorld 2 2 (wrapInt (2 + 1)))
      (initDrinker 1) (initialWorld_poolOK 2 2 _ (by decide)) (by decide)
      (by decide)).2.2.2.2.2⟩

end index_safety

section stop_flag

theorem phaseAfter_append (p : Phase) (A B : List Obs) :
    phaseAfter p (A ++ B) = phaseAfter (phaseAfter p A) B := by
  simp [phaseAfter, List.foldl_append]

theorem WholeCycles.nothing (d : Nat) (s : World) : WholeCycles d s s :=
  ⟨[], by simp, by simp, rfl⟩

theorem WholeCycles.append {d : Nat} {s1 s2 s3 : World}
    (h12 : WholeCycles d s1 s2) (h23 : WholeCycles d s2 s3) : WholeCycles d s1 s3 := by
  obtain ⟨T1, e1, t1, p1⟩ := h12
  obtain ⟨T2, e2, t2, p2⟩ := h23
  refine ⟨T1 ++ T2, by rw [e2, e1, List.append_assoc], ?_, ?_⟩
  · intro o ho
    rcases List.mem_append.mp ho with h | h
    · exact t1 o h
    · exact t2 o h
  · rw [phaseAfter_append, p1, p2]

theorem Neutral.next {o : Obs} (h : Neutral o) : Phase.next Phase.between o = Phase.between := by
  obtain ⟨t, e, k⟩ := o
  obtain ⟨h1, h2⟩ := h
  cases e with
  | tryLock i b =>
    cases b with
    | true => exact absurd rfl (h1 i)
    | false => rfl
  | readStop f =>
    have : k = 0 := h2 f rfl
    simp [Phase.next, this]
  | _ => rfl

theorem phaseAfter_neutral (T : List Obs) (h : ∀ o ∈ T, Neutral o) :
    phaseAfter Phase.between T = Phase.between := by
  induction T with
  | nil => rfl
  | cons o rest ih =>
    have h1 : Phase.next Phase.between o = Phase.between := (h o (List.mem_cons_self _ _)).next
    have h2 := ih (fun x hx => h x (List.mem_cons_of_mem _ hx))
    simp only [phaseAfter, List.foldl_cons] at h2 ⊢
    rw [h1]
    exact h2

theorem wholeCycles_emit (d : Nat) (e : Event) (s : World)
    (h : Neutral ⟨d, e, heldBy s d⟩) : WholeCycles d s (emit d e s) :=
  ⟨[⟨d, e, heldBy s d⟩], rfl, by simp, phaseAfter_neutral _ (by simpa using h)⟩

theorem wholeCycles_of_trace_eq {d : Nat} {s1 s2 : World} (h : s2.trace = s1.trace) :
    WholeCycles d s1 s2 :=
  ⟨[], by simp [h], by simp, rfl⟩

theorem Cyclic.seq {α β : Type} {d : Nat} {x : Res α} {f : α → World → Res β} {s : World}
    (hx : Cyclic d x s) (hf : ∀ a s1, x = .done a s1 → Cyclic d (f a s1) s1) :
    Cyclic d (x.bind f) s := by
  cases x with
  | undefined =>
    refine ⟨?_, ?_⟩
    · intro s' h
      simp [Res.bind, Res.state?] at h
    · intro a s' h
      simp [Res.bind] at h
  | blocked t =>
    refine ⟨?_, ?_⟩
    · intro s' h
      exact hx.1 s' (by simpa [Res.bind] using h)
    · intro a s' h
      simp [Res.bind] at h
  | done a t =>
    have h1 := hx.1 t rfl
    have h2 := hf a t rfl
    refine ⟨?_, ?_⟩
    · intro s' h
      exact WholeCycles.append h1 (h2.1 s' (by simpa [Res.bind] using h))
    · intro b s' h
      exact h2.2 b s' (by simpa [Res.bind] using h)

theorem Cyclic.ret {α : Type} {d : Nat} (a : α) {s : World} (h : Idle d s) :
    Cyclic d (Res.done a s) s := by
  refine ⟨?_, ?_⟩
  · intro s' hs
    simp only [Res.state?, Option.some.injEq] at hs
    subst hs
    exact WholeCycles.nothing _ _
  · intro b s' hs
    injection hs with _ hs
    subst hs
    exact h

theorem neutral_of_idle (d : Nat) (e : Event) (s : World) (h : Idle d s)
    (he : ∀ i, e ≠ Event.tryLock i true) : Neutral ⟨d, e, heldBy s d⟩ :=
  ⟨he, fun _ _ => h.2⟩

theorem lockGun_cyclic (d : Nat) (s : World) (h : Idle d s) : Cyclic d (lockGun d s) s := by
  have hn := neutral_of_idle d .gunLock s h (fun i hi => by cases hi)
  unfold lockGun
  split
  · refine ⟨?_, ?_⟩
    · intro s' hs
      simp only [Res.state?, Option.some.injEq] at hs
      subst hs
      exact WholeCycles.append (wholeCycles_emit d _ s hn) (wholeCycles_of_trace_eq rfl)
    · intro a s' hs
      injection hs with _ hs
      subst hs
      exact idle_setGun _ (idle_emit _ h)
  · split
    · exact ⟨fun s' hs => by simp [Res.state?] at hs, fun a s' hs => by simp at hs⟩
    · refine ⟨?_, fun a s' hs => by simp at hs⟩
      intro s' hs
      simp only [Res.state?, Option.some.injEq] at hs
      subst hs
      exact wholeCycles_emit d _ s hn

theorem unlockGun_cyclic (d : Nat) (s : World) (h : Idle d s) :
    Cyclic d (unlockGun d s) s := by
  have hn := neutral_of_idle d .gunUnlock s h (fun i hi => by cases hi)
  unfold unlockGun
  split
  · refine ⟨?_, ?_⟩
    · intro s' hs
      simp only [Res.state?, Option.some.injEq] at hs
      subst hs
      exact WholeCycles.append (wholeCycles_emit d _ s hn) (wholeCycles_of_trace_eq rfl)
    · intro a s' hs
      injection hs with _ hs
      subst hs
      exact idle_setGun _ (idle_emit _ h)
  · exact ⟨fun s' hs => by simp [Res.state?] at hs, fun a s' hs => by simp at hs⟩

theorem lockPool_cyclic (d : Nat) (s : World) (h : Idle d s) :
    Cyclic d (lockPool d s) s := by
  have hn := neutral_of_idle d .poolLock s h (fun i hi => by cases hi)
  unfold lockPool
  split
  · refine ⟨?_, ?_⟩
    · intro s' hs
      simp only [Res.state?, Option.some.injEq] at hs
      subst hs
      exact WholeCycles.append (wholeCycles_emit d _ s hn) (wholeCycles_of_trace_eq rfl)
    · intro a s' hs
      injection hs with _ hs
      subst hs
      exact idle_setPoolMutex _ (idle_emit _ h)
  · split
    · exact ⟨fun s' hs => by simp [Res.state?] at hs, fun a s' hs => by simp at hs⟩
    · refine ⟨?_, fun a s' hs => by simp at hs⟩
      intro s' hs
      simp only [Res.state?, Option.some.injEq] at hs
      subst hs
      exact wholeCycles_emit d _ s hn

theorem unlockPool_cyclic (d : Nat) (s : World) (h : Idle d s) :
    Cyclic d (unlockPool d s) s := by
  have hn := neutral_of_idle d .poolUnlock s h (fun i hi => by cases hi)
  unfold unlockPool
  split
  · refine ⟨?_, ?_⟩
    · intro s' hs
      simp only [Res.state?, Option.some.injEq] at hs
      subst hs
      exact WholeCycles.append (wholeCycles_emit d _ s hn) (wholeCycles_of_trace_eq rfl)
    · intro a s' hs
      injection hs with _ hs
      subst hs
      exact idle_setPoolMutex _ (idle_emit _ h)
  · exact ⟨fun s' hs => by simp [Res.state?] at hs, fun a s' hs => by simp at hs⟩

theorem waitPool_cyclic (d : Nat) (s : World) (h : Idle d s) :
    Cyclic d (waitPool d s) s := by
  have hn := neutral_of_idle d .poolWait s h (fun i hi => by cases hi)
  unfold waitPool
  split
  · refine ⟨?_, ?_⟩
    · intro s' hs
      simp only [Res.state?, Option.some.injEq] at hs
      subst hs
      exact wholeCycles_emit d _ s hn
    · intro a s' hs
      injection hs with _ hs
      subst hs
      exact idle_emit _ h
  · exact ⟨fun s' hs => by simp [Res.state?] at hs, fun a s' hs => by simp at hs⟩

theorem readStop_cyclic (d : Nat) (s : World) (h : Idle d s) :
    Cyclic d (readStop d s) s := by
  have hn := neutral_of_idle d (.readStop s.drinkerPool.stopDrinkingFlag) s h
    (fun i hi => by cases hi)
  unfold readStop
  refine ⟨?_, ?_⟩
  · intro s' hs
    simp only [Res.state?, Option.some.injEq] at hs
    subst hs
    exact wholeCycles_emit d _ s hn
  · intro a s' hs
    injection hs with _ hs
    subst hs
    exact idle_emit _ h

end stop_flag

section cycle_log

theorem tryLockResource_done (d i : Nat) (s t : World) (ok : Bool)
    (h : tryLockResource d i s = .done ok t) :
    t.trace = s.trace ++ [⟨d, .tryLock i ok, heldBy s d⟩] := by
  unfold tryLockResource at h
  split at h
  · cases h
  · split at h
    · injection h with h1 h2
      subst h1
      subst h2
      rfl
    · split at h
      · cases h
      · injection h with h1 h2
        subst h1
        subst h2
        rfl

theorem updDrinker_done (d : Nat) (f : Drinker → Drinker) (s t : World) (u : Unit)
    (h : updDrinker d f s = .done u t) : t.trace = s.trace := by
  unfold updDrinker at h
  split at h
  · cases h
  · injection h with _ h2
    subst h2
    rfl

theorem incLockCount_done (i : Nat) (s t : World) (u : Unit)
    (h : incLockCount i s = .done u t) : t.trace = s.trace := by
  unfold incLockCount at h
  split at h
  · cases h
  · injection h with _ h2
    subst h2
    rfl

theorem unlockResource_done (d i : Nat) (s t : World) (u : Unit)
    (h : unlockResource d i s = .done u t) :
    t.trace = s.trace ++ [⟨d, .unlock i, heldBy s d⟩] := by
  unfold unlockResource at h
  split at h
  · cases h
  · split at h
    · injection h with _ h2
      subst h2
      rfl
    · cases h

/-- The log of the scan: failed `try_lock`s, then, when the scan succeeds,
one successful `try_lock`. -/
theorem scanLoop_trace (d : Nat) (ft : ResourceType) (idxs : List Nat) (s s' : World)
    (b : Bool) (h : scanLoop d ft idxs s = .done b s') :
    ∃ F, (∀ o ∈ F, IsFailedTry d o) ∧
      ((b = false ∧ s'.trace = s.trace ++ F) ∨
        (b = true ∧ ∃ j k, s'.trace = s.trace ++ (F ++ [⟨d, .tryLock j true, k⟩]))) := by
  induction idxs generalizing s with
  | nil =>
    simp only [scanLoop, Res.done.injEq] at h
    obtain ⟨hb, hs⟩ := h
    subst hs
    exact ⟨[], by simp, Or.inl ⟨hb.symm, by simp⟩⟩
  | cons i rest ih =>
    rw [scanLoop_cons] at h
    cases hg : s.resourcePool.resources[i]? with
    | none => simp [hg] at h
    | some second =>
      simp only [hg] at h
      by_cases hsec : second.type = complementary ft
      · simp only [hsec, if_true] at h
        cases htl : tryLockResource d i s with
        | undefined => simp [htl, Res.bind] at h
        | blocked t1 => simp [htl, Res.bind] at h
        | done ok t1 =>
          have ht1 := tryLockResource_done d i s t1 ok htl
          simp only [htl, Res.bind] at h
          cases ok with
          | false =>
            simp only [Bool.false_eq_true, if_false] at h
            obtain ⟨F, hF, hcase⟩ := ih t1 h
            refine ⟨⟨d, .tryLock i false, heldBy s d⟩ :: F, ?_, ?_⟩
            · intro o ho
              rcases List.mem_cons.mp ho with ho | ho
              · subst ho
                exact ⟨rfl, i, rfl⟩
              · exact hF o ho
            · rcases hcase with ⟨hb, ht⟩ | ⟨hb, j, k, ht⟩
              · exact Or.inl ⟨hb, by rw [ht, ht1]; simp⟩
              · exact Or.inr ⟨hb, j, k, by rw [ht, ht1]; simp⟩
          | true =>
            simp only [if_true] at h
            cases hu : updDrinker d (recordSecond ft i) t1 with
            | undefined => simp [hu, Res.bind] at h
            | blocked t2 => simp [hu, Res.bind] at h
            | done u t2 =>
              simp only [hu, Res.bind] at h
              cases hl : incLockCount i t2 with
              | undefined => simp [hl] at h
              | blocked t3 => simp [hl] at h
              | done u3 t3 =>
                simp only [hl, Res.done.injEq] at h
                obtain ⟨hb, hs⟩ := h
                subst hs
                refine ⟨[], by simp, Or.inr ⟨hb.symm, i, heldBy s d, ?_⟩⟩
                rw [incLockCount_done i t2 t3 u3 hl, updDrinker_done d _ t1 t2 u hu, ht1]
                simp
      · simp only [hsec, if_false] at h
        exact ih s h

/-- The log of `TryToGetResources` when it returns: the `lock()` of the first
resource, failed `try_lock`s, then either the `unlock()` of the first resource
(`false`) or one successful `try_lock` (`true`). -/
theorem TryToGetResources_trace (d rnd : Nat) (s t : World) (c : Drinker) (rf : Resource)
    (b : Bool)
    (hpool : PoolOK s) (hc : s.drinkerPool.drinkers[d]? = some c)
    (hrf : s.resourcePool.resources[rnd % s.resourcePool.resources.length]? = some rf)
    (hfree : rf.resourceMutex = none)
    (h : TryToGetResources d rnd s = .done b t) :
    ∃ F, (∀ o ∈ F, IsFailedTry d o) ∧
      ((b = false ∧ ∃ k, t.trace = s.trace ++
          ([⟨d, .lock (rnd % s.resourcePool.resources.length), heldBy s d⟩] ++ F ++
            [⟨d, .unlock (rnd % s.resourcePool.resources.length), k⟩])) ∨
        (b = true ∧ ∃ j k, t.trace = s.trace ++
          ([⟨d, .lock (rnd % s.resourcePool.resources.length), heldBy s d⟩] ++ F ++
            [⟨d, .tryLock j true, k⟩]))) := by
  rw [TryToGetResources_start d rnd s c rf hpool hc hrf hfree] at h
  have hstart : (afterFirst d (rnd % s.resourcePool.resources.length) c rf s).trace
      = s.trace ++ [⟨d, .lock (rnd % s.resourcePool.resources.length), heldBy s d⟩] := rfl
  cases hscan : scanLoop d rf.type (List.range s.resourcePool.resources.length)
      (afterFirst d (rnd % s.resourcePool.resources.length) c rf s) with
  | undefined => simp [hscan, Res.bind] at h
  | blocked t1 => simp [hscan, Res.bind] at h
  | done found t1 =>
    obtain ⟨F, hF, hcase⟩ := scanLoop_trace d rf.type _ _ t1 found hscan
    simp only [hscan, Res.bind] at h
    refine ⟨F, hF, ?_⟩
    rcases hcase with ⟨hb, ht⟩ | ⟨hb, j, k, ht⟩
    · subst hb
      simp only [Bool.false_eq_true, if_false] at h
      cases hun : unlockResource d (rnd % s.resourcePool.resources.length) t1 with
      | undefined => simp [hun] at h
      | blocked t2 => simp [hun] at h
      | done u t2 =>
        simp only [hun, Res.done.injEq] at h
        obtain ⟨hb, hs⟩ := h
        subst hs
        refine Or.inl ⟨hb.symm, heldBy t1 d, ?_⟩
        rw [unlockResource_done d _ t1 t2 u hun, ht, hstart]
        simp
    · subst hb
      simp only [if_true, Res.done.injEq] at h
      obtain ⟨hb, hs⟩ := h
      subst hs
      refine Or.inr ⟨hb.symm, j, k, ?_⟩
      rw [ht, hstart]
      simp

theorem neutral_lock (d f k : Nat) : Neutral ⟨d, .lock f, k⟩ := by
  constructor <;> intro _ h <;> cases h

theorem neutral_unlock (d f k : Nat) : Neutral ⟨d, .unlock f, k⟩ := by
  constructor <;> intro _ h <;> cases h

theorem neutral_sleep (d : Nat) (ms : Int) (k : Nat) : Neutral ⟨d, .sleep ms, k⟩ := by
  constructor <;> intro _ h <;> cases h

theorem neutral_notifyAll (d k : Nat) : Neutral ⟨d, .notifyAll, k⟩ := by
  constructor <;> intro _ h <;> cases h

theorem IsFailedTry.neutral {d : Nat} {o : Obs} (h : IsFailedTry d o) : Neutral o := by
  obtain ⟨_, i, he⟩ := h
  refine ⟨?_, ?_⟩
  · intro k hk
    rw [he] at hk
    cases hk
  · intro f hf
    rw [he] at hf
    cases hf

theorem pauseObs_neutral (d r2 r3 : Nat) (n : Int) (k : Nat) :
    ∀ o ∈ pauseObs d r2 r3 n k, Neutral o ∧ o.thread = d := by
  intro o ho
  unfold pauseObs at ho
  split at ho
  · simp only [List.mem_singleton] at ho
    subst ho
    exact ⟨neutral_sleep _ _ _, rfl⟩
  · split at ho
    · simp only [List.mem_singleton] at ho
      subst ho
      exact ⟨neutral_sleep _ _ _, rfl⟩
    · simp at ho

/-- The part of a successful cycle after `TryToGetResources`: `Drink` returns,
logs its sleep and two unlocks (then at most a pause), leaves the drinker idle
and raises its `drinkCount` by one. -/
theorem Drink_after_success (d rnd r1 r2 r3 : Nat) (s t : World) (c : Drinker)
    (rf rj : Resource) (j : Nat)
    (hpool : PoolOK s) (hc : s.drinkerPool.drinkers[d]? = some c) (hheld : heldBy s d = 0)
    (hrf : s.resourcePool.resources[rnd % s.resourcePool.resources.length]? = some rf)
    (hj : s.resourcePool.resources[j]? = some rj) (hjt : rj.type = complementary rf.type)
    (h2 : t.resourcePool = { s.resourcePool with
      resources := (s.resourcePool.resources.set (rnd % s.resourcePool.resources.length)
        (acquired d rf)).set j (acquired d rj) })
    (h3 : t.drinkerPool = { s.drinkerPool with
      drinkers := s.drinkerPool.drinkers.set d
        (recordSecond rf.type j (tried rf.type (rnd % s.resourcePool.resources.length) c)) }) :
    ∃ u b o ms, Drink d r1 r2 r3 t = .done () u ∧
      u.trace = t.trace ++ ([⟨d, .sleep ms, 2⟩, ⟨d, .unlock b, 2⟩, ⟨d, .unlock o, 1⟩] ++
        pauseObs d r2 r3 (c.drinkCount + 1) 0) ∧
      Idle d u ∧ drinkCountOf u d = c.drinkCount + 1 := by
  have hlt := index_lt rnd s hpool
  have hcl : d < s.drinkerPool.drinkers.length := by
    rcases List.getElem?_eq_some_iff.mp hc with ⟨h, _⟩
    exact h
  have hjlt : j < s.resourcePool.resources.length := by
    rcases List.getElem?_eq_some_iff.mp hj with ⟨h, _⟩
    exact h
  have hne : rnd % s.resourcePool.resources.length ≠ j :=
    first_ne_second s _ j rf rj hrf hj hjt
  have hres : t.resourcePool.resources = (s.resourcePool.resources.set
      (rnd % s.resourcePool.resources.length) (acquired d rf)).set j (acquired d rj) := by
    rw [h2]
  have hht : heldBy t d = 2 := heldBy_pair s t d _ j rf rj hheld hrf hj hne hres
  have hgf : t.resourcePool.resources[rnd % s.resourcePool.resources.length]?
      = some (acquired d rf) := by
    rw [hres]
    simp [List.getElem?_set, hlt, Ne.symm hne]
  have hgj : t.resourcePool.resources[j]? = some (acquired d rj) := by
    rw [hres]
    simp [List.getElem?_set, hjlt]
  have hgd : t.drinkerPool.drinkers[d]? = some (recordSecond rf.type j
      (tried rf.type (rnd % s.resourcePool.resources.length) c)) := by
    rw [h3]
    simp [List.getElem?_set, hcl]
  have hpoolt : PoolOK t := hpool.of_same_size (by rw [h2]) (by rw [h2]; simp)
  have hdrink : ∃ b o rb ro, t.resourcePool.resources[b]? = some rb ∧
      t.resourcePool.resources[o]? = some ro ∧ b ≠ o ∧
      (recordSecond rf.type j
        (tried rf.type (rnd % s.resourcePool.resources.length) c)).bottle = some b ∧
      (recordSecond rf.type j
        (tried rf.type (rnd % s.resourcePool.resources.length) c)).opener = some o ∧
      rb.resourceMutex = some d ∧ ro.resourceMutex = some d := by
    by_cases hty : rf.type = ResourceType.Bottle
    · refine ⟨_, j, _, _, hgf, hgj, hne, ?_, ?_, rfl, rfl⟩
      · simp [recordSecond, tried, recordFirst, hty]
      · simp [recordSecond, tried, recordFirst, hty]
    · refine ⟨j, _, _, _, hgj, hgf, Ne.symm hne, ?_, ?_, rfl, rfl⟩
      · simp [recordSecond, tried, recordFirst, hty]
      · simp [recordSecond, tried, recordFirst, hty]
  obtain ⟨b, o, rb, ro, hb1, ho1, hbo, hcb, hco, hmb, hmo⟩ := hdrink
  obtain ⟨u, hu1, hu2, hu3, hu4⟩ :=
    Drink_spec d r1 r2 r3 t _ b o rb ro hgd hcb hco hb1 ho1 hbo hmb hmo
  have hhu : heldBy u d = 0 := by
    rw [heldBy_after_release t u d b o rb ro hb1 ho1 hbo hmb hmo (by rw [hu2]), hht]
  have hdc : (recordSecond rf.type j
      (tried rf.type (rnd % s.resourcePool.resources.length) c)).drinkCount = c.drinkCount := by
    by_cases hty : rf.type = ResourceType.Bottle <;>
      simp [recordSecond, tried, recordFirst, hty]
  refine ⟨u, b, o, 20 + Int.tmod r1 20, hu1, ?_,
    ⟨hpoolt.of_same_size (by rw [hu2]) (by rw [hu2]; simp), hhu⟩, ?_⟩
  · rw [hu4, hht, hdc]
  · have hcl' : d < t.drinkerPool.drinkers.length := by
      rw [h3]
      simpa using hcl
    unfold drinkCountOf
    rw [hu3]
    simp [List.getElem?_set, hcl', refreshed, hdc]

theorem phaseAfter_cycle (d : Nat) (F P : List Obs) (f j b o k1 k2 k3 k4 k5 k6 : Nat)
    (ms : Int) (hF : ∀ x ∈ F, IsFailedTry d x) (hP : ∀ x ∈ P, Neutral x) :
    phaseAfter Phase.between
      (([⟨d, .lock f, k1⟩] ++ F ++ [⟨d, .tryLock j true, k2⟩]) ++
        ([⟨d, .sleep ms, k3⟩, ⟨d, .unlock b, k4⟩, ⟨d, .unlock o, k5⟩] ++ P) ++
        [⟨d, .notifyAll, k6⟩]) = Phase.between := by
  have h1 : phaseAfter Phase.between ([⟨d, .lock f, k1⟩] ++ F) = Phase.between := by
    apply phaseAfter_neutral
    intro x hx
    rcases List.mem_append.mp hx with hx | hx
    · simp only [List.mem_singleton] at hx
      subst hx
      exact neutral_lock _ _ _
    · exact (hF x hx).neutral
  have h2 : phaseAfter Phase.between (P ++ [⟨d, .notifyAll, k6⟩]) = Phase.between := by
    apply phaseAfter_neutral
    intro x hx
    rcases List.mem_append.mp hx with hx | hx
    · exact hP x hx
    · simp only [List.mem_singleton] at hx
      subst hx
      exact neutral_notifyAll _ _
  have e : (([⟨d, .lock f, k1⟩] ++ F ++ [⟨d, .tryLock j true, k2⟩]) ++
        ([⟨d, .sleep ms, k3⟩, ⟨d, .unlock b, k4⟩, ⟨d, .unlock o, k5⟩] ++ P) ++
        [⟨d, .notifyAll, k6⟩])
      = ([⟨d, .lock f, k1⟩] ++ F) ++ ([⟨d, .tryLock j true, k2⟩, ⟨d, .sleep ms, k3⟩,
          ⟨d, .unlock b, k4⟩, ⟨d, .unlock o, k5⟩] ++ (P ++ [⟨d, .notifyAll, k6⟩])) := by
    simp
  rw [e, phaseAfter_append, h1, phaseAfter_append]
  have h3 : phaseAfter Phase.between [⟨d, .tryLock j true, k2⟩, ⟨d, .sleep ms, k3⟩,
      ⟨d, .unlock b, k4⟩, ⟨d, .unlock o, k5⟩] = Phase.between := rfl
  rw [h3, h2]

theorem IsFailedTry.not_read {d : Nat} {o : Obs} (h : IsFailedTry d o) :
    ∀ f, o.event ≠ Event.readStop f := by
  obtain ⟨_, i, he⟩ := h
  intro f hf
  rw [he] at hf
  cases hf

theorem pauseObs_not_read (d r2 r3 : Nat) (n : Int) (k : Nat) :
    ∀ o ∈ pauseObs d r2 r3 n k, ∀ f, o.event ≠ Event.readStop f := by
  intro o ho
  unfold pauseObs at ho
  split at ho
  · simp only [List.mem_singleton] at ho
    subst ho
    intro f hf
    cases hf
  · split at ho
    · simp only [List.mem_singleton] at ho
      subst ho
      intro f hf
      cases hf
    · simp at ho

/-- The log of a call of `TryToDrink` by an idle drinker: whole cycles of the
drinker, without any read of the stop flag; when the call returns the drinker
is idle, and its `drinkCount` is one higher after `true` and unchanged after
`false`. -/
theorem TryToDrink_log (d rnd r1 r2 r3 : Nat) (s : World) (h : Idle d s) :
    (∀ s', (TryToDrink d rnd r1 r2 r3 s).state? = some s' →
      ∃ T, s'.trace = s.trace ++ T ∧ (∀ o ∈ T, o.thread = d) ∧
        phaseAfter Phase.between T = Phase.between ∧
        (∀ o ∈ T, ∀ f, o.event ≠ Event.readStop f)) ∧
    (∀ b s', TryToDrink d rnd r1 r2 r3 s = .done b s' → Idle d s' ∧
      drinkCountOf s' d = drinkCountOf s d + (if b then 1 else 0)) := by
  obtain ⟨hpool, hheld⟩ := h
  cases hc : s.drinkerPool.drinkers[d]? with
  | none =>
    have hund : TryToDrink d rnd r1 r2 r3 s = .undefined := by
      simp [TryToDrink, TryToGetResources_no_drinker d rnd s hc, Res.bind]
    rw [hund]
    exact ⟨fun s' hs => by simp [Res.state?] at hs, fun b s' hs => by simp at hs⟩
  | some c =>
    have hlt := index_lt rnd s hpool
    have hcl : d < s.drinkerPool.drinkers.length := by
      rcases List.getElem?_eq_some_iff.mp hc with ⟨h, _⟩
      exact h
    have hdc0 : drinkCountOf s d = c.drinkCount := by
      simp [drinkCountOf, hc]
    obtain ⟨rf, hrf⟩ : ∃ rf,
        s.resourcePool.resources[rnd % s.resourcePool.resources.length]? = some rf :=
      ⟨_, List.getElem?_eq_getElem hlt⟩
    rcases TryToGetResources_outcome d rnd s c rf hpool hc hheld hrf with
      ⟨o, _, _, h1⟩ | ⟨hrfm, _, t, h1, h2, h3, _⟩ |
      ⟨hrfm, j, rj, hj, hjt, _, _, t, h1, h2, h3, _⟩
    · have hb : TryToDrink d rnd r1 r2 r3 s = .blocked
          (emit d (.lock (rnd % s.resourcePool.resources.length))
            (setDrinker d { c with resourceTryCount := c.resourceTryCount + 1 } s)) := by
        simp [TryToDrink, h1, Res.bind]
      rw [hb]
      refine ⟨?_, fun b s' hs => by simp at hs⟩
      intro s' hs
      simp only [Res.state?, Option.some.injEq] at hs
      subst hs
      refine ⟨[⟨d, .lock (rnd % s.resourcePool.resources.length), heldBy s d⟩], rfl,
        by simp, ?_, ?_⟩
      · exact phaseAfter_neutral _ (by
          intro x hx
          simp only [List.mem_singleton] at hx
          subst hx
          exact neutral_lock _ _ _)
      · intro x hx
        simp only [List.mem_singleton] at hx
        subst hx
        intro f hf
        cases hf
    · have hd : TryToDrink d rnd r1 r2 r3 s = .done false (emit d .notifyAll t) := by
        simp [TryToDrink, h1, Res.bind]
      obtain ⟨F, hF, hcase⟩ :=
        TryToGetResources_trace d rnd s t c rf false hpool hc hrf hrfm h1
      have hls : lockState t = lockState s := by
        have hrf' := (List.getElem?_eq_some_iff.mp hrf).2
        unfold lockState
        rw [h2]
        simp only [List.map_set]
        apply List.ext_getElem?
        intro k
        by_cases hk : rnd % s.resourcePool.resources.length = k
        · subst hk
          simp [List.getElem?_set, hlt, hrf']
        · simp [List.getElem?_set, hk]
      have hidle : Idle d t :=
        ⟨hpool.of_same_size (by rw [h2]) (by rw [h2]; simp),
          by rw [heldBy_congr s t d hls, hheld]⟩
      rcases hcase with ⟨_, k, ht⟩ | ⟨hb, _⟩
      · rw [hd]
        refine ⟨?_, ?_⟩
        · intro s' hs
          simp only [Res.state?, Option.some.injEq] at hs
          subst hs
          refine ⟨([⟨d, .lock (rnd % s.resourcePool.resources.length), heldBy s d⟩] ++ F ++
            [⟨d, .unlock (rnd % s.resourcePool.resources.length), k⟩]) ++
            [⟨d, .notifyAll, heldBy t d⟩], ?_, ?_, ?_, ?_⟩
          · simp only [emit_trace, ht, List.append_assoc]
          · intro x hx
            simp only [List.mem_append, List.mem_singleton] at hx
            rcases hx with ((hx | hx) | hx) | hx
            · rw [hx]
            · exact (hF x hx).1
            · rw [hx]
            · rw [hx]
          · apply phaseAfter_neutral
            intro x hx
            simp only [List.mem_append, List.mem_singleton] at hx
            rcases hx with ((hx | hx) | hx) | hx
            · subst hx
              exact neutral_lock _ _ _
            · exact (hF x hx).neutral
            · subst hx
              exact neutral_unlock _ _ _
            · subst hx
              exact neutral_notifyAll _ _
          · intro x hx
            simp only [List.mem_append, List.mem_singleton] at hx
            rcases hx with ((hx | hx) | hx) | hx
            · subst hx
              intro f hf
              cases hf
            · exact (hF x hx).not_read
            · subst hx
              intro f hf
              cases hf
            · subst hx
              intro f hf
              cases hf
        · intro b s' hs
          injection hs with hb hs
          subst hb
          subst hs
          refine ⟨idle_emit _ hidle, ?_⟩
          rw [hdc0]
          simp only [drinkCountOf, emit_drinkerPool, h3]
          simp only [List.getElem?_set, hcl, if_true, Option.map_some', Option.getD_some,
            tried, recordFirst, Bool.false_eq_true, if_false, add_zero]
          split <;> rfl
      · cases hb
    · have hne : rnd % s.resourcePool.resources.length ≠ j :=
        first_ne_second s _ j rf rj hrf hj hjt
      obtain ⟨F, hF, hcase⟩ :=
        TryToGetResources_trace d rnd s t c rf true hpool hc hrf hrfm h1
      obtain ⟨u, b, o, ms, hu1, hu4, hidle, hdcu⟩ :=
        Drink_after_success d rnd r1 r2 r3 s t c rf rj j hpool hc hheld hrf hj hjt h2 h3
      have hd : TryToDrink d rnd r1 r2 r3 s = .done true (emit d .notifyAll u) := by
        simp [TryToDrink, h1, Res.bind, hu1]
      rcases hcase with ⟨hb, _⟩ | ⟨_, j', k, ht⟩
      · cases hb
      · rw [hd]
        refine ⟨?_, ?_⟩
        · intro s' hs
          simp only [Res.state?, Option.some.injEq] at hs
          subst hs
          refine ⟨(([⟨d, .lock (rnd % s.resourcePool.resources.length), heldBy s d⟩] ++ F ++
            [⟨d, .tryLock j' true, k⟩]) ++
            ([⟨d, .sleep ms, 2⟩, ⟨d, .unlock b, 2⟩, ⟨d, .unlock o, 1⟩] ++
              pauseObs d r2 r3 (c.drinkCount + 1) 0) ++ [⟨d, .notifyAll, heldBy u d⟩]),
            ?_, ?_, ?_, ?_⟩
          · simp only [emit_trace, hu4, ht, List.append_assoc]
          · intro x hx
            simp only [List.mem_append, List.mem_singleton, List.mem_cons,
              List.not_mem_nil, or_false] at hx
            rcases hx with (((hx | hx) | hx) | ((hx | hx | hx) | hx)) | hx
            · rw [hx]
            · exact (hF x hx).1
            · rw [hx]
            · rw [hx]
            · rw [hx]
            · rw [hx]
            · exact (pauseObs_neutral d r2 r3 _ _ x hx).2
            · rw [hx]
          · exact phaseAfter_cycle d F _ _ j' b o _ _ _ _ _ _ ms hF
              (fun x hx => (pauseObs_neutral d r2 r3 _ _ x hx).1)
          · intro x hx
            simp only [List.mem_append, List.mem_singleton, List.mem_cons,
              List.not_mem_nil, or_false] at hx
            rcases hx with (((hx | hx) | hx) | ((hx | hx | hx) | hx)) | hx
            · subst hx
              intro f hf
              cases hf
            · exact (hF x hx).not_read
            · subst hx
              intro f hf
              cases hf
            · subst hx
              intro f hf
              cases hf
            · subst hx
              intro f hf
              cases hf
            · subst hx
              intro f hf
              cases hf
            · exact pauseObs_not_read d r2 r3 _ _ x hx
            · subst hx
              intro f hf
              cases hf
        · intro b' s' hs
          injection hs with hb hs
          subst hb
          subst hs
          refine ⟨idle_emit _ hidle, ?_⟩
          rw [hdc0]
          simpa [drinkCountOf] using hdcu

theorem TryToDrink_cyclic (d rnd r1 r2 r3 : Nat) (s : World) (h : Idle d s) :
    Cyclic d (TryToDrink d rnd r1 r2 r3 s) s := by
  have hl := TryToDrink_log d rnd r1 r2 r3 s h
  refine ⟨?_, fun b s' hs => (hl.2 b s' hs).1⟩
  intro s' hs
  obtain ⟨T, h1, h2, h3, _⟩ := hl.1 s' hs
  exact ⟨T, h1, h2, h3⟩

theorem StartDrinkerBody_cyclic (d : Nat) (k : Draws) (s : World) (h : Idle d s) :
    Cyclic d (StartDrinkerBody d k s) s := by
  unfold StartDrinkerBody
  refine Cyclic.seq (lockGun_cyclic d s h) ?_
  intro _ s1 h1
  have i1 := (lockGun_cyclic d s h).2 _ _ h1
  refine Cyclic.seq (readStop_cyclic d s1 i1) ?_
  intro stop s2 h2
  have i2 := (readStop_cyclic d s1 i1).2 _ _ h2
  cases stop with
  | true => exact Cyclic.ret _ i2
  | false =>
    simp only [Bool.false_eq_true, if_false]
    refine Cyclic.seq (unlockGun_cyclic d s2 i2) ?_
    intro _ s3 h3
    have i3 := (unlockGun_cyclic d s2 i2).2 _ _ h3
    refine Cyclic.seq (TryToDrink_cyclic d k.rnd k.r1 k.r2 k.r3 s3 i3) ?_
    intro drank s4 h4
    have i4 := (TryToDrink_cyclic d k.rnd k.r1 k.r2 k.r3 s3 i3).2 _ _ h4
    cases drank with
    | true => exact Cyclic.ret _ i4
    | false =>
      simp only [Bool.not_false, if_true]
      refine Cyclic.seq (lockGun_cyclic d s4 i4) ?_
      intro _ s5 h5
      have i5 := (lockGun_cyclic d s4 i4).2 _ _ h5
      refine Cyclic.seq (readStop_cyclic d s5 i5) ?_
      intro stop s6 h6
      have i6 := (readStop_cyclic d s5 i5).2 _ _ h6
      cases stop with
      | true => exact Cyclic.ret _ i6
      | false =>
        simp only [Bool.false_eq_true, if_false]
        refine Cyclic.seq (lockPool_cyclic d s6 i6) ?_
        intro _ s7 h7
        have i7 := (lockPool_cyclic d s6 i6).2 _ _ h7
        refine Cyclic.seq (unlockGun_cyclic d s7 i7) ?_
        intro _ s8 h8
        have i8 := (unlockGun_cyclic d s7 i7).2 _ _ h8
        refine Cyclic.seq (waitPool_cyclic d s8 i8) ?_
        intro _ s9 h9
        have i9 := (waitPool_cyclic d s8 i8).2 _ _ h9
        refine Cyclic.seq (unlockPool_cyclic d s9 i9) ?_
        intro _ s10 h10
        exact Cyclic.ret _ ((unlockPool_cyclic d s9 i9).2 _ _ h10)

theorem StartDrinker_cyclic (d : Nat) (draws : List Draws) (s : World) (h : Idle d s) :
    Cyclic d (StartDrinker d draws s) s := by
  induction draws generalizing s with
  | nil => exact Cyclic.ret _ h
  | cons k rest ih =>
    unfold StartDrinker
    refine Cyclic.seq (StartDrinkerBody_cyclic d k s h) ?_
    intro brk s1 h1
    have i1 := (StartDrinkerBody_cyclic d k s h).2 _ _ h1
    cases brk with
    | true =>
      simp only [if_true]
      refine Cyclic.seq (unlockGun_cyclic d s1 i1) ?_
      intro _ s2 h2
      exact Cyclic.ret _ ((unlockGun_cyclic d s1 i1).2 _ _ h2)
    | false =>
      simp only [Bool.false_eq_true, if_false]
      exact ih s1 i1

end cycle_log

section views

theorem ownerOf_emit (d : Nat) (e : Event) (s : World) (j : Nat) :
    ownerOf (emit d e s) j = ownerOf s j := rfl

theorem ownerOf_setDrinker (d : Nat) (c : Drinker) (s : World) (j : Nat) :
    ownerOf (setDrinker d c s) j = ownerOf s j := rfl

theorem typeOf_setDrinker (d : Nat) (c : Drinker) (s : World) (j : Nat) :
    typeOf (setDrinker d c s) j = typeOf s j := rfl

theorem ownerOf_setResource (i : Nat) (r r' : Resource) (s : World)
    (hr : s.resourcePool.resources[i]? = some r) (j : Nat) :
    ownerOf (setResource i r' s) j = if j = i then r'.resourceMutex else ownerOf s j := by
  have hi : i < s.resourcePool.resources.length := (List.getElem?_eq_some_iff.mp hr).1
  unfold ownerOf
  by_cases hj : j = i
  · subst hj
    simp [List.getElem?_set, hi]
  · simp [List.getElem?_set, hj, Ne.symm hj]

theorem typeOf_setResource (i : Nat) (r r' : Resource) (s : World)
    (hr : s.resourcePool.resources[i]? = some r) (ht : r'.type = r.type) (j : Nat) :
    typeOf (setResource i r' s) j = typeOf s j := by
  have hi : i < s.resourcePool.resources.length := (List.getElem?_eq_some_iff.mp hr).1
  unfold typeOf
  by_cases hj : j = i
  · subst hj
    simp [List.getElem?_set, hi, hr, ht]
  · simp [List.getElem?_set, hj, Ne.symm hj]

theorem bottleOf_setDrinker (d : Nat) (c c' : Drinker) (s : World)
    (hc : s.drinkerPool.drinkers[d]? = some c) (e : Nat) :
    bottleOf (setDrinker d c' s) e = if e = d then c'.bottle else bottleOf s e := by
  have hd : d < s.drinkerPool.drinkers.length := (List.getElem?_eq_some_iff.mp hc).1
  unfold bottleOf
  by_cases he : e = d
  · subst he
    simp [List.getElem?_set, hd]
  · simp [List.getElem?_set, he, Ne.symm he]

theorem openerOf_setDrinker (d : Nat) (c c' : Drinker) (s : World)
    (hc : s.drinkerPool.drinkers[d]? = some c) (e : Nat) :
    openerOf (setDrinker d c' s) e = if e = d then c'.opener else openerOf s e := by
  have hd : d < s.drinkerPool.drinkers.length := (List.getElem?_eq_some_iff.mp hc).1
  unfold openerOf
  by_cases he : e = d
  · subst he
    simp [List.getElem?_set, hd]
  · simp [List.getElem?_set, he, Ne.symm he]

theorem ownerOf_lt (s : World) (i d : Nat) (h : ownerOf s i = some d) :
    i < s.resourcePool.resources.length := by
  unfold ownerOf at h
  cases hr : s.resourcePool.resources[i]? with
  | none => simp [hr] at h
  | some r => exact (List.getElem?_eq_some_iff.mp hr).1

theorem ownerOf_eq (s : World) (i : Nat) (r : Resource)
    (hr : s.resourcePool.resources[i]? = some r) : ownerOf s i = r.resourceMutex := by
  simp [ownerOf, hr]

theorem typeOf_eq (s : World) (i : Nat) (r : Resource)
    (hr : s.resourcePool.resources[i]? = some r) : typeOf s i = some r.type := by
  simp [typeOf, hr]

theorem bottleOf_eq (s : World) (d : Nat) (c : Drinker)
    (hc : s.drinkerPool.drinkers[d]? = some c) : bottleOf s d = c.bottle := by
  simp [bottleOf, hc]

theorem openerOf_eq (s : World) (d : Nat) (c : Drinker)
    (hc : s.drinkerPool.drinkers[d]? = some c) : openerOf s d = c.opener := by
  simp [openerOf, hc]

theorem Frame.same (d : Nat) (s : World) : Frame d s s :=
  ⟨rfl, rfl, rfl, fun _ => rfl, fun _ _ => rfl, fun _ _ => rfl, fun _ _ _ => Iff.rfl⟩

theorem Frame.andThen {d : Nat} {s1 s2 s3 : World} (h12 : Frame d s1 s2) (h23 : Frame d s2 s3) :
    Frame d s1 s3 :=
  ⟨h23.total.trans h12.total, h23.size.trans h12.size, h23.crowd.trans h12.crowd,
    fun j => (h23.types j).trans (h12.types j),
    fun e he => (h23.bottles e he).trans (h12.bottles e he),
    fun e he => (h23.openers e he).trans (h12.openers e he),
    fun e j he => (h23.owners e j he).trans (h12.owners e j he)⟩

/-- A write to resource `i` that keeps its type and changes its mutex only
between free and held by `d`. -/
theorem frame_setResource (d i : Nat) (r r' : Resource) (s : World)
    (hr : s.resourcePool.resources[i]? = some r) (ht : r'.type = r.type)
    (hm : ∀ e, e ≠ d → (r'.resourceMutex = some e ↔ r.resourceMutex = some e)) :
    Frame d s (setResource i r' s) := by
  refine ⟨rfl, by simp, rfl, typeOf_setResource i r r' s hr ht, fun _ _ => rfl,
    fun _ _ => rfl, ?_⟩
  intro e j he
  rw [ownerOf_setResource i r r' s hr j]
  by_cases hj : j = i
  · subst hj
    simp only [if_true]
    rw [ownerOf_eq s j r hr]
    exact hm e he
  · simp [hj]

theorem frame_setDrinker (d : Nat) (c c' : Drinker) (s : World)
    (hc : s.drinkerPool.drinkers[d]? = some c) : Frame d s (setDrinker d c' s) := by
  refine ⟨rfl, rfl, by simp, fun _ => rfl, ?_, ?_, fun _ _ _ => Iff.rfl⟩
  · intro e he
    rw [bottleOf_setDrinker d c c' s hc e]
    simp [he]
  · intro e he
    rw [openerOf_setDrinker d c c' s hc e]
    simp [he]

theorem frame_emit (d : Nat) (e : Event) (s : World) : Frame d s (emit d e s) :=
  ⟨rfl, rfl, rfl, fun _ => rfl, fun _ _ => rfl, fun _ _ => rfl, fun _ _ _ => Iff.rfl⟩

end views

section primitive_steps

theorem lockResource_ok (d i : Nat) (s : World) (hi : i < s.resourcePool.resources.length)
    (h : ownerOf s i = none) :
    ∃ s', lockResource d i s = .done () s' ∧ Frame d s s' ∧
      s'.drinkerPool = s.drinkerPool ∧
      ∀ j, ownerOf s' j = if j = i then some d else ownerOf s j := by
  have hr : s.resourcePool.resources[i]? = some s.resourcePool.resources[i] :=
    List.getElem?_eq_getElem hi
  have hm : (s.resourcePool.resources[i]).resourceMutex = none := by
    rw [← ownerOf_eq s i _ hr]
    exact h
  refine ⟨_, lockResource_free d i s _ hr hm, ?_, rfl, ?_⟩
  · exact (frame_emit d _ s).andThen
      (frame_setResource d i _ _ _ hr rfl (fun e he => by simp [hm, Ne.symm he]))
  · intro j
    rw [ownerOf_setResource i _ _ (emit d (.lock i) s) hr j]
    rfl

theorem tryLockResource_ok (d i : Nat) (s : World) (hi : i < s.resourcePool.resources.length)
    (h : ownerOf s i = none) :
    ∃ s', tryLockResource d i s = .done true s' ∧ Frame d s s' ∧
      s'.drinkerPool = s.drinkerPool ∧
      ∀ j, ownerOf s' j = if j = i then some d else ownerOf s j := by
  have hr : s.resourcePool.resources[i]? = some s.resourcePool.resources[i] :=
    List.getElem?_eq_getElem hi
  have hm : (s.resourcePool.resources[i]).resourceMutex = none := by
    rw [← ownerOf_eq s i _ hr]
    exact h
  refine ⟨_, tryLockResource_free d i s _ hr hm, ?_, rfl, ?_⟩
  · exact (frame_emit d _ s).andThen
      (frame_setResource d i _ _ _ hr rfl (fun e he => by simp [hm, Ne.symm he]))
  · intro j
    rw [ownerOf_setResource i _ _ (emit d (.tryLock i true) s) hr j]
    rfl

theorem tryLockResource_fails (d i o : Nat) (s : World) (h : ownerOf s i = some o)
    (hod : o ≠ d) :
    tryLockResource d i s = .done false (emit d (.tryLock i false) s) := by
  have hi := ownerOf_lt s i o h
  have hr : s.resourcePool.resources[i]? = some s.resourcePool.resources[i] :=
    List.getElem?_eq_getElem hi
  have hm : (s.resourcePool.resources[i]).resourceMutex = some o := by
    rw [← ownerOf_eq s i _ hr]
    exact h
  simp [tryLockResource, hr, hm, hod]

theorem lockResource_blocks (d i o : Nat) (s : World) (h : ownerOf s i = some o)
    (hod : o ≠ d) :
    lockResource d i s = .blocked (emit d (.lock i) s) := by
  have hi := ownerOf_lt s i o h
  have hr : s.resourcePool.resources[i]? = some s.resourcePool.resources[i] :=
    List.getElem?_eq_getElem hi
  have hm : (s.resourcePool.resources[i]).resourceMutex = some o := by
    rw [← ownerOf_eq s i _ hr]
    exact h
  exact lockResource_busy d i o s _ hr hm hod

theorem unlockResource_ok (d i : Nat) (s : World) (h : ownerOf s i = some d) :
    ∃ s', unlockResource d i s = .done () s' ∧ Frame d s s' ∧
      s'.drinkerPool = s.drinkerPool ∧
      ∀ j, ownerOf s' j = if j = i then none else ownerOf s j := by
  have hi := ownerOf_lt s i d h
  have hr : s.resourcePool.resources[i]? = some s.resourcePool.resources[i] :=
    List.getElem?_eq_getElem hi
  have hm : (s.resourcePool.resources[i]).resourceMutex = some d := by
    rw [← ownerOf_eq s i _ hr]
    exact h
  refine ⟨_, unlockResource_owned d i s _ hr hm, ?_, rfl, ?_⟩
  · exact (frame_emit d _ s).andThen
      (frame_setResource d i _ _ _ hr rfl (fun e he => by simp [hm, Ne.symm he]))
  · intro j
    rw [ownerOf_setResource i _ _ (emit d (.unlock i) s) hr j]
    rfl

theorem incLockCount_ok (d i : Nat) (s : World) (hi : i < s.resourcePool.resources.length) :
    ∃ s', incLockCount i s = .done () s' ∧ Frame d s s' ∧
      s'.drinkerPool = s.drinkerPool ∧ ∀ j, ownerOf s' j = ownerOf s j := by
  have hr : s.resourcePool.resources[i]? = some s.resourcePool.resources[i] :=
    List.getElem?_eq_getElem hi
  refine ⟨_, incLockCount_some i s _ hr, frame_setResource d i _ _ _ hr rfl (fun _ _ => Iff.rfl),
    rfl, ?_⟩
  intro j
  rw [ownerOf_setResource i _ _ _ hr j]
  by_cases hj : j = i
  · subst hj
    simp [ownerOf_eq s j _ hr]
  · simp [hj]

theorem incUseCount_ok (d i : Nat) (s : World) (hi : i < s.resourcePool.resources.length) :
    ∃ s', incUseCount i s = .done () s' ∧ Frame d s s' ∧
      s'.drinkerPool = s.drinkerPool ∧ ∀ j, ownerOf s' j = ownerOf s j := by
  have hr : s.resourcePool.resources[i]? = some s.resourcePool.resources[i] :=
    List.getElem?_eq_getElem hi
  refine ⟨_, incUseCount_some i s _ hr, frame_setResource d i _ _ _ hr rfl (fun _ _ => Iff.rfl),
    rfl, ?_⟩
  intro j
  rw [ownerOf_setResource i _ _ _ hr j]
  by_cases hj : j = i
  · subst hj
    simp [ownerOf_eq s j _ hr]
  · simp [hj]

theorem updDrinker_ok (d : Nat) (f : Drinker → Drinker) (s : World)
    (hd : d < s.drinkerPool.drinkers.length) :
    ∃ s', updDrinker d f s = .done () s' ∧ Frame d s s' ∧
      (∀ j, ownerOf s' j = ownerOf s j) ∧
      bottleOf s' d = (f s.drinkerPool.drinkers[d]).bottle ∧
      openerOf s' d = (f s.drinkerPool.drinkers[d]).opener ∧
      bottleOf s d = (s.drinkerPool.drinkers[d]).bottle ∧
      openerOf s d = (s.drinkerPool.drinkers[d]).opener := by
  have hc : s.drinkerPool.drinkers[d]? = some s.drinkerPool.drinkers[d] :=
    List.getElem?_eq_getElem hd
  refine ⟨_, updDrinker_some d f s _ hc, frame_setDrinker d _ _ s hc, fun _ => rfl, ?_, ?_,
    bottleOf_eq s d _ hc, openerOf_eq s d _ hc⟩
  · rw [bottleOf_setDrinker d _ _ s hc d]
    simp
  · rw [openerOf_setDrinker d _ _ s hc d]
    simp

end primitive_steps

section thread_steps

theorem bottleOf_congr {s s' : World} (h : s'.drinkerPool = s.drinkerPool) (e : Nat) :
    bottleOf s' e = bottleOf s e := by
  unfold bottleOf
  rw [h]

theorem openerOf_congr {s s' : World} (h : s'.drinkerPool = s.drinkerPool) (e : Nat) :
    openerOf s' e = openerOf s e := by
  unfold openerOf
  rw [h]

theorem Inv.own {m : Machine} (h : Inv m) {d : Nat} {pc : Pc} (hpc : m.pcs[d]? = some pc)
    (i : Nat) : ownerOf m.world i = some d ↔ pc.holds m.world d i := by
  rw [h.owned d i]
  constructor
  · rintro ⟨pc1, h1, h2⟩
    rw [hpc] at h1
    injection h1 with h1
    subst h1
    exact h2
  · intro h2
    exact ⟨pc, hpc, h2⟩

theorem Inv.drinker_lt {m : Machine} (h : Inv m) {d : Nat} {pc : Pc}
    (hpc : m.pcs[d]? = some pc) : d < m.world.drinkerPool.drinkers.length := by
  rw [← h.threads]
  exact (List.getElem?_eq_some_iff.mp hpc).1

theorem step_outside (m : Machine) (d : Nat) (k : Draws) (hinv : Inv m)
    (hpc : m.pcs[d]? = some Pc.outside) : GoodStep m d k Pc.outside := by
  have hd := hinv.drinker_lt hpc
  have hown := hinv.own hpc
  obtain ⟨s1, h1, f1, o1, _⟩ := updDrinker_ok d
    (fun c => { c with resourceTryCount := c.resourceTryCount + 1 }) m.world hd
  have hne : m.world.resourcePool.totalResources ≠ 0 := ne_of_gt hinv.pool.1
  have htm := tmod_index k.rnd m.world hinv.pool
  have hlt := index_lt k.rnd m.world hinv.pool
  refine ⟨.locking (k.rnd % m.world.resourcePool.resources.length), s1, ?_, f1, ?_, ?_, ?_⟩
  · have hnn : ¬ (((k.rnd % m.world.resourcePool.resources.length : Nat) : Int) < 0) := by
      omega
    simp only [threadStep, hne, if_false, h1, Res.bind, htm]
    rw [if_neg hnn, Int.toNat_ofNat]
  · intro i
    rw [o1 i, hown i]
    simp [Pc.holds]
  · simp only [Pc.Placed]
    rw [f1.size]
    exact hlt
  · intro h
    simp [Pc.remaining] at h

theorem step_locking (m : Machine) (d : Nat) (k : Draws) (f : Nat) (hinv : Inv m)
    (hpc : m.pcs[d]? = some (Pc.locking f)) :
    GoodStep m d k (Pc.locking f) ∨
    ∃ o, ownerOf m.world f = some o ∧ o ≠ d ∧
      threadStep d k (Pc.locking f) m.world = .blocked (emit d (.lock f) m.world) := by
  have hd := hinv.drinker_lt hpc
  have hown := hinv.own hpc
  have hf : f < m.world.resourcePool.resources.length := hinv.placed d _ hpc
  cases ho : ownerOf m.world f with
  | some o =>
    right
    have hod : o ≠ d := by
      intro h
      subst h
      exact (hown f).mp ho
    exact ⟨o, rfl, hod, by simp [threadStep, lockResource_blocks d f o m.world ho hod, Res.bind]⟩
  | none =>
    left
    obtain ⟨s1, h1, f1, p1, o1⟩ := lockResource_ok d f m.world hf ho
    obtain ⟨s2, h2, f2, p2, o2⟩ := incLockCount_ok d f s1 (by rw [f1.size]; exact hf)
    have hf2 : f < s2.resourcePool.resources.length := by
      rw [f2.size, f1.size]
      exact hf
    have hr2 : s2.resourcePool.resources[f]? = some s2.resourcePool.resources[f] :=
      List.getElem?_eq_getElem hf2
    have hd2 : d < s2.drinkerPool.drinkers.length := by
      rw [f2.crowd, f1.crowd]
      exact hd
    have hmine : ∀ s3, (∀ j, ownerOf s3 j = ownerOf s2 j) →
        ∀ i, ownerOf s3 i = some d ↔ i = f := by
      intro s3 o3 i
      rw [o3 i, o2 i, o1 i]
      by_cases hi : i = f
      · simp [hi]
      · simp only [hi, if_false, iff_false]
        intro h
        exact (hown i).mp h
    by_cases hty : (s2.resourcePool.resources[f]).type = ResourceType.Bottle
    · obtain ⟨s3, h3, f3, o3, b3, _⟩ :=
        updDrinker_ok d (fun c => { c with bottle := some f }) s2 hd2
      refine ⟨.scanning f 0, s3, ?_, (f1.andThen f2).andThen f3, hmine s3 o3, ?_, ?_⟩
      · simp [threadStep, h1, h2, hr2, hty, h3, Res.bind]
      · refine ⟨ResourceType.Bottle, ?_, ?_⟩
        · rw [f3.types f, typeOf_eq s2 f _ hr2, hty]
        · simpa using b3
      · intro h
        simp [Pc.remaining] at h
    · obtain ⟨s3, h3, f3, o3, _, b3, _⟩ :=
        updDrinker_ok d (fun c => { c with opener := some f }) s2 hd2
      refine ⟨.scanning f 0, s3, ?_, (f1.andThen f2).andThen f3, hmine s3 o3, ?_, ?_⟩
      · simp [threadStep, h1, h2, hr2, hty, h3, Res.bind]
      · refine ⟨(s2.resourcePool.resources[f]).type, ?_, ?_⟩
        · rw [f3.types f, typeOf_eq s2 f _ hr2]
        · simpa [hty] using b3
      · intro h
        simp [Pc.remaining] at h

theorem step_scanning (m : Machine) (d : Nat) (k : Draws) (f i : Nat) (hinv : Inv m)
    (hpc : m.pcs[d]? = some (Pc.scanning f i)) : GoodStep m d k (Pc.scanning f i) := by
  have hd := hinv.drinker_lt hpc
  have hown : ∀ j, ownerOf m.world j = some d ↔ j = f := hinv.own hpc
  obtain ⟨t, ht, hptr⟩ : ∃ t, typeOf m.world f = some t ∧
      (if t = ResourceType.Bottle then bottleOf m.world d = some f
        else openerOf m.world d = some f) := hinv.placed d _ hpc
  have hof := (hown f).mpr rfl
  have hf := ownerOf_lt m.world f d hof
  have hrf : m.world.resourcePool.resources[f]? = some m.world.resourcePool.resources[f] :=
    List.getElem?_eq_getElem hf
  have htf : (m.world.resourcePool.resources[f]).type = t := by
    rw [typeOf_eq m.world f _ hrf] at ht
    injection ht
  by_cases hi : (i : Int) < m.world.resourcePool.totalResources
  · have hil : i < m.world.resourcePool.resources.length := by
      rw [hinv.pool.2] at hi
      exact_mod_cast hi
    have hri : m.world.resourcePool.resources[i]? = some m.world.resourcePool.resources[i] :=
      List.getElem?_eq_getElem hil
    have hrem : 0 < (Pc.scanning f i).remaining m.world.resourcePool.resources.length →
        (Pc.scanning f (i + 1)).remaining m.world.resourcePool.resources.length
          < (Pc.scanning f i).remaining m.world.resourcePool.resources.length := by
      intro _
      simp only [Pc.remaining]
      omega
    have htry : ∀ (upd : Drinker → Drinker),
        (m.world.resourcePool.resources[i]).type ≠ t →
        (∀ c : Drinker, (if t = ResourceType.Bottle then (upd c).bottle = c.bottle ∧
          (upd c).opener = some i else (upd c).opener = c.opener ∧ (upd c).bottle = some i)) →
        ∃ pc' s', ((tryLockResource d i m.world).bind fun ok s =>
            if ok then
              (updDrinker d upd s).bind fun _ s =>
              (incLockCount i s).bind fun _ s => .done Pc.acquiredPair s
            else .done (Pc.scanning f (i + 1)) s) = .done pc' s' ∧
          Frame d m.world s' ∧ (∀ j, ownerOf s' j = some d ↔ pc'.holds s' d j) ∧
          pc'.Placed s' d ∧
          (0 < (Pc.scanning f i).remaining m.world.resourcePool.resources.length →
            pc'.remaining m.world.resourcePool.resources.length
              < (Pc.scanning f i).remaining m.world.resourcePool.resources.length) := by
      intro upd hne hupd
      have hif : i ≠ f := by
        intro h
        subst h
        exact hne htf
      cases ho : ownerOf m.world i with
      | some o =>
        have hod : o ≠ d := by
          intro h
          subst h
          exact hif ((hown i).mp ho)
        refine ⟨.scanning f (i + 1), emit d (.tryLock i false) m.world, ?_, frame_emit d _ _,
          hown, ⟨t, ht, hptr⟩, hrem⟩
        simp [tryLockResource_fails d i o m.world ho hod, Res.bind]
      | none =>
        obtain ⟨s1, h1, f1, p1, o1⟩ := tryLockResource_ok d i m.world hil ho
        have hd1 : d < s1.drinkerPool.drinkers.length := by
          rw [f1.crowd]
          exact hd
        obtain ⟨s2, h2, f2, o2, b2, e2, b1, e1⟩ := updDrinker_ok d upd s1 hd1
        obtain ⟨s3, h3, f3, p3, o3⟩ := incLockCount_ok d i s2
          (by rw [f2.size, f1.size]; exact hil)
        have hmine : ∀ j, ownerOf s3 j = some d ↔ j = f ∨ j = i := by
          intro j
          rw [o3 j, o2 j, o1 j]
          by_cases hj : j = i
          · simp [hj]
          · simp [hj, hown j]
        have hb3 : bottleOf s3 d = bottleOf s2 d := bottleOf_congr p3 d
        have he3 : openerOf s3 d = openerOf s2 d := openerOf_congr p3 d
        have hb0 : bottleOf s1 d = bottleOf m.world d := bottleOf_congr p1 d
        have he0 : openerOf s1 d = openerOf m.world d := openerOf_congr p1 d
        have hu := hupd (s1.drinkerPool.drinkers[d])
        have hpair : (bottleOf s3 d = some f ∧ openerOf s3 d = some i) ∨
            (bottleOf s3 d = some i ∧ openerOf s3 d = some f) := by
          by_cases htb : t = ResourceType.Bottle
          · simp only [htb, if_true] at hu hptr
            left
            rw [hb3, he3, b2, e2, hu.1, hu.2, ← b1, hb0, hptr]
            exact ⟨rfl, rfl⟩
          · simp only [htb, if_false] at hu hptr
            right
            rw [hb3, he3, b2, e2, hu.1, hu.2, ← e1, he0, hptr]
            exact ⟨rfl, rfl⟩
        refine ⟨.acquiredPair, s3, ?_, (f1.andThen f2).andThen f3, ?_, ?_, ?_⟩
        · simp [h1, h2, h3, Res.bind]
        · intro j
          rw [hmine j]
          simp only [Pc.holds]
          rcases hpair with ⟨hb, he⟩ | ⟨hb, he⟩
          · rw [hb, he]
            simp [eq_comm]
          · rw [hb, he]
            simp only [Option.some.injEq]
            constructor
            · rintro (h | h)
              · exact Or.inr h.symm
              · exact Or.inl h.symm
            · rintro (h | h)
              · exact Or.inr h.symm
              · exact Or.inl h.symm
        · simp only [Pc.Placed]
          rcases hpair with ⟨hb, he⟩ | ⟨hb, he⟩
          · exact ⟨f, i, hb, he, Ne.symm hif⟩
          · exact ⟨i, f, hb, he, hif⟩
        · intro _
          simp only [Pc.remaining]
          omega
    by_cases htb : (m.world.resourcePool.resources[f]).type = ResourceType.Bottle
    · by_cases hto : (m.world.resourcePool.resources[i]).type = ResourceType.Opener
      · obtain ⟨pc', s', h1, h2, h3, h4, h5⟩ := htry (fun c => { c with opener := some i })
          (by rw [hto, ← htf, htb]; decide)
          (by intro c; rw [← htf, htb]; simp)
        refine ⟨pc', s', ?_, h2, h3, h4, h5⟩
        simp only [threadStep, hi, if_true, hrf, hri, htb, hto]
        exact h1
      · refine ⟨.scanning f (i + 1), m.world, ?_, Frame.same _ _, hown, ⟨t, ht, hptr⟩, hrem⟩
        simp [threadStep, hi, hrf, hri, htb, hto]
    · by_cases hto : (m.world.resourcePool.resources[i]).type = ResourceType.Bottle
      · obtain ⟨pc', s', h1, h2, h3, h4, h5⟩ := htry (fun c => { c with bottle := some i })
          (by rw [hto, ← htf]; exact fun h => htb h.symm)
          (by intro c; rw [← htf]; simp [htb])
        refine ⟨pc', s', ?_, h2, h3, h4, h5⟩
        simp only [threadStep, hi, if_true, hrf, hri, htb, hto, if_false]
        exact h1
      · refine ⟨.scanning f (i + 1), m.world, ?_, Frame.same _ _, hown, ⟨t, ht, hptr⟩, hrem⟩
        simp [threadStep, hi, hrf, hri, htb, hto]
  · obtain ⟨s1, h1, f1, p1, o1⟩ := unlockResource_ok d f m.world hof
    refine ⟨.notifying false, s1, ?_, f1, ?_, trivial, ?_⟩
    · simp [threadStep, hi, h1, Res.bind]
    · intro j
      rw [o1 j]
      by_cases hj : j = f
      · simp [hj, Pc.holds]
      · simp [hj, Pc.holds, hown j]
    · intro _
      simp [Pc.remaining]

theorem pointer_drinker (s : World) (d : Nat) (hd : d < s.drinkerPool.drinkers.length) :
    s.drinkerPool.drinkers[d]? = some s.drinkerPool.drinkers[d] ∧
      bottleOf s d = (s.drinkerPool.drinkers[d]).bottle ∧
      openerOf s d = (s.drinkerPool.drinkers[d]).opener := by
  have hc : s.drinkerPool.drinkers[d]? = some s.drinkerPool.drinkers[d] :=
    List.getElem?_eq_getElem hd
  exact ⟨hc, bottleOf_eq s d _ hc, openerOf_eq s d _ hc⟩

theorem step_acquiredPair (m : Machine) (d : Nat) (k : Draws) (hinv : Inv m)
    (hpc : m.pcs[d]? = some Pc.acquiredPair) : GoodStep m d k Pc.acquiredPair := by
  have hd := hinv.drinker_lt hpc
  have hown : ∀ j, ownerOf m.world j = some d ↔
      (bottleOf m.world d = some j ∨ openerOf m.world d = some j) := hinv.own hpc
  obtain ⟨b, o, hb, ho, hbo⟩ : ∃ b o, bottleOf m.world d = some b ∧
      openerOf m.world d = some o ∧ b ≠ o := hinv.placed d _ hpc
  obtain ⟨hc, hcb, hco⟩ := pointer_drinker m.world d hd
  rw [hb] at hcb
  rw [ho] at hco
  have hbl := ownerOf_lt m.world b d ((hown b).mpr (Or.inl hb))
  have hol := ownerOf_lt m.world o d ((hown o).mpr (Or.inr ho))
  obtain ⟨s1, h1, f1, p1, o1⟩ := incUseCount_ok d b m.world hbl
  obtain ⟨s2, h2, f2, p2, o2⟩ := incUseCount_ok d o s1 (by rw [f1.size]; exact hol)
  have hb2 : bottleOf s2 d = bottleOf m.world d :=
    (bottleOf_congr p2 d).trans (bottleOf_congr p1 d)
  have ho2 : openerOf s2 d = openerOf m.world d :=
    (openerOf_congr p2 d).trans (openerOf_congr p1 d)
  refine ⟨.sleeping (20 + Int.tmod k.r1 20) (40 + Int.tmod k.r2 10) (60 + Int.tmod k.r3 10),
    s2, ?_, f1.andThen f2, ?_, ?_, ?_⟩
  · simp [threadStep, hc, ← hcb, ← hco, h1, h2, Res.bind]
  · intro j
    simp only [Pc.holds]
    rw [o2 j, o1 j, hb2, ho2]
    exact hown j
  · simp only [Pc.Placed]
    rw [hb2, ho2]
    exact ⟨b, o, hb, ho, hbo⟩
  · intro _
    simp [Pc.remaining]

theorem step_sleeping (m : Machine) (d : Nat) (k : Draws) (t1 t2 t3 : Int) (hinv : Inv m)
    (hpc : m.pcs[d]? = some (Pc.sleeping t1 t2 t3)) : GoodStep m d k (Pc.sleeping t1 t2 t3) := by
  have hown : ∀ j, ownerOf m.world j = some d ↔
      (bottleOf m.world d = some j ∨ openerOf m.world d = some j) := hinv.own hpc
  have hpl : ∃ b o, bottleOf m.world d = some b ∧
      openerOf m.world d = some o ∧ b ≠ o := hinv.placed d _ hpc
  refine ⟨.unlockingBottle t2 t3, emit d (.sleep t1) m.world, ?_, frame_emit d _ _, hown, hpl, ?_⟩
  · simp [threadStep, sleepFor, Res.bind]
  · intro _
    simp [Pc.remaining]

theorem step_unlockingBottle (m : Machine) (d : Nat) (k : Draws) (t2 t3 : Int) (hinv : Inv m)
    (hpc : m.pcs[d]? = some (Pc.unlockingBottle t2 t3)) :
    GoodStep m d k (Pc.unlockingBottle t2 t3) := by
  have hd := hinv.drinker_lt hpc
  have hown : ∀ j, ownerOf m.world j = some d ↔
      (bottleOf m.world d = some j ∨ openerOf m.world d = some j) := hinv.own hpc
  obtain ⟨b, o, hb, ho, hbo⟩ : ∃ b o, bottleOf m.world d = some b ∧
      openerOf m.world d = some o ∧ b ≠ o := hinv.placed d _ hpc
  obtain ⟨hc, hcb, _⟩ := pointer_drinker m.world d hd
  rw [hb] at hcb
  obtain ⟨s1, h1, f1, p1, o1⟩ := unlockResource_ok d b m.world ((hown b).mpr (Or.inl hb))
  have ho1 : openerOf s1 d = some o := (openerOf_congr p1 d).trans ho
  refine ⟨.unlockingOpener t2 t3, s1, ?_, f1, ?_, ⟨o, ho1⟩, ?_⟩
  · simp [threadStep, hc, ← hcb, h1, Res.bind]
  · intro j
    simp only [Pc.holds]
    rw [o1 j, ho1]
    by_cases hj : j = b
    · subst hj
      have hoj : o ≠ j := fun h => hbo h.symm
      simp [hoj]
    · simp only [hj, if_false, hown j, hb, ho, Option.some.injEq]
      constructor
      · rintro (h | h)
        · exact absurd h.symm hj
        · exact h
      · exact fun h => Or.inr h
  · intro _
    simp [Pc.remaining]

theorem step_unlockingOpener (m : Machine) (d : Nat) (k : Draws) (t2 t3 : Int) (hinv : Inv m)
    (hpc : m.pcs[d]? = some (Pc.unlockingOpener t2 t3)) :
    GoodStep m d k (Pc.unlockingOpener t2 t3) := by
  have hd := hinv.drinker_lt hpc
  have hown : ∀ j, ownerOf m.world j = some d ↔ openerOf m.world d = some j := hinv.own hpc
  obtain ⟨o, ho⟩ : ∃ o, openerOf m.world d = some o := hinv.placed d _ hpc
  obtain ⟨hc, _, hco⟩ := pointer_drinker m.world d hd
  rw [ho] at hco
  obtain ⟨s1, h1, f1, p1, o1⟩ := unlockResource_ok d o m.world ((hown o).mpr ho)
  obtain ⟨s2, h2, f2, o2, _⟩ := updDrinker_ok d (fun c => { c with bottle := none }) s1
    (by rw [f1.crowd]; exact hd)
  obtain ⟨s3, h3, f3, o3, _⟩ := updDrinker_ok d (fun c => { c with opener := none }) s2
    (by rw [f2.crowd, f1.crowd]; exact hd)
  obtain ⟨s4, h4, f4, o4, _⟩ := updDrinker_ok d
    (fun c => { c with drinkCount := c.drinkCount + 1 }) s3
    (by rw [f3.crowd, f2.crowd, f1.crowd]; exact hd)
  refine ⟨.pausing t2 t3, s4, ?_, ((f1.andThen f2).andThen f3).andThen f4, ?_, trivial, ?_⟩
  · simp [threadStep, hc, ← hco, h1, h2, h3, h4, Res.bind]
  · intro j
    simp only [Pc.holds, iff_false]
    rw [o4 j, o3 j, o2 j, o1 j]
    by_cases hj : j = o
    · simp [hj]
    · simp only [hj, if_false, hown j, ho, Option.some.injEq]
      exact fun h => hj h.symm
  · intro _
    simp [Pc.remaining]

theorem step_pausing (m : Machine) (d : Nat) (k : Draws) (t2 t3 : Int) (hinv : Inv m)
    (hpc : m.pcs[d]? = some (Pc.pausing t2 t3)) : GoodStep m d k (Pc.pausing t2 t3) := by
  have hd := hinv.drinker_lt hpc
  have hown : ∀ j, ownerOf m.world j = some d ↔ False := hinv.own hpc
  obtain ⟨hc, _, _⟩ := pointer_drinker m.world d hd
  have hrem : 0 < (Pc.pausing t2 t3).remaining m.world.resourcePool.resources.length →
      (Pc.notifying true).remaining m.world.resourcePool.resources.length
        < (Pc.pausing t2 t3).remaining m.world.resourcePool.resources.length := by
    intro h
    simp [Pc.remaining] at h
  by_cases h5 : Int.tmod (m.world.drinkerPool.drinkers[d]).drinkCount 5 = 0
  · refine ⟨.notifying true, emit d (.sleep t2) m.world, ?_, frame_emit d _ _, hown, trivial,
      hrem⟩
    simp [threadStep, hc, h5, sleepFor, Res.bind]
  · by_cases h10 : Int.tmod (m.world.drinkerPool.drinkers[d]).drinkCount 10 = 0
    · refine ⟨.notifying true, emit d (.sleep t3) m.world, ?_, frame_emit d _ _, hown, trivial,
        hrem⟩
      simp [threadStep, hc, h5, h10, sleepFor, Res.bind]
    · refine ⟨.notifying true, m.world, ?_, Frame.same _ _, hown, trivial, hrem⟩
      simp [threadStep, hc, h5, h10]

theorem step_notifying (m : Machine) (d : Nat) (k : Draws) (b : Bool) (hinv : Inv m)
    (hpc : m.pcs[d]? = some (Pc.notifying b)) : GoodStep m d k (Pc.notifying b) := by
  have hown : ∀ j, ownerOf m.world j = some d ↔ False := hinv.own hpc
  refine ⟨.outside, emit d .notifyAll m.world, ?_, frame_emit d _ _, hown, trivial, ?_⟩
  · simp [threadStep]
  · intro h
    simp [Pc.remaining] at h

/-- Under the invariant every thread can take its step, except a thread that is
about to lock a resource another thread holds. -/
theorem step_cases (m : Machine) (d : Nat) (k : Draws) (pc : Pc) (hinv : Inv m)
    (hpc : m.pcs[d]? = some pc) :
    GoodStep m d k pc ∨
    ∃ f o, pc = Pc.locking f ∧ ownerOf m.world f = some o ∧ o ≠ d ∧
      threadStep d k pc m.world = .blocked (emit d (.lock f) m.world) := by
  cases pc with
  | outside => exact Or.inl (step_outside m d k hinv hpc)
  | locking f =>
    rcases step_locking m d k f hinv hpc with h | ⟨o, h1, h2, h3⟩
    · exact Or.inl h
    · exact Or.inr ⟨f, o, rfl, h1, h2, h3⟩
  | scanning f i => exact Or.inl (step_scanning m d k f i hinv hpc)
  | acquiredPair => exact Or.inl (step_acquiredPair m d k hinv hpc)
  | sleeping t1 t2 t3 => exact Or.inl (step_sleeping m d k t1 t2 t3 hinv hpc)
  | unlockingBottle t2 t3 => exact Or.inl (step_unlockingBottle m d k t2 t3 hinv hpc)
  | unlockingOpener t2 t3 => exact Or.inl (step_unlockingOpener m d k t2 t3 hinv hpc)
  | pausing t2 t3 => exact Or.inl (step_pausing m d k t2 t3 hinv hpc)
  | notifying b => exact Or.inl (step_notifying m d k b hinv hpc)

end thread_steps

section interleaving

theorem holds_congr {d e : Nat} {s s' : World} (hf : Frame d s s') (he : e ≠ d) (pc : Pc)
    (i : Nat) : pc.holds s' e i ↔ pc.holds s e i := by
  cases pc <;> simp only [Pc.holds, hf.bottles e he, hf.openers e he]

theorem placed_congr {d e : Nat} {s s' : World} (hf : Frame d s s') (he : e ≠ d) (pc : Pc) :
    pc.Placed s' e ↔ pc.Placed s e := by
  cases pc <;> simp only [Pc.Placed, hf.bottles e he, hf.openers e he, hf.size, hf.types]

/-- A good step of one thread keeps the invariant. -/
theorem Inv.after_step {m : Machine} (hinv : Inv m) {d : Nat} {pc pc' : Pc} {s' : World}
    (hpc : m.pcs[d]? = some pc) (hf : Frame d m.world s')
    (hown : ∀ i, ownerOf s' i = some d ↔ pc'.holds s' d i) (hpl : pc'.Placed s' d) :
    Inv ⟨s', m.pcs.set d pc'⟩ := by
  have hdl : d < m.pcs.length := (List.getElem?_eq_some_iff.mp hpc).1
  have hget : ∀ e, (m.pcs.set d pc')[e]? = if e = d then some pc' else m.pcs[e]? := by
    intro e
    by_cases he : e = d
    · subst he
      simp [List.getElem?_set, hdl]
    · simp [List.getElem?_set, he, Ne.symm he]
  refine ⟨⟨?_, ?_⟩, ?_, ?_, ?_⟩
  · show 0 < s'.resourcePool.totalResources
    rw [hf.total]
    exact hinv.pool.1
  · show s'.resourcePool.totalResources = (s'.resourcePool.resources.length : Int)
    rw [hf.total, hf.size]
    exact hinv.pool.2
  · show (m.pcs.set d pc').length = s'.drinkerPool.drinkers.length
    rw [List.length_set, hf.crowd]
    exact hinv.threads
  · intro e i
    show ownerOf s' i = some e ↔ ∃ pc1, (m.pcs.set d pc')[e]? = some pc1 ∧ pc1.holds s' e i
    by_cases he : e = d
    · subst he
      rw [hown i, hget e]
      simp
    · rw [hf.owners e i he, hinv.owned e i, hget e]
      simp only [he, if_false]
      constructor
      · rintro ⟨pc1, h1, h2⟩
        exact ⟨pc1, h1, (holds_congr hf he pc1 i).mpr h2⟩
      · rintro ⟨pc1, h1, h2⟩
        exact ⟨pc1, h1, (holds_congr hf he pc1 i).mp h2⟩
  · intro e pc1 h1
    show pc1.Placed s' e
    rw [hget e] at h1
    by_cases he : e = d
    · subst he
      simp only [if_true, Option.some.injEq] at h1
      subst h1
      exact hpl
    · simp only [he, if_false] at h1
      exact (placed_congr hf he pc1).mpr (hinv.placed e pc1 h1)

theorem ownerOf_of_allFree (s : World) (h : AllFree s) (i : Nat) : ownerOf s i = none := by
  unfold ownerOf
  cases hr : s.resourcePool.resources[i]? with
  | none => rfl
  | some r =>
    have hm := List.getElem?_eq_some_iff.mp hr
    obtain ⟨hi, hri⟩ := hm
    have := h r (by rw [← hri]; exact List.getElem_mem _)
    simp [this]

theorem Inv.start (s : World) (hpool : PoolOK s) (hfree : AllFree s) : Inv (Machine.start s) := by
  have hpcs : ∀ (d : Nat) (pc : Pc), (Machine.start s).pcs[d]? = some pc → pc = Pc.outside := by
    intro d pc h
    have h2 := List.getElem?_eq_some_iff.mp h
    obtain ⟨hd, hget⟩ := h2
    rw [← hget]
    simp [Machine.start]
  refine ⟨hpool, by simp [Machine.start], ?_, ?_⟩
  · intro d i
    show ownerOf s i = some d ↔ _
    rw [ownerOf_of_allFree s hfree i]
    constructor
    · intro h
      cases h
    · rintro ⟨pc, h1, h2⟩
      rw [hpcs d pc h1] at h2
      exact h2.elim
  · intro d pc h
    rw [hpcs d pc h]
    trivial

theorem Inv.step {m : Machine} (hinv : Inv m) (t : Turn) :
    ∃ m', m.step t = some m' ∧ Inv m' := by
  unfold Machine.step
  cases hpc : m.pcs[t.thread]? with
  | none => exact ⟨m, rfl, hinv⟩
  | some pc =>
    rcases step_cases m t.thread t.draws pc hinv hpc with
      ⟨pc', s', h1, h2, h3, h4, _⟩ | ⟨f, o, _, _, _, h4⟩
    · exact ⟨⟨s', m.pcs.set t.thread pc'⟩, by simp [h1], hinv.after_step hpc h2 h3 h4⟩
    · exact ⟨m, by simp [h4], hinv⟩

theorem Inv.run {m : Machine} (hinv : Inv m) (sched : List Turn) :
    ∃ m', Machine.run sched m = some m' ∧ Inv m' := by
  induction sched generalizing m with
  | nil => exact ⟨m, rfl, hinv⟩
  | cons t rest ih =>
    obtain ⟨m1, h1, i1⟩ := hinv.step t
    obtain ⟨m2, h2, i2⟩ := ih i1
    exact ⟨m2, by simp [Machine.run, h1, h2], i2⟩

theorem Inv.exclusive {m : Machine} (hinv : Inv m) (d1 d2 i : Nat) (h1 : Holds m d1 i)
    (h2 : Holds m d2 i) : d1 = d2 := by
  have e1 := (hinv.owned d1 i).mpr h1
  have e2 := (hinv.owned d2 i).mpr h2
  rw [e1] at e2
  injection e2

end interleaving

section exclusion

theorem holds_of_drinking (s : World) (d : Nat) (pc : Pc) (i : Nat) (h : pc.drinking = true) :
    pc.holds s d i ↔ (bottleOf s d = some i ∨ openerOf s d = some i) := by
  cases pc <;> simp [Pc.drinking] at h <;> simp [Pc.holds]

end exclusion

section concurrency

/-- C12: mutual exclusion on the resource mutexes.  The drinker threads start
together on a pool whose mutexes are all free and run under any schedule, one
mutex call (with the thread's own statements after it) at a time.  The run is
defined, and in the machine it reaches, whatever the schedule and however long:
the owner of a resource mutex is exactly the thread that stands where the
program has locked that resource and not yet unlocked it; no two threads stand
there for the same resource; and two drinkers that are both between the return
of a successful `TryToGetResources` and the first unlock in `Drink` never point
at the same resource with their `bottle` or `opener`.  (Between the two unlocks
of `Drink` the same holds of the opener, which is still locked; the `bottle`
pointer of that drinker is stale until it is cleared.) -/
theorem mutual_exclusion (s : World) (sched : List Turn) (hpool : PoolOK s)
    (hfree : AllFree s) :
    ∃ m, Machine.run sched (Machine.start s) = some m ∧
      (∀ d i, Holds m d i ↔ ownerOf m.world i = some d) ∧
      (∀ d1 d2 i, Holds m d1 i → Holds m d2 i → d1 = d2) ∧
      (∀ (d1 d2 : Nat) (pc1 pc2 : Pc) (i : Nat),
        m.pcs[d1]? = some pc1 → m.pcs[d2]? = some pc2 →
        pc1.drinking = true → pc2.drinking = true →
        (bottleOf m.world d1 = some i ∨ openerOf m.world d1 = some i) →
        (bottleOf m.world d2 = some i ∨ openerOf m.world d2 = some i) → d1 = d2) := by
  obtain ⟨m, hrun, hinv⟩ := (Inv.start s hpool hfree).run sched
  refine ⟨m, hrun, fun d i => (hinv.owned d i).symm, hinv.exclusive, ?_⟩
  intro d1 d2 pc1 pc2 i h1 h2 w1 w2 r1 r2
  exact hinv.exclusive d1 d2 i
    ⟨pc1, h1, (holds_of_drinking m.world d1 pc1 i w1).mpr r1⟩
    ⟨pc2, h2, (holds_of_drinking m.world d2 pc2 i w2).mpr r2⟩

theorem exampleWorld_allFree : AllFree exampleWorld :=
  fun r hr => (exampleWorld_initial.2.1 r hr).2.2

/-- Witness for C12: the two drinkers of `exampleWorld` under
`exampleSchedule`. -/
theorem mutual_exclusion_witness :
    PoolOK exampleWorld ∧ AllFree exampleWorld ∧
    ∃ m, Machine.run exampleSchedule (Machine.start exampleWorld) = some m ∧
      (∀ d i, Holds m d i ↔ ownerOf m.world i = some d) ∧
      (∀ d1 d2 i, Holds m d1 i → Holds m d2 i → d1 = d2) ∧
      (∀ (d1 d2 : Nat) (pc1 pc2 : Pc) (i : Nat),
        m.pcs[d1]? = some pc1 → m.pcs[d2]? = some pc2 →
        pc1.drinking = true → pc2.drinking = true →
        (bottleOf m.world d1 = some i ∨ openerOf m.world d1 = some i) →
        (bottleOf m.world d2 = some i ∨ openerOf m.world d2 = some i) → d1 = d2) :=
  ⟨exampleWorld_poolOK, exampleWorld_allFree,
    mutual_exclusion exampleWorld exampleSchedule exampleWorld_poolOK exampleWorld_allFree⟩

/-- In the machine `exampleSchedule` leads to, drinker 0 sleeps in `Drink`
and drinker 1 is about to lock bottle 1, which drinker 0 holds together with
opener 2. -/
theorem exampleSchedule_blocks :
    (Machine.run exampleSchedule (Machine.start exampleWorld)).map
        (fun m => (m.pcs, ownerOf m.world 1, ownerOf m.world 2))
      = some ([Pc.sleeping 23 43 63, Pc.locking 1], some 0, some 0) := by
  decide

/-- Run alone, a thread of the machine goes through `TryToDrink` as the
sequential function does: eleven steps of drinker 0 in `exampleWorld` leave the
resources and the drinkers as the call does. -/
theorem solo_agrees :
    (Machine.run (List.replicate 11 ⟨0, ⟨4, 0, 0, 0⟩⟩) (Machine.start exampleWorld)).map
        (fun m => (m.world.resourcePool.resources, m.world.drinkerPool.drinkers))
      = (TryToDrink 0 4 0 0 0 exampleWorld).state?.map
        (fun w => (w.resourcePool.resources, w.drinkerPool.drinkers)) := by
  decide

end concurrency

section counting

theorem Res.bind_done {α β : Type} {x : Res α} {f : α → World → Res β} {b : β} {s' : World}
    (h : x.bind f = .done b s') : ∃ a s1, x = .done a s1 ∧ f a s1 = .done b s' := by
  cases x with
  | done a s1 => exact ⟨a, s1, rfl, h⟩
  | blocked s1 => simp [Res.bind] at h
  | undefined => simp [Res.bind] at h

theorem Shift.still (s : World) : Shift 0 0 0 0 s s :=
  ⟨by simp, by simp, by simp, by simp⟩

theorem Shift.andAlso {a b c e a' b' c' e' : Int} {s1 s2 s3 : World}
    (h12 : Shift a b c e s1 s2) (h23 : Shift a' b' c' e' s2 s3) :
    Shift (a + a') (b + b') (c + c') (e + e') s1 s3 :=
  ⟨by rw [h23.lock, h12.lock]; ring, by rw [h23.use, h12.use]; ring,
    by rw [h23.tried, h12.tried]; ring, by rw [h23.drunk, h12.drunk]; ring⟩

theorem shift_emit (d : Nat) (e : Event) (s : World) : Shift 0 0 0 0 s (emit d e s) :=
  ⟨by simp [lockSum], by simp [useSum], by simp [trySum], by simp [drinkSum]⟩

theorem shift_setResource (i : Nat) (r r' : Resource) (s : World)
    (hr : s.resourcePool.resources[i]? = some r) :
    Shift (r'.lockCount - r.lockCount) (r'.useCount - r.useCount) 0 0 s (setResource i r' s) := by
  refine ⟨?_, ?_, by simp [trySum], by simp [drinkSum]⟩
  · simp only [lockSum, setResource_resources]
    rw [sum_map_set (fun r => r.lockCount) _ i r r' hr]
    ring
  · simp only [useSum, setResource_resources]
    rw [sum_map_set (fun r => r.useCount) _ i r r' hr]
    ring

theorem shift_setDrinker (d : Nat) (c c' : Drinker) (s : World)
    (hc : s.drinkerPool.drinkers[d]? = some c) :
    Shift 0 0 (c'.resourceTryCount - c.resourceTryCount) (c'.drinkCount - c.drinkCount) s
      (setDrinker d c' s) := by
  refine ⟨by simp [lockSum], by simp [useSum], ?_, ?_⟩
  · simp only [trySum, setDrinker_drinkers]
    rw [sum_map_set (fun c => c.resourceTryCount) _ d c c' hc]
    ring
  · simp only [drinkSum, setDrinker_drinkers]
    rw [sum_map_set (fun c => c.drinkCount) _ d c c' hc]
    ring

theorem lockResource_shift (d i : Nat) (s s' : World) (u : Unit)
    (h : lockResource d i s = .done u s') : Shift 0 0 0 0 s s' := by
  unfold lockResource at h
  cases hr : s.resourcePool.resources[i]? with
  | none => simp [hr] at h
  | some r =>
    simp only [hr] at h
    cases hm : r.resourceMutex with
    | none =>
      simp only [hm, Res.done.injEq, true_and] at h
      subst h
      have := (shift_emit d (.lock i) s).andAlso
        (shift_setResource i r { r with resourceMutex := some d } (emit d (.lock i) s) hr)
      simpa using this
    | some o =>
      simp only [hm] at h
      split at h <;> cases h

theorem tryLockResource_shift (d i : Nat) (s s' : World) (ok : Bool)
    (h : tryLockResource d i s = .done ok s') : Shift 0 0 0 0 s s' := by
  unfold tryLockResource at h
  cases hr : s.resourcePool.resources[i]? with
  | none => simp [hr] at h
  | some r =>
    simp only [hr] at h
    cases hm : r.resourceMutex with
    | none =>
      simp only [hm, Res.done.injEq] at h
      obtain ⟨_, h⟩ := h
      subst h
      have := (shift_emit d (.tryLock i true) s).andAlso
        (shift_setResource i r { r with resourceMutex := some d }
          (emit d (.tryLock i true) s) hr)
      simpa using this
    | some o =>
      simp only [hm] at h
      split at h
      · cases h
      · simp only [Res.done.injEq] at h
        obtain ⟨_, h⟩ := h
        subst h
        exact shift_emit d _ s

theorem unlockResource_shift (d i : Nat) (s s' : World) (u : Unit)
    (h : unlockResource d i s = .done u s') : Shift 0 0 0 0 s s' := by
  unfold unlockResource at h
  cases hr : s.resourcePool.resources[i]? with
  | none => simp [hr] at h
  | some r =>
    simp only [hr] at h
    split at h
    · simp only [Res.done.injEq, true_and] at h
      subst h
      have := (shift_emit d (.unlock i) s).andAlso
        (shift_setResource i r { r with resourceMutex := none } (emit d (.unlock i) s) hr)
      simpa using this
    · cases h

theorem incLockCount_shift (i : Nat) (s s' : World) (u : Unit)
    (h : incLockCount i s = .done u s') : Shift 1 0 0 0 s s' := by
  unfold incLockCount at h
  cases hr : s.resourcePool.resources[i]? with
  | none => simp [hr] at h
  | some r =>
    simp only [hr, Res.done.injEq, true_and] at h
    subst h
    have := shift_setResource i r { r with lockCount := r.lockCount + 1 } s hr
    simpa using this

theorem incUseCount_shift (i : Nat) (s s' : World) (u : Unit)
    (h : incUseCount i s = .done u s') : Shift 0 1 0 0 s s' := by
  unfold incUseCount at h
  cases hr : s.resourcePool.resources[i]? with
  | none => simp [hr] at h
  | some r =>
    simp only [hr, Res.done.injEq, true_and] at h
    subst h
    have := shift_setResource i r { r with useCount := r.useCount + 1 } s hr
    simpa using this

theorem updDrinker_shift (d : Nat) (f : Drinker → Drinker) (a b : Int) (s s' : World) (u : Unit)
    (hf : ∀ c, (f c).resourceTryCount = c.resourceTryCount + a ∧
      (f c).drinkCount = c.drinkCount + b)
    (h : updDrinker d f s = .done u s') : Shift 0 0 a b s s' := by
  unfold updDrinker at h
  cases hc : s.drinkerPool.drinkers[d]? with
  | none => simp [hc] at h
  | some c =>
    simp only [hc, Res.done.injEq, true_and] at h
    subst h
    have := shift_setDrinker d c (f c) s hc
    rw [(hf c).1, (hf c).2] at this
    simpa using this

end counting
section counting_steps

/-- What one step of a thread does to the four totals, measured against the
change of its position. -/
theorem threadStep_shift (d : Nat) (k : Draws) (pc pc' : Pc) (s s' : World)
    (h : threadStep d k pc s = .done pc' s') :
    ∃ a b c e, Shift a b c e s s' ∧ a - c - e = pc'.lockAhead - pc.lockAhead ∧
      b - 2 * e = pc'.useAhead - pc.useAhead ∧ pc'.tryAhead - pc.tryAhead ≤ c - e := by
  cases pc with
  | outside =>
    simp only [threadStep] at h
    split at h
    · cases h
    · obtain ⟨u, s1, h1, h⟩ := Res.bind_done h
      split at h
      · cases h
      · simp only [Res.done.injEq] at h
        obtain ⟨hpc, hs⟩ := h
        subst hpc
        subst hs
        have f1 := updDrinker_shift d _ 1 0 s s1 u (fun c => ⟨rfl, by simp⟩) h1
        exact ⟨0, 0, 1, 0, f1, by simp [Pc.lockAhead], by simp [Pc.useAhead],
          by simp [Pc.tryAhead]⟩
  | locking f =>
    simp only [threadStep] at h
    obtain ⟨u1, s1, h1, h⟩ := Res.bind_done h
    obtain ⟨u2, s2, h2, h⟩ := Res.bind_done h
    split at h
    · cases h
    · obtain ⟨u3, s3, h3, h⟩ := Res.bind_done h
      simp only [Res.done.injEq] at h
      obtain ⟨hpc, hs⟩ := h
      subst hpc
      subst hs
      have f1 := lockResource_shift d f s s1 u1 h1
      have f2 := incLockCount_shift f s1 s2 u2 h2
      have f3 : Shift 0 0 0 0 s2 s3 := by
        split at h3
        · exact updDrinker_shift d _ 0 0 s2 s3 u3 (fun c => ⟨by simp, by simp⟩) h3
        · exact updDrinker_shift d _ 0 0 s2 s3 u3 (fun c => ⟨by simp, by simp⟩) h3
      have := (f1.andAlso f2).andAlso f3
      exact ⟨_, _, _, _, this, by simp [Pc.lockAhead], by simp [Pc.useAhead],
        by simp [Pc.tryAhead]⟩
  | scanning f i =>
    have hstay : ∀ t, Shift 0 0 0 0 s t →
        ∃ a b c e, Shift a b c e s t ∧
          a - c - e = (Pc.scanning f (i + 1)).lockAhead - (Pc.scanning f i).lockAhead ∧
          b - 2 * e = (Pc.scanning f (i + 1)).useAhead - (Pc.scanning f i).useAhead ∧
          (Pc.scanning f (i + 1)).tryAhead - (Pc.scanning f i).tryAhead ≤ c - e := by
      intro t ht
      exact ⟨0, 0, 0, 0, ht, by simp [Pc.lockAhead], by simp [Pc.useAhead],
        by simp [Pc.tryAhead]⟩
    have htry : ∀ (upd : Drinker → Drinker),
        (∀ c, (upd c).resourceTryCount = c.resourceTryCount + 0 ∧
          (upd c).drinkCount = c.drinkCount + 0) →
        ((tryLockResource d i s).bind fun ok s =>
            if ok then
              (updDrinker d upd s).bind fun _ s =>
              (incLockCount i s).bind fun _ s => .done Pc.acquiredPair s
            else .done (Pc.scanning f (i + 1)) s) = .done pc' s' →
        ∃ a b c e, Shift a b c e s s' ∧
          a - c - e = pc'.lockAhead - (Pc.scanning f i).lockAhead ∧
          b - 2 * e = pc'.useAhead - (Pc.scanning f i).useAhead ∧
          pc'.tryAhead - (Pc.scanning f i).tryAhead ≤ c - e := by
      intro upd hupd h
      obtain ⟨ok, s1, h1, h⟩ := Res.bind_done h
      have f1 := tryLockResource_shift d i s s1 ok h1
      cases ok with
      | false =>
        simp only [Bool.false_eq_true, if_false, Res.done.injEq] at h
        obtain ⟨hpc, hs⟩ := h
        subst hpc
        subst hs
        exact hstay _ f1
      | true =>
        simp only [if_true] at h
        obtain ⟨u2, s2, h2, h⟩ := Res.bind_done h
        obtain ⟨u3, s3, h3, h⟩ := Res.bind_done h
        simp only [Res.done.injEq] at h
        obtain ⟨hpc, hs⟩ := h
        subst hpc
        subst hs
        have f2 := updDrinker_shift d upd 0 0 s1 s2 u2 hupd h2
        have f3 := incLockCount_shift i s2 s3 u3 h3
        have := (f1.andAlso f2).andAlso f3
        exact ⟨_, _, _, _, this, by simp [Pc.lockAhead], by simp [Pc.useAhead],
          by simp [Pc.tryAhead]⟩
    simp only [threadStep] at h
    split at h
    · split at h
      · split at h
        · split at h
          · exact htry _ (fun c => ⟨by simp, by simp⟩) h
          · simp only [Res.done.injEq] at h
            obtain ⟨hpc, hs⟩ := h
            subst hpc
            subst hs
            exact hstay _ (Shift.still s)
        · split at h
          · exact htry _ (fun c => ⟨by simp, by simp⟩) h
          · simp only [Res.done.injEq] at h
            obtain ⟨hpc, hs⟩ := h
            subst hpc
            subst hs
            exact hstay _ (Shift.still s)
      · cases h
    · obtain ⟨u1, s1, h1, h⟩ := Res.bind_done h
      simp only [Res.done.injEq] at h
      obtain ⟨hpc, hs⟩ := h
      subst hpc
      subst hs
      have f1 := unlockResource_shift d f s s1 u1 h1
      exact ⟨0, 0, 0, 0, f1, by simp [Pc.lockAhead], by simp [Pc.useAhead],
        by simp [Pc.tryAhead]⟩
  | acquiredPair =>
    simp only [threadStep] at h
    split at h
    · cases h
    · split at h
      · obtain ⟨u1, s1, h1, h⟩ := Res.bind_done h
        obtain ⟨u2, s2, h2, h⟩ := Res.bind_done h
        simp only [Res.done.injEq] at h
        obtain ⟨hpc, hs⟩ := h
        subst hpc
        subst hs
        have := (incUseCount_shift _ s s1 u1 h1).andAlso (incUseCount_shift _ s1 s2 u2 h2)
        exact ⟨_, _, _, _, this, by simp [Pc.lockAhead], by simp [Pc.useAhead],
          by simp [Pc.tryAhead]⟩
      · cases h
  | sleeping t1 t2 t3 =>
    simp only [threadStep, sleepFor, Res.bind, Res.done.injEq] at h
    obtain ⟨hpc, hs⟩ := h
    subst hpc
    subst hs
    exact ⟨0, 0, 0, 0, shift_emit d _ s, by simp [Pc.lockAhead], by simp [Pc.useAhead],
      by simp [Pc.tryAhead]⟩
  | unlockingBottle t2 t3 =>
    simp only [threadStep] at h
    split at h
    · cases h
    · split at h
      · cases h
      · obtain ⟨u1, s1, h1, h⟩ := Res.bind_done h
        simp only [Res.done.injEq] at h
        obtain ⟨hpc, hs⟩ := h
        subst hpc
        subst hs
        exact ⟨0, 0, 0, 0, unlockResource_shift d _ s s1 u1 h1, by simp [Pc.lockAhead],
          by simp [Pc.useAhead], by simp [Pc.tryAhead]⟩
  | unlockingOpener t2 t3 =>
    simp only [threadStep] at h
    split at h
    · cases h
    · split at h
      · cases h
      · obtain ⟨u1, s1, h1, h⟩ := Res.bind_done h
        obtain ⟨u2, s2, h2, h⟩ := Res.bind_done h
        obtain ⟨u3, s3, h3, h⟩ := Res.bind_done h
        obtain ⟨u4, s4, h4, h⟩ := Res.bind_done h
        simp only [Res.done.injEq] at h
        obtain ⟨hpc, hs⟩ := h
        subst hpc
        subst hs
        have f1 := unlockResource_shift d _ s s1 u1 h1
        have f2 := updDrinker_shift d _ 0 0 s1 s2 u2 (fun c => ⟨by simp, by simp⟩) h2
        have f3 := updDrinker_shift d _ 0 0 s2 s3 u3 (fun c => ⟨by simp, by simp⟩) h3
        have f4 := updDrinker_shift d _ 0 1 s3 s4 u4 (fun c => ⟨by simp, rfl⟩) h4
        have := ((f1.andAlso f2).andAlso f3).andAlso f4
        exact ⟨_, _, _, _, this, by simp [Pc.lockAhead], by simp [Pc.useAhead],
          by simp [Pc.tryAhead]⟩
  | pausing t2 t3 =>
    simp only [threadStep] at h
    split at h
    · cases h
    · split at h
      · simp only [sleepFor, Res.bind, Res.done.injEq] at h
        obtain ⟨hpc, hs⟩ := h
        subst hpc
        subst hs
        exact ⟨0, 0, 0, 0, shift_emit d _ s, by simp [Pc.lockAhead], by simp [Pc.useAhead],
          by simp [Pc.tryAhead]⟩
      · split at h
        · simp only [sleepFor, Res.bind, Res.done.injEq] at h
          obtain ⟨hpc, hs⟩ := h
          subst hpc
          subst hs
          exact ⟨0, 0, 0, 0, shift_emit d _ s, by simp [Pc.lockAhead], by simp [Pc.useAhead],
            by simp [Pc.tryAhead]⟩
        · simp only [Res.done.injEq] at h
          obtain ⟨hpc, hs⟩ := h
          subst hpc
          subst hs
          exact ⟨0, 0, 0, 0, Shift.still s, by simp [Pc.lockAhead], by simp [Pc.useAhead],
            by simp [Pc.tryAhead]⟩
  | notifying b =>
    simp only [threadStep, Res.done.injEq] at h
    obtain ⟨hpc, hs⟩ := h
    subst hpc
    subst hs
    exact ⟨0, 0, 0, 0, shift_emit d _ s, by simp [Pc.lockAhead], by simp [Pc.useAhead],
      by simp [Pc.tryAhead]⟩

end counting_steps
section totals

theorem Counted.atStart (s : World) (h : Initial s) : Counted (Machine.start s) := by
  obtain ⟨_, _, hu, hd, hl, ht⟩ := Initial.totals s h
  have hz : ∀ (g : Pc → Int), g Pc.outside = 0 →
      ((Machine.start s).pcs.map g).sum = 0 := by
    intro g hg
    simp [Machine.start, List.map_replicate, List.sum_replicate, hg]
  refine ⟨?_, ?_, ?_⟩
  · show lockSum s = trySum s + drinkSum s + _
    rw [hz _ rfl, hl, ht, hd]
    simp
  · show useSum s = 2 * drinkSum s + _
    rw [hz _ rfl, hu, hd]
    simp
  · show drinkSum s + _ ≤ trySum s
    rw [hz _ rfl, hd, ht]
    simp

theorem Counted.afterTurn {m m' : Machine} (h : Counted m) (t : Turn) (hs : m.step t = some m') :
    Counted m' := by
  unfold Machine.step at hs
  cases hpc : m.pcs[t.thread]? with
  | none =>
    simp only [hpc, Option.some.injEq] at hs
    subst hs
    exact h
  | some pc =>
    simp only [hpc] at hs
    cases hr : threadStep t.thread t.draws pc m.world with
    | undefined => simp [hr] at hs
    | blocked s1 =>
      simp only [hr, Option.some.injEq] at hs
      subst hs
      exact h
    | done pc' s' =>
      simp only [hr, Option.some.injEq] at hs
      subst hs
      obtain ⟨a, b, c, e, hsh, h1, h2, h3⟩ :=
        threadStep_shift t.thread t.draws pc pc' m.world s' hr
      have hL := sum_map_set Pc.lockAhead m.pcs t.thread pc pc' hpc
      have hU := sum_map_set Pc.useAhead m.pcs t.thread pc pc' hpc
      have hT := sum_map_set Pc.tryAhead m.pcs t.thread pc pc' hpc
      have h0 := h.locks
      have h0u := h.uses
      have h0t := h.tries
      refine ⟨?_, ?_, ?_⟩
      · show lockSum s' = trySum s' + drinkSum s' + _
        rw [hL, hsh.lock, hsh.tried, hsh.drunk]
        linarith
      · show useSum s' = 2 * drinkSum s' + _
        rw [hU, hsh.use, hsh.drunk]
        linarith
      · show drinkSum s' + _ ≤ trySum s'
        rw [hT, hsh.tried, hsh.drunk]
        linarith

theorem Counted.afterRun {m m' : Machine} (h : Counted m) (sched : List Turn)
    (hr : Machine.run sched m = some m') : Counted m' := by
  induction sched generalizing m with
  | nil =>
    simp only [Machine.run, Option.some.injEq] at hr
    subst hr
    exact h
  | cons t rest ih =>
    simp only [Machine.run] at hr
    cases hs : m.step t with
    | none => simp [hs] at hr
    | some m1 =>
      simp only [hs, Option.some_bind] at hr
      exact ih (h.afterTurn t hs) hr

theorem quiet_sum (m : Machine) (hq : m.Quiet) (g : Pc → Int) (hg : g Pc.outside = 0) :
    (m.pcs.map g).sum = 0 := by
  apply List.sum_eq_zero
  intro x hx
  obtain ⟨pc, hpc, rfl⟩ := List.mem_map.mp hx
  rw [hq pc hpc, hg]

theorem ahead_nonneg (pcs : List Pc) :
    (pcs.map Pc.useAhead).sum ≤ (pcs.map Pc.tryAhead).sum + (pcs.map Pc.lockAhead).sum := by
  induction pcs with
  | nil => simp
  | cons pc rest ih =>
    simp only [List.map_cons, List.sum_cons]
    have : pc.useAhead ≤ pc.tryAhead + pc.lockAhead := by
      cases pc <;> simp [Pc.useAhead, Pc.tryAhead, Pc.lockAhead]
    linarith

/-- The drinkers run together from an initial state under any schedule: the run
is defined and the counters of the machine reached add up. -/
theorem counted_run (s : World) (sched : List Turn) (h0 : Initial s) :
    ∃ m, Machine.run sched (Machine.start s) = some m ∧ Counted m := by
  obtain ⟨hp, hf, _⟩ := Initial.totals s h0
  obtain ⟨m, hrun, _⟩ := (Inv.start s hp hf).run sched
  exact ⟨m, hrun, (Counted.atStart s h0).afterRun sched hrun⟩

/-- C4: conservation.  The drinker threads start together in an initial state
(all counters zero) and run under any schedule, one mutex call at a time, so
that their calls of `TryToDrink` interleave in any way.  The run is defined,
and in the machine it reaches the sum of `useCount` over all resources is twice
the sum of `drinkCount` over all drinkers, plus 2 for every drinker that is in
`Drink` between the increments of `useCount` and that of `drinkCount`.  In
every state reached by complete calls (no call under way) the sum of `useCount`
is exactly twice the sum of `drinkCount`. -/
theorem interleaved_conservation (s : World) (sched : List Turn) (h0 : Initial s) :
    ∃ m, Machine.run sched (Machine.start s) = some m ∧
      useSum m.world = 2 * drinkSum m.world + (m.pcs.map Pc.useAhead).sum ∧
      (m.Quiet → useSum m.world = 2 * drinkSum m.world) := by
  obtain ⟨m, hrun, hc⟩ := counted_run s sched h0
  refine ⟨m, hrun, hc.uses, fun hq => ?_⟩
  rw [hc.uses, quiet_sum m hq _ rfl]
  simp

/-- C7: the drinker threads start together in an initial state and run under
any schedule, one mutex call at a time.  The run is defined, and in the
machine it reaches, whether calls of `TryToDrink` are under way or all have
returned (so in particular after stop), the sum of `lockCount` over all
resources is at least the sum of `useCount` over all resources. -/
theorem interleaved_lockSum_ge_useSum (s : World) (sched : List Turn) (h0 : Initial s) :
    ∃ m, Machine.run sched (Machine.start s) = some m ∧ useSum m.world ≤ lockSum m.world := by
  obtain ⟨m, hrun, hc⟩ := counted_run s sched h0
  refine ⟨m, hrun, ?_⟩
  have h1 := hc.locks
  have h2 := hc.uses
  have h3 := hc.tries
  have h4 := ahead_nonneg m.pcs
  linarith

/-- C17: accounting identity.  The drinker threads start together in an initial
state (all counters zero) and run under any schedule, one mutex call at a time.
The run is defined, and in the machine it reaches the sum of `lockCount` over
all resources is the sum of `resourceTryCount` plus the sum of `drinkCount`
over all drinkers, less 1 for every drinker that has counted an attempt and not
yet locked its first resource, plus 1 for every drinker that has locked its
second resource and not yet counted the drink.  In every state reached by
complete calls (no call under way) the sum of `lockCount` is exactly the sum
of `resourceTryCount` plus the sum of `drinkCount`. -/
theorem interleaved_lock_accounting (s : World) (sched : List Turn) (h0 : Initial s) :
    ∃ m, Machine.run sched (Machine.start s) = some m ∧
      lockSum m.world
        = trySum m.world + drinkSum m.world + (m.pcs.map Pc.lockAhead).sum ∧
      (m.Quiet → lockSum m.world = trySum m.world + drinkSum m.world) := by
  obtain ⟨m, hrun, hc⟩ := counted_run s sched h0
  refine ⟨m, hrun, hc.locks, fun hq => ?_⟩
  rw [hc.locks, quiet_sum m hq _ rfl]
  simp

theorem pairWorld_initial : Initial pairWorld :=
  ⟨⟨by decide, by decide⟩, by decide, by decide⟩

/-- The machine `contendedSchedule` leads to: both calls have returned, one
after a failed `try_lock`; 3 locks, 2 uses, 2 attempts, 1 drink. -/
theorem contendedSchedule_totals :
    (Machine.run contendedSchedule (Machine.start exampleWorld)).map
        (fun m => (m.pcs, lockSum m.world, useSum m.world, trySum m.world, drinkSum m.world))
      = some ([Pc.outside, Pc.outside], 3, 2, 2, 1) := by
  decide

/-- The machine `bothFailSchedule` leads to: both calls have returned `false`;
2 locks, no use, 2 attempts, no drink. -/
theorem bothFailSchedule_totals :
    (Machine.run bothFailSchedule (Machine.start pairWorld)).map
        (fun m => (m.pcs, lockSum m.world, useSum m.world, trySum m.world, drinkSum m.world))
      = some ([Pc.outside, Pc.outside], 2, 0, 2, 0) := by
  decide

/-- Witness for C4: the two drinkers of `exampleWorld` under
`contendedSchedule`, in which one attempt fails. -/
theorem interleaved_conservation_witness :
    Initial exampleWorld ∧
    ∃ m, Machine.run contendedSchedule (Machine.start exampleWorld) = some m ∧
      useSum m.world = 2 * drinkSum m.world + (m.pcs.map Pc.useAhead).sum ∧
      (m.Quiet → useSum m.world = 2 * drinkSum m.world) :=
  ⟨exampleWorld_initial,
    interleaved_conservation exampleWorld contendedSchedule exampleWorld_initial⟩

/-- Witness for C17: the two drinkers of `pairWorld` under `bothFailSchedule`,
where both attempts fail. -/
theorem interleaved_lock_accounting_witness :
    Initial pairWorld ∧
    ∃ m, Machine.run bothFailSchedule (Machine.start pairWorld) = some m ∧
      lockSum m.world
        = trySum m.world + drinkSum m.world + (m.pcs.map Pc.lockAhead).sum ∧
      (m.Quiet → lockSum m.world = trySum m.world + drinkSum m.world) :=
  ⟨pairWorld_initial,
    interleaved_lock_accounting pairWorld bothFailSchedule pairWorld_initial⟩

end totals

section stop_request

theorem raiseStop_trace (b : Bool) (s : World) : (raiseStop b s).trace = s.trace := by
  cases b <;> rfl

theorem raiseStop_resourcePool (b : Bool) (s : World) :
    (raiseStop b s).resourcePool = s.resourcePool := by
  cases b <;> rfl

theorem idle_raiseStop {d : Nat} {s : World} (b : Bool) (h : Idle d s) :
    Idle d (raiseStop b s) := by
  cases b
  · exact h
  · exact h

theorem Cyclic.of_raiseStop {α : Type} {d : Nat} {x : Res α} {s : World} (b : Bool)
    (h : Cyclic d x (raiseStop b s)) : Cyclic d x s := by
  refine ⟨?_, h.2⟩
  intro s' hs
  obtain ⟨T, h1, h2, h3⟩ := h.1 s' hs
  exact ⟨T, by rw [h1, raiseStop_trace], h2, h3⟩

theorem StartDrinkerPass_cyclic (d : Nat) (p : Pass) (s : World) (h : Idle d s) :
    Cyclic d (StartDrinkerPass d p s) s := by
  unfold StartDrinkerPass
  have i0 := idle_raiseStop p.stopBefore h
  apply Cyclic.of_raiseStop p.stopBefore
  refine Cyclic.seq (lockGun_cyclic d _ i0) ?_
  intro _ s1 h1
  have i1 := (lockGun_cyclic d _ i0).2 _ _ h1
  refine Cyclic.seq (readStop_cyclic d s1 i1) ?_
  intro stop s2 h2
  have i2 := (readStop_cyclic d s1 i1).2 _ _ h2
  cases stop with
  | true => exact Cyclic.ret _ i2
  | false =>
    simp only [Bool.false_eq_true, if_false]
    refine Cyclic.seq (unlockGun_cyclic d s2 i2) ?_
    intro _ s3 h3
    have i3 := (unlockGun_cyclic d s2 i2).2 _ _ h3
    refine Cyclic.seq (TryToDrink_cyclic d _ _ _ _ s3 i3) ?_
    intro drank s4 h4
    have i4 := (TryToDrink_cyclic d _ _ _ _ s3 i3).2 _ _ h4
    have j4 := idle_raiseStop p.stopDuring i4
    apply Cyclic.of_raiseStop p.stopDuring
    cases drank with
    | true => exact Cyclic.ret _ j4
    | false =>
      simp only [Bool.not_false, if_true]
      refine Cyclic.seq (lockGun_cyclic d _ j4) ?_
      intro _ s5 h5
      have i5 := (lockGun_cyclic d _ j4).2 _ _ h5
      refine Cyclic.seq (readStop_cyclic d s5 i5) ?_
      intro stop s6 h6
      have i6 := (readStop_cyclic d s5 i5).2 _ _ h6
      cases stop with
      | true => exact Cyclic.ret _ i6
      | false =>
        simp only [Bool.false_eq_true, if_false]
        refine Cyclic.seq (lockPool_cyclic d s6 i6) ?_
        intro _ s7 h7
        have i7 := (lockPool_cyclic d s6 i6).2 _ _ h7
        refine Cyclic.seq (unlockGun_cyclic d s7 i7) ?_
        intro _ s8 h8
        have i8 := (unlockGun_cyclic d s7 i7).2 _ _ h8
        refine Cyclic.seq (waitPool_cyclic d s8 i8) ?_
        intro _ s9 h9
        have i9 := (waitPool_cyclic d s8 i8).2 _ _ h9
        refine Cyclic.seq (unlockPool_cyclic d s9 i9) ?_
        intro _ s10 h10
        exact Cyclic.ret _ ((unlockPool_cyclic d s9 i9).2 _ _ h10)

theorem StartDrinkerRun_cyclic (d : Nat) (passes : List Pass) (s : World) (h : Idle d s) :
    Cyclic d (StartDrinkerRun d passes s) s := by
  induction passes generalizing s with
  | nil => exact Cyclic.ret _ h
  | cons p rest ih =>
    unfold StartDrinkerRun
    refine Cyclic.seq (StartDrinkerPass_cyclic d p s h) ?_
    intro brk s1 h1
    have i1 := (StartDrinkerPass_cyclic d p s h).2 _ _ h1
    cases brk with
    | true =>
      simp only [if_true]
      refine Cyclic.seq (unlockGun_cyclic d s1 i1) ?_
      intro _ s2 h2
      exact Cyclic.ret _ ((unlockGun_cyclic d s1 i1).2 _ _ h2)
    | false =>
      simp only [Bool.false_eq_true, if_false]
      exact ih s1 i1

/-- While `main` leaves the flag alone, a pass is a pass of the loop run on its
own. -/
theorem StartDrinkerPass_quiet (d : Nat) (k : Draws) (s : World) :
    StartDrinkerPass d ⟨k, false, false⟩ s = StartDrinkerBody d k s := rfl

/-- C11: stop is observed only between cycles.  An idle drinker enters
`StartDrinker` and `main` sets `stopDrinkingFlag` at any point at which the
drinker does not hold `startingGunMutex`, or never.  However many passes of the
loop the drinker makes and wherever the run stops (returned by either `break`,
still looping, or parked on a mutex), its log is made of whole cycles: every
successful `try_lock` of the second resource is followed by the sleep of
`Drink` and by both `unlock()`s before anything else, and every read of
`stopDrinkingFlag` is made outside such a cycle, with no resource mutex held.
`TryToDrink` itself never reads the flag, and when it returns `true` the
drinker's `drinkCount` is one higher and it holds no resource mutex, so the
reads are those at the top of the loop and after a `TryToDrink` that returned
`false`.  A drinker that has left `StartDrinker` holds no resource mutex. -/
theorem StartDrinker_stop_between_cycles (d : Nat) (passes : List Pass) (s : World)
    (hpool : PoolOK s) (hheld : heldBy s d = 0) :
    (∀ s', (StartDrinkerRun d passes s).state? = some s' →
      ∃ T, s'.trace = s.trace ++ T ∧ (∀ o ∈ T, o.thread = d) ∧
        phaseAfter Phase.between T = Phase.between) ∧
    (∀ s', StartDrinkerRun d passes s = .done true s' → heldBy s' d = 0) ∧
    (∀ rnd r1 r2 r3 t, Idle d t →
      (∀ t', (TryToDrink d rnd r1 r2 r3 t).state? = some t' →
        ∃ T, t'.trace = t.trace ++ T ∧ ∀ o ∈ T, ∀ f, o.event ≠ Event.readStop f) ∧
      (∀ t', TryToDrink d rnd r1 r2 r3 t = .done true t' →
        heldBy t' d = 0 ∧ drinkCountOf t' d = drinkCountOf t d + 1)) := by
  have h := StartDrinkerRun_cyclic d passes s ⟨hpool, hheld⟩
  refine ⟨fun s' hs => h.1 s' hs, fun s' hs => (h.2 true s' hs).2, ?_⟩
  intro rnd r1 r2 r3 t ht
  have hl := TryToDrink_log d rnd r1 r2 r3 t ht
  refine ⟨?_, ?_⟩
  · intro t' ht'
    obtain ⟨T, h1, _, _, h4⟩ := hl.1 t' ht'
    exact ⟨T, h1, h4⟩
  · intro t' ht'
    have := hl.2 true t' ht'
    exact ⟨this.1.2, by simpa using this.2⟩

/-- The drinker of `exampleWorld` drinks once, finds the flag set at the top of
its second pass and leaves `StartDrinker`. -/
theorem stopAfterDrink_leaves :
    (match StartDrinkerRun 0 stopAfterDrink exampleWorld with
      | .done b s => some (b, drinkCountOf s 0, s.trace.map (fun (o : Obs) => (o.event, o.held)))
      | _ => none)
    = some (true, 1, [(.gunLock, 0), (.readStop false, 0), (.gunUnlock, 0), (.lock 1, 0),
        (.tryLock 2 true, 1), (.sleep 20, 2), (.unlock 1, 2), (.unlock 2, 1), (.notifyAll, 0),
        (.gunLock, 0), (.readStop true, 0), (.gunUnlock, 0)]) := by
  decide

/-- The drinker of `contendedWorld` fails to get the opener while `main` sets
the flag, and leaves `StartDrinker` by the `break` after the failed
`TryToDrink` (main.cpp:326-329). -/
theorem stopDuringAttempt_leaves :
    (match StartDrinkerRun 0 stopDuringAttempt contendedWorld with
      | .done b s => some (b, drinkCountOf s 0, s.trace.map (fun (o : Obs) => (o.event, o.held)))
      | _ => none)
    = some (true, 0, [(.gunLock, 0), (.readStop false, 0), (.gunUnlock, 0), (.lock 1, 0),
        (.tryLock 2 false, 1), (.unlock 1, 1), (.notifyAll, 0),
        (.gunLock, 0), (.readStop true, 0), (.gunUnlock, 0)]) := by
  decide

/-- Witness for C11: drinker 0 of `exampleWorld` drinks once and then leaves
`StartDrinker`, holding no resource mutex. -/
theorem StartDrinker_stop_between_cycles_witness :
    PoolOK exampleWorld ∧ heldBy exampleWorld 0 = 0 ∧
    ∃ s', StartDrinkerRun 0 stopAfterDrink exampleWorld = .done true s' ∧
      drinkCountOf s' 0 = 1 ∧ heldBy s' 0 = 0 :=
  ⟨exampleWorld_poolOK, by decide,
    (StartDrinkerRun 0 stopAfterDrink exampleWorld).stateOr exampleWorld, by decide, by decide,
    (StartDrinker_stop_between_cycles 0 stopAfterDrink exampleWorld exampleWorld_poolOK
      (by decide)).2.1 _ (by decide)⟩

end stop_request

section lost_wakeup

/-- What ends the wait: after `parkSchedule`, `main` sets the flag and
notifies, and both drinkers return from `StartDrinker`. -/
theorem stop_ends_the_wait :
    (LoopMachine.run (parkSchedule ++ stopSchedule) (LoopMachine.start pairWorld)).map
        (fun m => (m.pcs, lockState m.world))
      = some ([LoopPc.returned, LoopPc.returned], [none, none]) := by
  decide

end lost_wakeup

section named_case

/-- The machine `fourSchedule` leads to, for 4 drinkers, 2 bottles and 2
openers: every call has returned, two of them after failed scans; 4 locks,
2 uses, 3 attempts, 1 drink. -/
theorem fourSchedule_totals :
    (Machine.run fourSchedule (Machine.start fourWorld)).map
        (fun m => (m.pcs, lockSum m.world, useSum m.world, trySum m.world, drinkSum m.world))
      = some ([Pc.outside, Pc.outside, Pc.outside, Pc.outside], 4, 2, 3, 1) := by
  decide

/-- Witness for C7: 4 drinkers, 2 bottles and 2 openers under `fourSchedule`,
where failed scans leave 4 locks for 2 uses. -/
theorem interleaved_lockSum_ge_useSum_witness :
    Initial fourWorld ∧
    ∃ m, Machine.run fourSchedule (Machine.start fourWorld) = some m ∧
      useSum m.world ≤ lockSum m.world :=
  ⟨initialWorld_initial 4 2 4 (by decide),
    interleaved_lockSum_ge_useSum fourWorld fourSchedule
      (initialWorld_initial 4 2 4 (by decide))⟩

end named_case

end DrinkingGame

namespace ReservationSystem

section bits

theorem testBit_zero_int (k : Nat) : Int.testBit 0 k = false := by
  show Nat.testBit 0 k = false
  simp

theorem int_eq_of_testBit_eq (m n : Int) (h : ∀ k, Int.testBit m k = Int.testBit n k) :
    m = n := by
  cases m with
  | ofNat a =>
    cases n with
    | ofNat b =>
      have : a = b := Nat.eq_of_testBit_eq fun k => h k
      rw [this]
    | negSucc b =>
      exfalso
      have h1 := h (a + b)
      have ha : Nat.testBit a (a + b) = false :=
        Nat.testBit_lt_two_pow (lt_of_lt_of_le (Nat.lt_two_pow a)
          (Nat.pow_le_pow_right (by decide) (Nat.le_add_right a b)))
      have hb : Nat.testBit b (a + b) = false :=
        Nat.testBit_lt_two_pow (lt_of_lt_of_le (Nat.lt_two_pow b)
          (Nat.pow_le_pow_right (by decide) (Nat.le_add_left b a)))
      have e1 : Int.testBit (Int.ofNat a) (a + b) = Nat.testBit a (a + b) := rfl
      have e2 : Int.testBit (Int.negSucc b) (a + b) = !Nat.testBit b (a + b) := rfl
      rw [e1, e2, ha, hb] at h1
      cases h1
  | negSucc a =>
    cases n with
    | ofNat b =>
      exfalso
      have h1 := h (a + b)
      have ha : Nat.testBit a (a + b) = false :=
        Nat.testBit_lt_two_pow (lt_of_lt_of_le (Nat.lt_two_pow a)
          (Nat.pow_le_pow_right (by decide) (Nat.le_add_right a b)))
      have hb : Nat.testBit b (a + b) = false :=
        Nat.testBit_lt_two_pow (lt_of_lt_of_le (Nat.lt_two_pow b)
          (Nat.pow_le_pow_right (by decide) (Nat.le_add_left b a)))
      have e1 : Int.testBit (Int.negSucc a) (a + b) = !Nat.testBit a (a + b) := rfl
      have e2 : Int.testBit (Int.ofNat b) (a + b) = Nat.testBit b (a + b) := rfl
      rw [e1, e2, ha, hb] at h1
      cases h1
    | negSucc b =>
      have : a = b := Nat.eq_of_testBit_eq fun k => by
        have h1 := h k
        have e1 : Int.testBit (Int.negSucc a) k = !Nat.testBit a k := rfl
        have e2 : Int.testBit (Int.negSucc b) k = !Nat.testBit b k := rfl
        rw [e1, e2] at h1
        cases ha : Nat.testBit a k <;> cases hb : Nat.testBit b k <;> simp [ha, hb] at h1 ⊢
      rw [this]

theorem testBit_shiftOne (i k : Nat) :
    Int.testBit ((1 <<< i : Nat) : Int) k = decide (i = k) := by
  show Nat.testBit (1 <<< i) k = decide (i = k)
  rw [Nat.one_shiftLeft, Nat.testBit_two_pow]

theorem land_shiftOne_eq_zero (m : Int) (i : Nat) :
    Int.land m ((1 <<< i : Nat) : Int) = 0 ↔ Int.testBit m i = false := by
  constructor
  · intro h
    have h1 : Int.testBit (Int.land m ((1 <<< i : Nat) : Int)) i = false := by
      rw [h]
      exact testBit_zero_int i
    rw [Int.testBit_land, testBit_shiftOne] at h1
    simpa using h1
  · intro h
    apply int_eq_of_testBit_eq
    intro k
    rw [Int.testBit_land, testBit_shiftOne, testBit_zero_int]
    by_cases hik : i = k
    · subst hik
      simp [h]
    · simp [hik]

theorem set_then_clear (m : Int) (i : Nat) (h : Int.testBit m i = false) :
    Int.land (Int.lor m ((1 <<< i : Nat) : Int)) (Int.lnot ((1 <<< i : Nat) : Int)) = m := by
  apply int_eq_of_testBit_eq
  intro k
  rw [Int.testBit_land, Int.testBit_lor, Int.testBit_lnot, testBit_shiftOne]
  by_cases hik : i = k
  · subst hik
    simp [h]
  · simp [hik]

theorem testBit_after_set (m : Int) (i : Nat) :
    Int.testBit (Int.lor m ((1 <<< i : Nat) : Int)) i = true := by
  rw [Int.testBit_lor, testBit_shiftOne]
  simp

end bits

section pumps

theorem shiftOne_lt (i : Nat) (h : i < 31) : shiftOne i = .ok ((1 <<< i : Nat) : Int) := by
  simp [shiftOne, h]

theorem pumpLoop_cons_busy (i : Nat) (rest : List Nat) (st : Station) (hi : i < 31)
    (hb : Int.testBit st.freeMask i = true) :
    pumpLoop (i :: rest) st = pumpLoop rest (record .unlock (record .lock st)) := by
  have hne : ¬ Int.land st.freeMask ((1 <<< i : Nat) : Int) = 0 := by
    rw [land_shiftOne_eq_zero, hb]
    simp
  simp only [pumpLoop, shiftOne_lt i hi]
  rw [if_neg (by simpa [record] using hne)]

theorem pumpLoop_cons_free (i : Nat) (rest : List Nat) (st : Station) (hi : i < 31)
    (hf : Int.testBit st.freeMask i = false) :
    pumpLoop (i :: rest) st = .ok (true,
      { st with log := st.log ++ [.lock, .unlock,
          .fillTankUp i (Int.lor st.freeMask ((1 <<< i : Nat) : Int)),
          .lock, .unlock, .notifyAll] }) := by
  have he : Int.land st.freeMask ((1 <<< i : Nat) : Int) = 0 :=
    (land_shiftOne_eq_zero _ _).mpr hf
  simp only [pumpLoop, shiftOne_lt i hi]
  rw [if_pos (by simpa [record] using he)]
  simp only [record, set_then_clear st.freeMask i hf, List.append_assoc, List.singleton_append,
    List.cons_append, List.nil_append]

theorem pumpLoop_busy (idxs : List Nat) (st : Station)
    (h : ∀ i ∈ idxs, i < 31 ∧ Int.testBit st.freeMask i = true) :
    pumpLoop idxs st = .ok (false, { st with log := st.log ++ polls idxs.length }) := by
  induction idxs generalizing st with
  | nil => simp [pumpLoop, polls]
  | cons i rest ih =>
    obtain ⟨hi, hb⟩ := h i (List.mem_cons_self _ _)
    rw [pumpLoop_cons_busy i rest st hi hb,
      ih (record .unlock (record .lock st)) (fun k hk => h k (List.mem_cons_of_mem _ hk))]
    simp [record, polls]

theorem pumpLoop_free (pre post : List Nat) (j : Nat) (st : Station)
    (h : ∀ i ∈ pre, i < 31 ∧ Int.testBit st.freeMask i = true) (hj : j < 31)
    (hf : Int.testBit st.freeMask j = false) :
    pumpLoop (pre ++ j :: post) st = .ok (true,
      { st with log := st.log ++ (polls pre.length ++ [.lock, .unlock,
          .fillTankUp j (Int.lor st.freeMask ((1 <<< j : Nat) : Int)),
          .lock, .unlock, .notifyAll]) }) := by
  induction pre generalizing st with
  | nil =>
    rw [List.nil_append, pumpLoop_cons_free j post st hj hf]
    simp [polls]
  | cons i rest ih =>
    obtain ⟨hi, hb⟩ := h i (List.mem_cons_self _ _)
    rw [List.cons_append, pumpLoop_cons_busy i _ st hi hb,
      ih (record .unlock (record .lock st)) (fun k hk => h k (List.mem_cons_of_mem _ hk)) hf]
    simp [record, polls]

theorem fills_polls (n : Nat) : fills (polls n) = [] := by
  induction n with
  | zero => rfl
  | succ m ih => simpa [polls, fills] using ih

theorem divisors_polls (n : Nat) : divisors (polls n) = [] := by
  induction n with
  | zero => rfl
  | succ m ih => simpa [polls, divisors] using ih

theorem fills_append (a b : List StationEvent) : fills (a ++ b) = fills a ++ fills b := by
  induction a with
  | nil => rfl
  | cons e rest ih => cases e <;> simp [fills, ih]

theorem divisors_append (a b : List StationEvent) :
    divisors (a ++ b) = divisors a ++ divisors b := by
  induction a with
  | nil => rfl
  | cons e rest ih => cases e <;> simp [divisors, ih]

theorem wait_not_mem_polls (n : Nat) : StationEvent.wait ∉ polls n := by
  induction n with
  | zero => simp [polls]
  | succ m ih => simpa [polls] using ih

theorem exists_least_free (st : Station) (h : ∃ i, FreePump st i) :
    ∃ j, FreePump st j ∧ ∀ i, i < j → ¬ FreePump st i := by
  classical
  exact ⟨Nat.find h, Nat.find_spec h, fun i hi => Nat.find_min h hi⟩

/-- C16: for every `freeMask` and every `pumpsInStation` between 1 and 31,
`fillUp`, run without interference, returns 1 exactly when some pump index
below `pumpsInStation` has its bit of `freeMask` clear.  It then calls
`fillTankUp` exactly once, on the free pump of lowest index, with that bit set
in `freeMask` during the fill, and leaves `freeMask` as it was on entry.
Otherwise it fills on no pump, leaves `freeMask` unchanged, waits on the station
condition and returns 0. -/
theorem fillUp_uses_lowest_free_pump (st : Station) (h1 : 1 ≤ st.pumpsInStation)
    (h31 : st.pumpsInStation ≤ 31) :
    ((∃ i, FreePump st i) →
      ∃ j st' T, fillUp st = .ok (1, st') ∧ FreePump st j ∧ (∀ i, FreePump st i → j ≤ i) ∧
        st'.log = st.log ++ T ∧
        fills T = [(j, Int.lor st.freeMask ((1 <<< j : Nat) : Int))] ∧
        Int.testBit (Int.lor st.freeMask ((1 <<< j : Nat) : Int)) j = true ∧
        StationEvent.wait ∉ T ∧ st'.freeMask = st.freeMask) ∧
    ((¬ ∃ i, FreePump st i) →
      ∃ st' T, fillUp st = .ok (0, st') ∧ st'.log = st.log ++ T ∧ fills T = [] ∧
        StationEvent.wait ∈ T ∧ st'.freeMask = st.freeMask) := by
  have hn31 : st.pumpsInStation.toNat ≤ 31 := by omega
  constructor
  · intro hex
    obtain ⟨j, hj, hmin⟩ := exists_least_free st hex
    have hjn : j < st.pumpsInStation.toNat := by
      have := hj.1
      omega
    have hloop := pumpLoop_free (List.range j)
      (List.range' (j + 1) (st.pumpsInStation.toNat - j - 1)) j st
      (by
        intro i hi
        have hij : i < j := List.mem_range.mp hi
        refine ⟨by omega, ?_⟩
        have hnf := hmin i hij
        unfold FreePump at hnf
        have hlt : (i : Int) < st.pumpsInStation := by omega
        cases hb : Int.testBit st.freeMask i
        · exact absurd ⟨hlt, hb⟩ hnf
        · rfl)
      (by omega) hj.2
    rw [← DrinkingGame.range_split _ j hjn, List.length_range] at hloop
    have hne : st.pumpsInStation ≠ 0 := by omega
    refine ⟨j,
      { st with log := st.log ++ (polls j ++ [.lock, .unlock,
          .fillTankUp j (Int.lor st.freeMask ((1 <<< j : Nat) : Int)), .lock, .unlock,
          .notifyAll, .divide st.carsInStation st.pumpsInStation,
          .sleep (24 * Int.tdiv st.carsInStation st.pumpsInStation)]) },
      polls j ++ [.lock, .unlock,
          .fillTankUp j (Int.lor st.freeMask ((1 <<< j : Nat) : Int)), .lock, .unlock,
          .notifyAll, .divide st.carsInStation st.pumpsInStation,
          .sleep (24 * Int.tdiv st.carsInStation st.pumpsInStation)],
      ?_, hj, ?_, rfl, ?_, testBit_after_set _ _, ?_, rfl⟩
    · simp only [fillUp, hloop, Bool.true_eq_false, if_false, hne, record]
      simp
    · intro i hi
      by_contra hlt
      exact hmin i (not_le.mp hlt) hi
    · simp [fills_append, fills_polls, fills]
    · intro hw
      rcases List.mem_append.mp hw with hw | hw
      · exact wait_not_mem_polls _ hw
      · simp at hw
  · intro hnone
    have hloop := pumpLoop_busy (List.range st.pumpsInStation.toNat) st
      (by
        intro i hi
        have hin : i < st.pumpsInStation.toNat := List.mem_range.mp hi
        refine ⟨by omega, ?_⟩
        have hlt : (i : Int) < st.pumpsInStation := by omega
        cases hb : Int.testBit st.freeMask i
        · exact absurd ⟨i, hlt, hb⟩ hnone
        · rfl)
    rw [List.length_range] at hloop
    refine ⟨{ st with log := st.log ++ (polls st.pumpsInStation.toNat ++
        [.lock, .wait, .unlock]) },
      polls st.pumpsInStation.toNat ++ [.lock, .wait, .unlock], ?_, rfl, ?_, ?_, rfl⟩
    · simp only [fillUp, hloop, if_true, record]
      simp
    · simp [fills_append, fills_polls, fills]
    · simp

/-- Witness for C16: in `exampleStation` pumps 0 and 2 are in use and pump 1 is
free. -/
theorem fillUp_uses_lowest_free_pump_witness :
    (1 : Int) ≤ exampleStation.pumpsInStation ∧ exampleStation.pumpsInStation ≤ 31 ∧
    ((∃ i, FreePump exampleStation i) → ∃ j st', fillUp exampleStation = .ok (1, st') ∧
      FreePump exampleStation j) :=
  ⟨by decide, by decide,
    fun h => ((fillUp_uses_lowest_free_pump exampleStation (by decide) (by decide)).1 h).elim
      fun j hj => hj.elim fun st' hst => hst.elim fun _ hT => ⟨j, st', hT.1, hT.2.1⟩⟩

end pumps

section division

theorem pumpLoop_frame (idxs : List Nat) (st st' : Station) (b : Bool)
    (h : pumpLoop idxs st = .ok (b, st')) :
    st'.pumpsInStation = st.pumpsInStation ∧ st'.carsInStation = st.carsInStation ∧
      (b = true → idxs ≠ []) ∧ ∃ T, st'.log = st.log ++ T ∧ divisors T = [] := by
  induction idxs generalizing st with
  | nil =>
    simp only [pumpLoop, Except.ok.injEq, Prod.mk.injEq] at h
    obtain ⟨hb, hs⟩ := h
    subst hs
    subst hb
    have hnb : false = true → ([] : List Nat) ≠ [] := fun hb' => Bool.noConfusion hb'
    exact ⟨rfl, rfl, hnb, [], by simp, rfl⟩
  | cons i rest ih =>
    simp only [pumpLoop] at h
    cases hs : shiftOne i with
    | error f => simp [hs] at h
    | ok bit =>
      simp only [hs] at h
      by_cases hz : Int.land (record StationEvent.lock st).freeMask bit = 0
      · rw [if_pos hz] at h
        simp only [Except.ok.injEq, Prod.mk.injEq] at h
        obtain ⟨_, hst⟩ := h
        subst hst
        refine ⟨rfl, rfl, fun _ => List.cons_ne_nil _ _,
          [.lock, .unlock, .fillTankUp i (Int.lor st.freeMask bit), .lock, .unlock,
            .notifyAll], ?_, ?_⟩
        · simp [record]
        · simp [divisors]
      · rw [if_neg hz] at h
        obtain ⟨h1, h2, _, T, hT, hd⟩ := ih _ h
        refine ⟨h1, h2, fun _ => List.cons_ne_nil _ _,
          [StationEvent.lock, StationEvent.unlock] ++ T, ?_, ?_⟩
        · rw [hT]
          simp [record]
        · simp [divisors_append, divisors, hd]

theorem pumpLoop_error (idxs : List Nat) (st : Station) (f : Fault)
    (h : pumpLoop idxs st = .error f) : f = .shift ∧ ∃ i ∈ idxs, 32 ≤ i := by
  induction idxs generalizing st with
  | nil => simp [pumpLoop] at h
  | cons i rest ih =>
    simp only [pumpLoop] at h
    cases hs : shiftOne i with
    | error g =>
      simp only [hs, Except.error.injEq] at h
      subst h
      unfold shiftOne at hs
      split at hs
      · simp at hs
      · split at hs
        · simp at hs
        · simp only [Except.error.injEq] at hs
          exact ⟨hs.symm, i, List.mem_cons_self _ _, by omega⟩
    | ok bit =>
      simp only [hs] at h
      split at h
      · simp at h
      · obtain ⟨h1, k, hk, hk32⟩ := ih _ h
        exact ⟨h1, k, List.mem_cons_of_mem _ hk, hk32⟩

theorem fillUp_error (st : Station) (f : Fault) (h : fillUp st = .error f) :
    f = .shift ∧ 32 < st.pumpsInStation := by
  unfold fillUp at h
  cases hl : pumpLoop (List.range st.pumpsInStation.toNat) st with
  | error g =>
    rw [hl] at h
    simp only [Except.error.injEq] at h
    subst h
    obtain ⟨h1, k, hk, hk32⟩ := pumpLoop_error _ st g hl
    have := List.mem_range.mp hk
    exact ⟨h1, by omega⟩
  | ok p =>
    obtain ⟨b, st1⟩ := p
    rw [hl] at h
    obtain ⟨hp, _, hb, _⟩ := pumpLoop_frame _ st st1 b hl
    cases b with
    | false => simp at h
    | true =>
      have hne : List.range st.pumpsInStation.toNat ≠ [] := hb rfl
      have hpos : st1.pumpsInStation ≠ 0 := by
        rw [hp]
        intro h0
        apply hne
        rw [h0]
        rfl
      simp [hpos] at h

/-- C19: division safety of `Station::fillUp`.  For every station state the
division `carsInStation / pumpsInStation` is never reached with a zero divisor;
whenever it is executed `fillUp` is on its success branch (it returns 1) and
the divisor `pumpsInStation` is greater than 0; for `pumpsInStation <= 0`
the loop body never runs, `fillUp` waits on the station condition and returns
0 without dividing.  With up to 32 pumps (the bits of `freeMask`) `fillUp`
always returns; with more, the only other outcome is that the loop reaches
`1 << 32`, which is undefined and comes before the division. -/
theorem fillUp_division_safe (st : Station) :
    fillUp st ≠ .error .divisionByZero ∧
    (∀ r st', fillUp st = .ok (r, st') →
      ∃ T, st'.log = st.log ++ T ∧ (∀ d ∈ divisors T, 0 < d) ∧
        (divisors T ≠ [] → r = 1 ∧ 0 < st.pumpsInStation)) ∧
    (st.pumpsInStation ≤ 0 →
      fillUp st = .ok (0, { st with log := st.log ++ [.lock, .wait, .unlock] })) ∧
    (st.pumpsInStation ≤ 32 → ∃ r st', fillUp st = .ok (r, st')) ∧
    (∀ f, fillUp st = .error f → f = .shift ∧ 32 < st.pumpsInStation) := by
  refine ⟨?_, ?_, ?_, ?_, fillUp_error st⟩
  · intro hf
    have := (fillUp_error st _ hf).1
    cases this
  · intro r st' hr
    unfold fillUp at hr
    cases hl : pumpLoop (List.range st.pumpsInStation.toNat) st with
    | error f => simp [hl] at hr
    | ok p =>
      obtain ⟨b, st1⟩ := p
      rw [hl] at hr
      obtain ⟨hp, hc, hb, T, hT, hd⟩ := pumpLoop_frame _ st st1 b hl
      cases b with
      | false =>
        simp only [if_true, Except.ok.injEq, Prod.mk.injEq] at hr
        obtain ⟨_, hst⟩ := hr
        subst hst
        refine ⟨T ++ [.lock, .wait, .unlock], ?_, ?_, ?_⟩
        · simp [record, hT]
        · simp [divisors_append, hd, divisors]
        · intro h
          simp [divisors_append, hd, divisors] at h
      | true =>
        have hne : List.range st.pumpsInStation.toNat ≠ [] := hb rfl
        have hpos : 0 < st.pumpsInStation := by
          by_contra hle
          apply hne
          have : st.pumpsInStation.toNat = 0 := by omega
          rw [this]
          rfl
        have hne0 : st1.pumpsInStation ≠ 0 := by
          rw [hp]
          exact ne_of_gt hpos
        simp only [Bool.true_eq_false, if_false, hne0, Except.ok.injEq, Prod.mk.injEq] at hr
        obtain ⟨hr1, hst⟩ := hr
        subst hst
        refine ⟨T ++ [.divide st1.carsInStation st1.pumpsInStation,
          .sleep (24 * Int.tdiv st1.carsInStation st1.pumpsInStation)], ?_, ?_, ?_⟩
        · simp [record, hT]
        · intro d hdm
          simp only [divisors_append, hd, divisors, List.nil_append, List.mem_singleton] at hdm
          rw [hdm, hp]
          exact hpos
        · intro _
          exact ⟨hr1.symm, hpos⟩
  · intro hle
    have h0 : st.pumpsInStation.toNat = 0 := by omega
    simp [fillUp, h0, pumpLoop, record]
  · intro hle
    cases hr : fillUp st with
    | error f =>
      have := (fillUp_error st f hr).2
      omega
    | ok p => exact ⟨p.1, p.2, rfl⟩

end division

section sign_bit

theorem pumpLoop_skip_busy (pre rest : List Nat) (st : Station)
    (h : ∀ i ∈ pre, i < 31 ∧ Int.testBit st.freeMask i = true) :
    pumpLoop (pre ++ rest) st
      = pumpLoop rest { st with log := st.log ++ polls pre.length } := by
  induction pre generalizing st with
  | nil => simp [polls]
  | cons i more ih =>
    obtain ⟨hi, hb⟩ := h i (List.mem_cons_self _ _)
    rw [List.cons_append, pumpLoop_cons_busy i _ st hi hb,
      ih (record .unlock (record .lock st)) (fun k hk => h k (List.mem_cons_of_mem _ hk))]
    simp [record, polls]

theorem testBit_low_mask (i : Nat) : Int.testBit 2147483647 i = decide (i < 31) := by
  show Nat.testBit 2147483647 i = decide (i < 31)
  have : (2147483647 : Nat) = 2 ^ 31 - 1 := by norm_num
  rw [this, Nat.testBit_two_pow_sub_one]

theorem land_low_mask_sign : Int.land 2147483647 (-2147483648) = 0 := by
  apply int_eq_of_testBit_eq
  intro k
  rw [Int.testBit_land, testBit_low_mask, testBit_zero_int]
  have : Int.testBit (-2147483648) k = !decide (k < 31) := by
    show (!Nat.testBit 2147483647 k) = !decide (k < 31)
    have h2 : (2147483647 : Nat) = 2 ^ 31 - 1 := by norm_num
    rw [h2, Nat.testBit_two_pow_sub_one]
  rw [this]
  cases decide (k < 31) <;> rfl

theorem pumpLoop_cons_sign (rest : List Nat) (st : Station)
    (h : Int.land st.freeMask (-2147483648) = 0) :
    pumpLoop (31 :: rest) st = .ok (true,
      { st with
        freeMask := Int.land (Int.lor st.freeMask (-2147483648)) (Int.lnot (-2147483648))
        log := st.log ++ [.lock, .unlock,
          .fillTankUp 31 (Int.lor st.freeMask (-2147483648)), .lock, .unlock, .notifyAll] }) := by
  have hs : shiftOne 31 = .ok (-2147483648) := by simp [shiftOne]
  simp only [pumpLoop, hs]
  rw [if_pos (by simpa [record] using h)]
  simp only [record, List.append_assoc, List.singleton_append, List.cons_append,
    List.nil_append]

/-- With 32 pumps of which pumps 0 to 30 are in use and pump 31 is free,
`fillUp` fills up on pump 31, divides by 32 and returns 1. -/
theorem fillUp_sign_pump (st : Station) (hp : st.pumpsInStation = 32)
    (hbusy : ∀ i, i < 31 → Int.testBit st.freeMask i = true)
    (hfree : Int.land st.freeMask (-2147483648) = 0) :
    ∃ st' T, fillUp st = .ok (1, st') ∧ st'.log = st.log ++ T ∧
      fills T = [(31, Int.lor st.freeMask (-2147483648))] ∧ divisors T = [32] := by
  have hsplit : List.range st.pumpsInStation.toNat = List.range 31 ++ [31] := by
    rw [hp]
    exact List.range_succ 31
  have hloop := pumpLoop_skip_busy (List.range 31) [31] st
    (fun i hi => ⟨List.mem_range.mp hi, hbusy i (List.mem_range.mp hi)⟩)
  rw [pumpLoop_cons_sign [] { st with log := st.log ++ polls (List.range 31).length } hfree]
    at hloop
  have hne : ¬ (st.pumpsInStation = 0) := by
    rw [hp]
    decide
  refine ⟨{ st with
      freeMask := Int.land (Int.lor st.freeMask (-2147483648)) (Int.lnot (-2147483648))
      log := st.log ++ (polls 31 ++ [.lock, .unlock,
        .fillTankUp 31 (Int.lor st.freeMask (-2147483648)),
        .lock, .unlock, .notifyAll, .divide st.carsInStation st.pumpsInStation,
        .sleep (24 * Int.tdiv st.carsInStation st.pumpsInStation)]) },
    polls 31 ++ [.lock, .unlock, .fillTankUp 31 (Int.lor st.freeMask (-2147483648)),
        .lock, .unlock, .notifyAll, .divide st.carsInStation st.pumpsInStation,
        .sleep (24 * Int.tdiv st.carsInStation st.pumpsInStation)], ?_, rfl, ?_, ?_⟩
  · unfold fillUp
    rw [hsplit, hloop]
    simp [record, hne]
  · simp [fills_append, fills_polls, fills]
  · simp [divisors_append, divisors_polls, divisors, hp]

/-- Example: the station of 32 pumps with `freeMask = 2 ^ 31 - 1`. -/
theorem fillUp_last_pump :
    ∃ st' T, fillUp ⟨2147483647, 32, 7, []⟩ = .ok (1, st') ∧ st'.log = T ∧
      fills T = [(31, Int.lor 2147483647 (-2147483648))] ∧ divisors T = [32] := by
  obtain ⟨st', T, h1, h2, h3, h4⟩ := fillUp_sign_pump ⟨2147483647, 32, 7, []⟩ rfl
    (fun i hi => by
      show Int.testBit 2147483647 i = true
      rw [testBit_low_mask]
      simp [hi])
    land_low_mask_sign
  exact ⟨st', T, h1, by simpa using h2, h3, h4⟩

end sign_bit

end ReservationSystem
